import Mathlib

/-!
# A verification development for the tree-walking interpreter

The C++ sources `syntax-tree.hpp`, `syntax-tree.cpp` and `interpreter.cpp` are
embedded as Lean functions.

* `std::map<std::string, T>` is a list of key/value pairs kept in key order
  (`StdMap`), so that iterating the list is iterating the map.
* `std::vector<VariableMap>` is a list, index 0 first; `std::stack<int>` is a
  list whose head is the top of the stack.
* `int` is `Int`; a result of `+`, `-` or `*` that an `int` cannot hold (signed
  overflow) is undefined behaviour.
* The shared `Variables&` and `std::cout` are threaded explicitly as a
  `ProgramState`; the diagnostics written to `std::cerr` are not modelled.
* `evaluate` recurses on a budget (`fuel`); undefined behaviour of the C++
  program (division by zero, `top()` of an empty stack, `back()` or
  `pop_back()` of an empty vector, an index out of range) is the outcome
  `undefined_behaviour`; an exception of `std::stoi` is `uncaught_exception`.
* The contents of the input file are a `List Char`; `getline` and `operator>>`
  are the loops `getline_loop` and `extract_tokens`. `parse_block` recurses on
  a budget that bounds the nesting of blocks and the statements of a block;
  `start_line`, passed by reference in C++, is returned with the node.
-/

namespace Interp

/-! ## Outcomes -/

/-- What running a piece of the program yields in the model: a value, or the
budget ran out before it finished, or the C++ program has undefined behaviour,
or it throws an exception that nothing catches (the process terminates). -/
inductive Outcome (α : Type) where
  | ok (value : α)
  | out_of_fuel
  | undefined_behaviour
  | uncaught_exception
  deriving DecidableEq, Repr

/-- Sequencing: run `f` on the value of `x`, propagate anything else. -/
def Outcome.bind {α β : Type} (x : Outcome α) (f : α → Outcome β) : Outcome β :=
  match x with
  | .ok value => f value
  | .out_of_fuel => .out_of_fuel
  | .undefined_behaviour => .undefined_behaviour
  | .uncaught_exception => .uncaught_exception

/-! ## `std::map<std::string, T>` -/

/-- The order of `std::string` keys: lexicographic on the characters. -/
def key_less (a b : String) : Bool := decide (a.data < b.data)

/-- A `std::map<std::string, T>`: its entries in iteration (key) order. -/
abbrev StdMap (α : Type) := List (String × α)

/-- The call `m.find(key)`: the mapped value, or `none` for `m.end()`. -/
def StdMap.find {α : Type} : StdMap α → String → Option α
  | [], _ => none
  | (k, v) :: rest, key => if k = key then some v else StdMap.find rest key

/-- The statement `m[key] = value`: overwrite the entry of `key`, or insert
one at its place in key order. -/
def StdMap.assign {α : Type} : StdMap α → String → α → StdMap α
  | [], key, value => [(key, value)]
  | (k, v) :: rest, key, value =>
    if k = key then (key, value) :: rest
    else if key_less key k then (key, value) :: (k, v) :: rest
    else (k, v) :: StdMap.assign rest key value

/-! ## `Variables` (syntax-tree.hpp 11-29, syntax-tree.cpp 16-55) -/

/-- The type `Variables::VariableMap`. -/
abbrev VariableMap := StdMap Int

/-- The class `Variables`: the scope stack and the stack of function-scope
boundaries (head = top). -/
structure Variables where
  scoped_variables : List VariableMap
  function_scope_indices : List Nat
  deriving DecidableEq, Repr

/-- The constructor `Variables::Variables`: boundary 0 and one empty frame. -/
def Variables.initial : Variables :=
  { scoped_variables := [[]], function_scope_indices := [0] }

/-- The loop of `get_variable_value`, entered with `n = i + 1` for the loop
index `i`: from frame `i` down to `scope_limit`, the value of the first frame
that binds the name. -/
def Variables.get_variable_value_loop (scoped_variables : List VariableMap)
    (variable_name : String) (scope_limit : Nat) : Nat → Option Int
  | 0 => none
  | i + 1 =>
    if scope_limit ≤ i then
      match StdMap.find (scoped_variables.getD i []) variable_name with
      | some value => some value
      | none => Variables.get_variable_value_loop scoped_variables variable_name scope_limit i
    else none

/-- The method `Variables::get_variable_value`; `-1` when the loop finds
nothing. -/
def Variables.get_variable_value (vars : Variables) (variable_name : String) :
    Outcome Int :=
  match vars.function_scope_indices with
  | [] => .undefined_behaviour
  | scope_limit :: _ =>
    match Variables.get_variable_value_loop vars.scoped_variables variable_name
        scope_limit vars.scoped_variables.length with
    | some value => .ok value
    | none => .ok (-1)

/-- The loop of `assign_variable_and_initialize_if_necessary`: from frame `i`
down to `scope_limit`, overwrite the name in the first frame that binds it;
`none` when the loop ends without a `return`. -/
def Variables.assign_loop (scoped_variables : List VariableMap)
    (variable_name : String) (value : Int) (scope_limit : Nat) :
    Nat → Option (List VariableMap)
  | 0 => none
  | i + 1 =>
    if scope_limit ≤ i then
      if (StdMap.find (scoped_variables.getD i []) variable_name).isSome then
        some (scoped_variables.set i
          (StdMap.assign (scoped_variables.getD i []) variable_name value))
      else Variables.assign_loop scoped_variables variable_name value scope_limit i
    else none

/-- The method `Variables::assign_variable_and_initialize_if_necessary`. -/
def Variables.assign_variable_and_initialize_if_necessary (vars : Variables)
    (variable_name : String) (value : Int) : Outcome Variables :=
  match vars.function_scope_indices with
  | [] => .undefined_behaviour
  | scope_limit :: _ =>
    match Variables.assign_loop vars.scoped_variables variable_name value
        scope_limit vars.scoped_variables.length with
    | some updated => .ok { vars with scoped_variables := updated }
    | none =>
      if vars.scoped_variables.length = 0 then .undefined_behaviour
      else
        let back := vars.scoped_variables.length - 1
        .ok { vars with
          scoped_variables := vars.scoped_variables.set back
            (StdMap.assign (vars.scoped_variables.getD back []) variable_name value) }

/-- The method `Variables::enter_block_scope`. -/
def Variables.enter_block_scope (vars : Variables) : Variables :=
  { vars with scoped_variables := vars.scoped_variables ++ [[]] }

/-- The method `Variables::exit_block_scope`. -/
def Variables.exit_block_scope (vars : Variables) : Outcome Variables :=
  if vars.scoped_variables.length = 0 then .undefined_behaviour
  else .ok { vars with scoped_variables := vars.scoped_variables.dropLast }

/-- The method `Variables::enter_function_scope`: the pushed boundary is
`size() - 1` after the `push_back`, the index of the new frame. -/
def Variables.enter_function_scope (vars : Variables) : Variables :=
  { scoped_variables := vars.scoped_variables ++ [[]],
    function_scope_indices :=
      vars.scoped_variables.length :: vars.function_scope_indices }

/-- The method `Variables::exit_function_scope`. -/
def Variables.exit_function_scope (vars : Variables) : Outcome Variables :=
  if vars.scoped_variables.length = 0 then .undefined_behaviour
  else
    match vars.function_scope_indices with
    | [] => .undefined_behaviour
    | _ :: rest =>
      .ok { scoped_variables := vars.scoped_variables.dropLast,
            function_scope_indices := rest }

/-! ## The syntax tree (syntax-tree.hpp 34-137) -/

/-- The enum `SyntaxTreeNodeType`. -/
inductive SyntaxTreeNodeType where
  | STATEMENT_SEQUENCE | OPERAND | RETURN | ASSIGNMENT | BINARY_OPERATION
  | IF_ELSE | FUNCTION_CALL | PRINT | EMPTY | WHILE
  deriving DecidableEq, Repr

/-- The enum `OperandType`. -/
inductive OperandType where
  | IDENTIFIER | LITERAL
  deriving DecidableEq, Repr

/-- The enum `BinaryOperation`. -/
inductive BinaryOperation where
  | ADD | SUBTRACT | MULTIPLY | DIVIDE | MOD | LESS | LESS_EQUAL | GREATER
  | GREATER_EQUAL | EQUAL | NOT_EQUAL | AND | OR
  deriving DecidableEq, Repr

/-- The struct `SyntaxTreeNode::EvaluationResult`, with the defaults of its
constructor. -/
structure EvaluationResult where
  expression_value : Int := 0
  return_value : Int := 0
  should_return : Bool := false
  deriving DecidableEq, Repr

/-- The node structs deriving from `SyntaxTreeNode`, one constructor each with
the struct's fields; `arguments` of a `FunctionNode` is its
`std::map<std::string, SyntaxTreeNode*>` in iteration order. -/
inductive SyntaxTreeNode where
  | StatementSequenceNode (statements : List SyntaxTreeNode)
  | OperandNode (operand_type : OperandType) (identifier_value : String) (literal_value : Int)
  | ReturnNode (value : SyntaxTreeNode)
  | AssignmentNode (variable_name : String) (value : SyntaxTreeNode)
  | BinaryOperationNode (operation : BinaryOperation)
      (left_operand right_operand : SyntaxTreeNode)
  | IfElseNode (condition if_block else_block : SyntaxTreeNode)
  | FunctionNode (body : SyntaxTreeNode) (arguments : List (String × SyntaxTreeNode))
  | PrintNode (value : SyntaxTreeNode)
  | EmptyNode
  | WhileNode (condition body : SyntaxTreeNode)
  deriving Repr

/-- The field `node_type`, as set by each struct's constructor. -/
def SyntaxTreeNode.node_type : SyntaxTreeNode → SyntaxTreeNodeType
  | .StatementSequenceNode _ => .STATEMENT_SEQUENCE
  | .OperandNode _ _ _ => .OPERAND
  | .ReturnNode _ => .RETURN
  | .AssignmentNode _ _ => .ASSIGNMENT
  | .BinaryOperationNode _ _ _ => .BINARY_OPERATION
  | .IfElseNode _ _ _ => .IF_ELSE
  | .FunctionNode _ _ => .FUNCTION_CALL
  | .PrintNode _ => .PRINT
  | .EmptyNode => .EMPTY
  | .WhileNode _ _ => .WHILE

/-! ## Evaluation (syntax-tree.cpp 89-240) -/

/-- The shared `Variables&` of the nodes and the lines written to `std::cout`
(each `print` writes one integer and a newline). -/
structure ProgramState where
  vars : Variables
  cout : List Int
  deriving DecidableEq, Repr

/-- The state in which `Interpreter::run` starts evaluation. -/
def ProgramState.initial : ProgramState :=
  { vars := Variables.initial, cout := [] }

/-- A value that a 32-bit `int` can hold. -/
def in_int_range (x : Int) : Prop := -2147483648 ≤ x ∧ x ≤ 2147483647

instance in_int_range.decidable (x : Int) : Decidable (in_int_range x) :=
  inferInstanceAs (Decidable (-2147483648 ≤ x ∧ x ≤ 2147483647))

/-- The `int` result of `+`, `-` or `*` whose mathematical value is `x`: signed
overflow is undefined. -/
def int_arithmetic_result (x : Int) : Outcome Int :=
  if in_int_range x then .ok x else .undefined_behaviour

/-- A `bool` converted to `int`. -/
def bool_to_int (b : Bool) : Int := if b then 1 else 0

/-- The `switch` of `BinaryOperationNode::evaluate`. Signed overflow of `+`, `-`
and `*`, division and modulo by zero, and `INT_MIN / -1`, are undefined. -/
def apply_binary_operation (operation : BinaryOperation) (left_value right_value : Int) :
    Outcome Int :=
  match operation with
  | .ADD => int_arithmetic_result (left_value + right_value)
  | .SUBTRACT => int_arithmetic_result (left_value - right_value)
  | .MULTIPLY => int_arithmetic_result (left_value * right_value)
  | .DIVIDE =>
    if right_value = 0 ∨ (left_value = -2147483648 ∧ right_value = -1) then
      .undefined_behaviour
    else .ok (Int.tdiv left_value right_value)
  | .MOD =>
    if right_value = 0 ∨ (left_value = -2147483648 ∧ right_value = -1) then
      .undefined_behaviour
    else .ok (Int.tmod left_value right_value)
  | .LESS => .ok (bool_to_int (decide (left_value < right_value)))
  | .LESS_EQUAL => .ok (bool_to_int (decide (left_value ≤ right_value)))
  | .GREATER => .ok (bool_to_int (decide (left_value > right_value)))
  | .GREATER_EQUAL => .ok (bool_to_int (decide (left_value ≥ right_value)))
  | .EQUAL => .ok (bool_to_int (decide (left_value = right_value)))
  | .NOT_EQUAL => .ok (bool_to_int (decide (left_value ≠ right_value)))
  | .AND => .ok (bool_to_int (decide (left_value ≠ 0) && decide (right_value ≠ 0)))
  | .OR => .ok (bool_to_int (decide (left_value ≠ 0) || decide (right_value ≠ 0)))

/-- The type of `evaluate` at one budget. -/
abbrev Evaluator := SyntaxTreeNode → ProgramState → Outcome (EvaluationResult × ProgramState)

/-- The loop of `StatementSequenceNode::evaluate` over `statements`. -/
def evaluate_statements (ev : Evaluator) :
    List SyntaxTreeNode → ProgramState → Outcome (EvaluationResult × ProgramState)
  | [], state => .ok ({}, state)
  | node :: rest, state =>
    (ev node state).bind fun node_result =>
      if node_result.1.should_return then
        .ok ({ return_value := node_result.1.return_value, should_return := true },
             node_result.2)
      else evaluate_statements ev rest node_result.2

/-- The first loop of `FunctionNode::evaluate`: evaluate each argument node, in
the order of the `arguments` map, into the map `argument_values`. -/
def evaluate_arguments (ev : Evaluator) :
    List (String × SyntaxTreeNode) → StdMap Int → ProgramState →
      Outcome (StdMap Int × ProgramState)
  | [], argument_values, state => .ok (argument_values, state)
  | argument :: rest, argument_values, state =>
    (ev argument.2 state).bind fun node_result =>
      evaluate_arguments ev rest
        (StdMap.assign argument_values argument.1 node_result.1.expression_value)
        node_result.2

/-- The second loop of `FunctionNode::evaluate`: assign each entry of
`argument_values`, in map order. -/
def assign_argument_values : StdMap Int → Variables → Outcome Variables
  | [], vars => .ok vars
  | argument_value :: rest, vars =>
    (vars.assign_variable_and_initialize_if_necessary
        argument_value.1 argument_value.2).bind fun vars1 =>
      assign_argument_values rest vars1

/-- The part of `FunctionNode::evaluate` before `body->evaluate()` (lines
191-204): the state in which the body starts. -/
def function_call_entry (ev : Evaluator) (arguments : List (String × SyntaxTreeNode))
    (state : ProgramState) : Outcome ProgramState :=
  (evaluate_arguments ev arguments [] state).bind fun evaluated =>
    (assign_argument_values evaluated.1 evaluated.2.vars.enter_function_scope).bind
      fun vars1 => .ok { evaluated.2 with vars := vars1 }

/-- The loop of `WhileNode::evaluate`; `n` bounds the number of times the
condition is evaluated. -/
def while_loop (ev : Evaluator) (condition body : SyntaxTreeNode) :
    Nat → ProgramState → Outcome (EvaluationResult × ProgramState)
  | 0, _ => .out_of_fuel
  | n + 1, state =>
    (ev condition state).bind fun condition_result =>
      if condition_result.1.expression_value = 1 then
        (ev body { condition_result.2 with
            vars := condition_result.2.vars.enter_block_scope }).bind
          fun current_iteration_result =>
            if current_iteration_result.1.should_return then
              .ok ({ return_value := current_iteration_result.1.return_value,
                     should_return := true }, current_iteration_result.2)
            else
              (current_iteration_result.2.vars.exit_block_scope).bind fun vars1 =>
                while_loop ev condition body n
                  { current_iteration_result.2 with vars := vars1 }
      else .ok ({}, condition_result.2)

/-- The virtual method `evaluate` of every node struct. `fuel` bounds the
nesting of calls of `evaluate` and the iterations of each `while`. -/
def SyntaxTreeNode.evaluate :
    Nat → SyntaxTreeNode → ProgramState → Outcome (EvaluationResult × ProgramState)
  | 0, _, _ => .out_of_fuel
  | fuel + 1, node, state =>
    match node with
    | .StatementSequenceNode statements =>
      evaluate_statements (SyntaxTreeNode.evaluate fuel) statements state
    | .OperandNode operand_type identifier_value literal_value =>
      match operand_type with
      | .IDENTIFIER =>
        (state.vars.get_variable_value identifier_value).bind fun value =>
          .ok ({ expression_value := value }, state)
      | .LITERAL => .ok ({ expression_value := literal_value }, state)
    | .ReturnNode value =>
      (SyntaxTreeNode.evaluate fuel value state).bind fun value_result =>
        .ok ({ return_value := value_result.1.expression_value, should_return := true },
             value_result.2)
    | .AssignmentNode variable_name value =>
      (SyntaxTreeNode.evaluate fuel value state).bind fun assignment_value_result =>
        (assignment_value_result.2.vars.assign_variable_and_initialize_if_necessary
            variable_name
            (if value.node_type = .FUNCTION_CALL then assignment_value_result.1.return_value
             else assignment_value_result.1.expression_value)).bind fun vars1 =>
          .ok ({ expression_value := 1 },
               { assignment_value_result.2 with vars := vars1 })
    | .BinaryOperationNode operation left_operand right_operand =>
      (SyntaxTreeNode.evaluate fuel left_operand state).bind fun left_result =>
        (SyntaxTreeNode.evaluate fuel right_operand left_result.2).bind fun right_result =>
          (apply_binary_operation operation left_result.1.expression_value
              right_result.1.expression_value).bind fun expression_value =>
            .ok ({ expression_value := expression_value }, right_result.2)
    | .IfElseNode condition if_block else_block =>
      (SyntaxTreeNode.evaluate fuel condition state).bind fun condition_result =>
        if condition_result.1.expression_value ≠ 0 then
          SyntaxTreeNode.evaluate fuel if_block condition_result.2
        else SyntaxTreeNode.evaluate fuel else_block condition_result.2
    | .FunctionNode body arguments =>
      (function_call_entry (SyntaxTreeNode.evaluate fuel) arguments state).bind fun state1 =>
        (SyntaxTreeNode.evaluate fuel body state1).bind fun result =>
          (result.2.vars.exit_function_scope).bind fun vars1 =>
            .ok ({ result.1 with should_return := false },
                 { result.2 with vars := vars1 })
    | .EmptyNode => .ok ({}, state)
    | .PrintNode value =>
      (SyntaxTreeNode.evaluate fuel value state).bind fun value_result =>
        .ok ({}, { value_result.2 with cout := value_result.2.cout ++
          [if value.node_type = .FUNCTION_CALL then value_result.1.return_value
           else value_result.1.expression_value] })
    | .WhileNode condition body =>
      while_loop (SyntaxTreeNode.evaluate fuel) condition body fuel state

/-! ## The parser: function calls (interpreter.hpp, interpreter.cpp 87-228) -/

/-- The type `Interpreter::Token`. -/
abbrev Token := String

/-- The type `Interpreter::Line`. -/
abbrev Line := List Token

/-- The struct `Interpreter::FunctionData`. -/
structure FunctionData where
  body : SyntaxTreeNode
  parameters : List Token
  deriving Repr

/-- The type `Interpreter::FunctionMap`. -/
abbrev FunctionMap := StdMap FunctionData

/-- The struct `Interpreter::FunctionSignatureDetails`. -/
structure FunctionSignatureDetails where
  inputs : List Token
  name : Token
  deriving DecidableEq, Repr

/-- The fields of class `Interpreter` that the parser reads and writes
(`total_lines` is `lines.size()`). -/
structure Interpreter where
  lines : List Line
  function_map : FunctionMap
  deriving Repr

/-- The method `Interpreter::token_is_function_name`. -/
def Interpreter.token_is_function_name (interpreter : Interpreter) (token : Token) : Bool :=
  (StdMap.find interpreter.function_map token).isSome

/-- The method `Interpreter::token_is_variable_name`, on `token[0]`. -/
def Interpreter.token_is_variable_name (token : Token) : Bool :=
  let first_letter := token.get 0
  if '0' ≤ first_letter ∧ first_letter ≤ '9' then false else true

/-- The test `std::isspace` of the C locale. -/
def is_space (c : Char) : Bool :=
  c = ' ' || c = '\t' || c = '\n' || c = '\r' || c.toNat = 11 || c.toNat = 12

/-- The value of a run of decimal digits. -/
def digits_value (digits : List Char) : Nat :=
  digits.foldl (fun value c => 10 * value + (c.toNat - 48)) 0

/-- The call `std::stoi(token)`: skip white space, read an optional sign and the
decimal digits that follow; `std::invalid_argument` without a digit and
`std::out_of_range` outside `int`. -/
def stoi (token : String) : Outcome Int :=
  let unsigned (negative : Bool) (rest : List Char) : Outcome Int :=
    let digits := rest.takeWhile Char.isDigit
    if digits = [] then .uncaught_exception
    else
      let value : Int := if negative then -(digits_value digits : Int) else digits_value digits
      if -2147483648 ≤ value ∧ value ≤ 2147483647 then .ok value else .uncaught_exception
  match token.data.dropWhile is_space with
  | '-' :: rest => unsigned true rest
  | '+' :: rest => unsigned false rest
  | rest => unsigned false rest

/-- The method `Interpreter::get_literal_value_from_token`. -/
def Interpreter.get_literal_value_from_token (token : Token) : Outcome Int :=
  stoi token

/-- The method `Interpreter::parse_operand_token`. The field `literal_value` of
an identifier node is left uninitialised by its constructor and never read; it
is 0 here. -/
def Interpreter.parse_operand_token (token : Token) : Outcome SyntaxTreeNode :=
  if Interpreter.token_is_variable_name token then
    .ok (.OperandNode .IDENTIFIER token 0)
  else
    (Interpreter.get_literal_value_from_token token).bind fun literal_value =>
      .ok (.OperandNode .LITERAL "" literal_value)

/-- The loop `while (!token_is_function_name(line[function_name_index]))
function_name_index++` over the tokens from `function_name_index` on; running
off the end of the line is an index out of range. -/
def Interpreter.scan_function_name (interpreter : Interpreter) : List Token → Nat → Outcome Nat
  | [], _ => .undefined_behaviour
  | token :: rest, function_name_index =>
    if interpreter.token_is_function_name token then .ok function_name_index
    else Interpreter.scan_function_name interpreter rest (function_name_index + 1)

/-- The loop `for (i = first_input_index; line[i] != ")"; i++)` over the tokens
from `first_input_index` on, collecting those that are not `,`. -/
def Interpreter.collect_input_tokens : List Token → Outcome (List Token)
  | [] => .undefined_behaviour
  | token :: rest =>
    if token = ")" then .ok []
    else
      (Interpreter.collect_input_tokens rest).bind fun input_tokens =>
        .ok (if token ≠ "," then token :: input_tokens else input_tokens)

/-- The method `Interpreter::get_function_signature_details`. -/
def Interpreter.get_function_signature_details (interpreter : Interpreter) (line : Line)
    (is_definition : Bool) : Outcome FunctionSignatureDetails :=
  (if is_definition then .ok 1
   else Interpreter.scan_function_name interpreter line 0).bind fun function_name_index =>
    match line.get? function_name_index with
    | none => .undefined_behaviour
    | some function_name =>
      (Interpreter.collect_input_tokens (line.drop (function_name_index + 2))).bind
        fun input_tokens => .ok { name := function_name, inputs := input_tokens }

/-- The loop of `parse_function_call_node` that builds `argument_nodes`. -/
def Interpreter.parse_argument_tokens : List Token → Outcome (List SyntaxTreeNode)
  | [] => .ok []
  | token :: rest =>
    (Interpreter.parse_operand_token token).bind fun node =>
      (Interpreter.parse_argument_tokens rest).bind fun argument_nodes =>
        .ok (node :: argument_nodes)

/-- The loop of `parse_function_call_node` that builds `argument_map`:
`argument_map[parameters[i]] = argument_nodes[i]` for each parameter; a missing
argument node is an index out of range. -/
def Interpreter.build_argument_map :
    List Token → List SyntaxTreeNode → StdMap SyntaxTreeNode → Outcome (StdMap SyntaxTreeNode)
  | [], _, argument_map => .ok argument_map
  | _ :: _, [], _ => .undefined_behaviour
  | parameter :: parameters, node :: argument_nodes, argument_map =>
    Interpreter.build_argument_map parameters argument_nodes
      (StdMap.assign argument_map parameter node)

/-- The method `Interpreter::parse_function_call_node` (it leaves `start_line`
as it is). The name found by `get_function_signature_details` is in
`function_map`, so `function_map[function_name]` inserts nothing. -/
def Interpreter.parse_function_call_node (interpreter : Interpreter) (start_line : Nat) :
    Outcome SyntaxTreeNode :=
  match interpreter.lines[start_line]? with
  | none => .undefined_behaviour
  | some line =>
    (interpreter.get_function_signature_details line false).bind
      fun function_signature_details =>
        (Interpreter.parse_argument_tokens function_signature_details.inputs).bind
          fun argument_nodes =>
            match StdMap.find interpreter.function_map function_signature_details.name with
            | none => .undefined_behaviour
            | some function_data =>
              (Interpreter.build_argument_map function_data.parameters argument_nodes []).bind
                fun argument_map => .ok (.FunctionNode function_data.body argument_map)

/-- The tokens of a call `f ( a1 , ... , an )`. -/
def call_tokens (function_name : Token) (argument_tokens : List Token) : List Token :=
  function_name :: "(" :: (argument_tokens.intersperse "," ++ [")"])

/-! ## Preprocessing and tokenizing (interpreter.cpp 16-85)

The input `std::string` is a list of characters; a `Token` is the string of
the characters that `operator>>` extracts. -/

/-- The first loop of `preprocess_input_string`: every brace gets a line break
before and after it. -/
def preprocess_braces : List Char → List Char
  | [] => []
  | c :: rest =>
    if c = '\x7b' ∨ c = '\x7d' then '\n' :: c :: '\n' :: preprocess_braces rest
    else c :: preprocess_braces rest

/-- The second loop of `preprocess_input_string`: every `(`, `)` and `,` gets a
space before and after it. -/
def preprocess_parentheses : List Char → List Char
  | [] => []
  | c :: rest =>
    if c = '(' ∨ c = ')' ∨ c = ',' then ' ' :: c :: ' ' :: preprocess_parentheses rest
    else c :: preprocess_parentheses rest

/-- The third loop of `preprocess_input_string`, with its flag `seen_char`:
spaces and tabs at the start of a line are skipped. -/
def preprocess_leading_whitespace (seen_char : Bool) : List Char → List Char
  | [] => []
  | c :: rest =>
    if c = '\n' then c :: preprocess_leading_whitespace false rest
    else if c = ' ' ∨ c = '\t' then
      if !seen_char then preprocess_leading_whitespace seen_char rest
      else c :: preprocess_leading_whitespace seen_char rest
    else c :: preprocess_leading_whitespace true rest

/-- The fourth loop of `preprocess_input_string`: a line break is skipped when
it is the last character (`i == temp.size() - 1`) or follows a line break
(`i > 0 && temp[i - 1] == '\n'`, the flag `after_newline`). -/
def preprocess_blank_lines (after_newline : Bool) : List Char → List Char
  | [] => []
  | c :: rest =>
    if c = '\n' ∧ (rest = [] ∨ after_newline = true) then
      preprocess_blank_lines (decide (c = '\n')) rest
    else c :: preprocess_blank_lines (decide (c = '\n')) rest

/-- The method `Interpreter::preprocess_input_string`. -/
def Interpreter.preprocess_input_string (input_string : List Char) : List Char :=
  preprocess_blank_lines false
    (preprocess_leading_whitespace false
      (preprocess_parentheses (preprocess_braces input_string)))

/-- The loop `while (getline(input_string_stream, line_string))`: the text up
to each line break; `line_string` holds the characters of the line read so
far. At the end of the text a `getline` that extracts nothing fails. -/
def getline_loop (line_string : List Char) : List Char → List (List Char)
  | [] => if line_string = [] then [] else [line_string]
  | c :: rest =>
    if c = '\n' then line_string :: getline_loop [] rest
    else getline_loop (line_string ++ [c]) rest

/-- The loop `while (line_stream >> token)`: the maximal runs of characters
that are not white space; `token` holds the characters extracted so far. -/
def extract_tokens (token : List Char) : List Char → List Token
  | [] => if token = [] then [] else [String.mk token]
  | c :: rest =>
    if is_space c then
      if token = [] then extract_tokens [] rest
      else String.mk token :: extract_tokens [] rest
    else extract_tokens (token ++ [c]) rest

/-- The method `Interpreter::read_input_file_and_parse_into_tokens`, from the
contents of the input file to `lines`. -/
def Interpreter.read_input_file_and_parse_into_tokens (input_string : List Char) :
    List Line :=
  (getline_loop [] (Interpreter.preprocess_input_string input_string)).map
    (extract_tokens [])

/-! ## The parser: statements and blocks (interpreter.cpp 91-363) -/

/-- The enum `Interpreter::StatementNodeType`. -/
inductive StatementNodeType where
  | ASSIGNMENT | RETURN | IF_ELSE | LONE_FUNCTION_CALL | FUNCTION_DEFINITION | PRINT | WHILE
  deriving DecidableEq, Repr

/-- The enum `Interpreter::AssignmentValueType`. -/
inductive AssignmentValueType where
  | OPERAND | BINARY_OPERATION | FUNCTION_CALL
  deriving DecidableEq, Repr

/-- What a statement parser yields: the node, the interpreter (its
`function_map` may have grown) and the new value of `start_line`. -/
abbrev Parsed := SyntaxTreeNode × Interpreter × Nat

/-- The type of `parse_block` at one budget: interpreter, `start_line` and
`end_line`. -/
abbrev ParseBlock := Interpreter → Nat → Int → Outcome Parsed

/-- The type of `parse_single_statement_node` at one budget. -/
abbrev ParseStatement := Interpreter → Nat → Outcome Parsed

/-- The method `Interpreter::line_is_lone_function_call`; `line[0]` of an empty
line is an index out of range. -/
def Interpreter.line_is_lone_function_call (interpreter : Interpreter) (line : Line) :
    Outcome Bool :=
  match line.head? with
  | none => .undefined_behaviour
  | some first_token => .ok (interpreter.token_is_function_name first_token)

/-- The method `Interpreter::get_next_statement_node_type`. -/
def Interpreter.get_next_statement_node_type (interpreter : Interpreter) (start_line : Nat) :
    Outcome StatementNodeType :=
  match interpreter.lines[start_line]? with
  | none => .undefined_behaviour
  | some line =>
    if 1 < line.length ∧ line.get? 1 = some "=" then .ok .ASSIGNMENT
    else
      match line.head? with
      | none => .undefined_behaviour
      | some first_token =>
        if first_token = "if" then .ok .IF_ELSE
        else if first_token = "return" then .ok .RETURN
        else if first_token = "print" then .ok .PRINT
        else if first_token = "function" then .ok .FUNCTION_DEFINITION
        else if first_token = "while" then .ok .WHILE
        else if interpreter.token_is_function_name first_token then .ok .LONE_FUNCTION_CALL
        else .ok .ASSIGNMENT

/-- The method `Interpreter::binary_operation_token_to_enum`. -/
def Interpreter.binary_operation_token_to_enum (token : Token) : BinaryOperation :=
  if token = "+" then .ADD
  else if token = "-" then .SUBTRACT
  else if token = "*" then .MULTIPLY
  else if token = "/" then .DIVIDE
  else if token = "%" then .MOD
  else if token = "<" then .LESS
  else if token = "<=" then .LESS_EQUAL
  else if token = ">" then .GREATER
  else if token = ">=" then .GREATER_EQUAL
  else if token = "==" then .EQUAL
  else if token = "!=" then .NOT_EQUAL
  else if token = "&&" then .AND
  else if token = "||" then .OR
  else .ADD

/-- The method `Interpreter::parse_binary_operation_node`. -/
def Interpreter.parse_binary_operation_node (left op right : Token) : Outcome SyntaxTreeNode :=
  (Interpreter.parse_operand_token left).bind fun left_operand =>
    (Interpreter.parse_operand_token right).bind fun right_operand =>
      .ok (.BinaryOperationNode (Interpreter.binary_operation_token_to_enum op)
        left_operand right_operand)

/-- The method `Interpreter::get_assignment_value_type`. -/
def Interpreter.get_assignment_value_type (interpreter : Interpreter) (line : Line)
    (start_index : Nat) (end_index : Int) : Outcome AssignmentValueType :=
  if end_index - (start_index : Int) + 1 = 1 then .ok .OPERAND
  else
    match line.get? start_index with
    | none => .undefined_behaviour
    | some possible_function_name =>
      if (StdMap.find interpreter.function_map possible_function_name).isSome then
        .ok .FUNCTION_CALL
      else .ok .BINARY_OPERATION

/-- The method `Interpreter::parse_assignment_value_node`. -/
def Interpreter.parse_assignment_value_node (interpreter : Interpreter) (start_line : Nat)
    (start_index : Nat) (end_index : Int) : Outcome SyntaxTreeNode :=
  match interpreter.lines[start_line]? with
  | none => .undefined_behaviour
  | some line =>
    (interpreter.get_assignment_value_type line start_index end_index).bind
      fun assignment_value_type =>
        match assignment_value_type with
        | .OPERAND =>
          match line.get? start_index with
          | none => .undefined_behaviour
          | some token => Interpreter.parse_operand_token token
        | .BINARY_OPERATION =>
          match line.get? start_index, line.get? (start_index + 1),
              line.get? (start_index + 2) with
          | some left, some op, some right =>
            Interpreter.parse_binary_operation_node left op right
          | _, _, _ => .undefined_behaviour
        | .FUNCTION_CALL => interpreter.parse_function_call_node start_line

/-- The method `Interpreter::parse_assignment_node`. -/
def Interpreter.parse_assignment_node (interpreter : Interpreter) (start_line : Nat) :
    Outcome Parsed :=
  match interpreter.lines[start_line]? with
  | none => .undefined_behaviour
  | some line =>
    match line.head? with
    | none => .undefined_behaviour
    | some variable_name =>
      (interpreter.parse_assignment_value_node start_line 2 ((line.length : Int) - 1)).bind
        fun assignment_value_node =>
          .ok (.AssignmentNode variable_name assignment_value_node, interpreter,
               start_line + 1)

/-- The loop of `get_closing_brace_line` over the lines from index `i` on, with
its counter `num_open_braces`; -1 when the lines run out. -/
def Interpreter.closing_brace_loop : List Line → Nat → Int → Outcome Int
  | [], _, _ => .ok (-1)
  | line :: rest, i, num_open_braces =>
    match line.head? with
    | none => .undefined_behaviour
    | some first_token =>
      let count : Int :=
        if first_token = "\x7b" then num_open_braces + 1
        else if first_token = "\x7d" then num_open_braces - 1
        else num_open_braces
      if count = 0 then .ok (i : Int)
      else Interpreter.closing_brace_loop rest (i + 1) count

/-- The method `Interpreter::get_closing_brace_line`. -/
def Interpreter.get_closing_brace_line (interpreter : Interpreter) (opening_brace_line : Nat) :
    Outcome Int :=
  Interpreter.closing_brace_loop (interpreter.lines.drop (opening_brace_line + 1))
    (opening_brace_line + 1) 1

/-- The method `Interpreter::parse_braces_block`, with `parse_block` as
`block`. -/
def Interpreter.parse_braces_block (block : ParseBlock) (interpreter : Interpreter)
    (start_line : Nat) : Outcome Parsed :=
  (interpreter.get_closing_brace_line start_line).bind fun end_line =>
    (block interpreter (start_line + 1) (end_line - 1)).bind fun parsed =>
      .ok (parsed.1, parsed.2.1, parsed.2.2 + 1)

/-- The method `Interpreter::parse_if_else_node`. -/
def Interpreter.parse_if_else_node (block : ParseBlock) (interpreter : Interpreter)
    (start_line : Nat) : Outcome Parsed :=
  match interpreter.lines[start_line]? with
  | none => .undefined_behaviour
  | some line =>
    match line.get? 2, line.get? 3, line.get? 4 with
    | some left, some op, some right =>
      (Interpreter.parse_binary_operation_node left op right).bind
        fun binary_operation_node =>
          (Interpreter.parse_braces_block block interpreter (start_line + 1)).bind
            fun if_block =>
              match if_block.2.1.lines[if_block.2.2]? with
              | none =>
                .ok (.IfElseNode binary_operation_node if_block.1 .EmptyNode,
                     if_block.2.1, if_block.2.2)
              | some next_line =>
                match next_line.head? with
                | none => .undefined_behaviour
                | some first_token =>
                  if first_token = "else" then
                    (Interpreter.parse_braces_block block if_block.2.1
                        (if_block.2.2 + 1)).bind fun else_block =>
                      .ok (.IfElseNode binary_operation_node if_block.1 else_block.1,
                           else_block.2.1, else_block.2.2)
                  else
                    .ok (.IfElseNode binary_operation_node if_block.1 .EmptyNode,
                         if_block.2.1, if_block.2.2)
    | _, _, _ => .undefined_behaviour

/-- The loop of `get_closing_parenthesis_index` over the tokens from index `i`
on. -/
def Interpreter.closing_parenthesis_loop : List Token → Nat → Int
  | [], _ => -1
  | token :: rest, i =>
    if token = ")" then (i : Int) else Interpreter.closing_parenthesis_loop rest (i + 1)

/-- The method `Interpreter::get_closing_parenthesis_index`. -/
def Interpreter.get_closing_parenthesis_index (line : Line) : Int :=
  Interpreter.closing_parenthesis_loop line 0

/-- The method `Interpreter::parse_print_node`. -/
def Interpreter.parse_print_node (interpreter : Interpreter) (start_line : Nat) :
    Outcome Parsed :=
  match interpreter.lines[start_line]? with
  | none => .undefined_behaviour
  | some line =>
    (interpreter.parse_assignment_value_node start_line 2
        (Interpreter.get_closing_parenthesis_index line - 1)).bind fun print_value_node =>
      .ok (.PrintNode print_value_node, interpreter, start_line + 1)

/-- The method `Interpreter::parse_function_definition`. -/
def Interpreter.parse_function_definition (block : ParseBlock) (interpreter : Interpreter)
    (start_line : Nat) : Outcome Parsed :=
  match interpreter.lines[start_line]? with
  | none => .undefined_behaviour
  | some line =>
    (interpreter.get_function_signature_details line true).bind
      fun function_signature_details =>
        (Interpreter.parse_braces_block block interpreter (start_line + 1)).bind
          fun function_body =>
            .ok (.EmptyNode,
                 { function_body.2.1 with
                   function_map := StdMap.assign function_body.2.1.function_map
                     function_signature_details.name
                     { body := function_body.1,
                       parameters := function_signature_details.inputs } },
                 function_body.2.2)

/-- The method `Interpreter::parse_return_node`. -/
def Interpreter.parse_return_node (interpreter : Interpreter) (start_line : Nat) :
    Outcome Parsed :=
  match interpreter.lines[start_line]? with
  | none => .undefined_behaviour
  | some line =>
    (interpreter.parse_assignment_value_node start_line 1 ((line.length : Int) - 1)).bind
      fun value_node => .ok (.ReturnNode value_node, interpreter, start_line + 1)

/-- The method `Interpreter::parse_while_node`. -/
def Interpreter.parse_while_node (block : ParseBlock) (interpreter : Interpreter)
    (start_line : Nat) : Outcome Parsed :=
  match interpreter.lines[start_line]? with
  | none => .undefined_behaviour
  | some line =>
    match line.get? 2, line.get? 3, line.get? 4 with
    | some left, some op, some right =>
      (Interpreter.parse_binary_operation_node left op right).bind fun condition_node =>
        (Interpreter.parse_braces_block block interpreter (start_line + 1)).bind
          fun body_node =>
            .ok (.WhileNode condition_node body_node.1, body_node.2.1, body_node.2.2)
    | _, _, _ => .undefined_behaviour

/-- The method `Interpreter::parse_lone_function_call_node`. -/
def Interpreter.parse_lone_function_call_node (interpreter : Interpreter) (start_line : Nat) :
    Outcome Parsed :=
  (interpreter.parse_function_call_node start_line).bind fun function_call_node =>
    .ok (function_call_node, interpreter, start_line + 1)

/-- The method `Interpreter::parse_single_statement_node`, with `parse_block` as
`block`. -/
def Interpreter.parse_single_statement_node (block : ParseBlock) (interpreter : Interpreter)
    (start_line : Nat) : Outcome Parsed :=
  (interpreter.get_next_statement_node_type start_line).bind fun unit_node_type =>
    match unit_node_type with
    | .ASSIGNMENT => interpreter.parse_assignment_node start_line
    | .IF_ELSE => Interpreter.parse_if_else_node block interpreter start_line
    | .PRINT => interpreter.parse_print_node start_line
    | .FUNCTION_DEFINITION => Interpreter.parse_function_definition block interpreter start_line
    | .LONE_FUNCTION_CALL => interpreter.parse_lone_function_call_node start_line
    | .RETURN => interpreter.parse_return_node start_line
    | .WHILE => Interpreter.parse_while_node block interpreter start_line

/-- The loop `while (start_line <= end_line)` of `parse_block`, collecting
`nodes`; `n` bounds the number of iterations. -/
def Interpreter.parse_block_loop (statement : ParseStatement) :
    Nat → Interpreter → Nat → Int → List SyntaxTreeNode →
      Outcome (List SyntaxTreeNode × Interpreter × Nat)
  | 0, _, _, _, _ => .out_of_fuel
  | n + 1, interpreter, start_line, end_line, nodes =>
    if (start_line : Int) ≤ end_line then
      (statement interpreter start_line).bind fun parsed =>
        Interpreter.parse_block_loop statement n parsed.2.1 parsed.2.2 end_line
          (nodes ++ [parsed.1])
    else .ok (nodes, interpreter, start_line)

/-- The method `Interpreter::parse_block`. `fuel` bounds the nesting of blocks
and the number of statements of each block. -/
def Interpreter.parse_block : Nat → Interpreter → Nat → Int → Outcome Parsed
  | 0, _, _, _ => .out_of_fuel
  | fuel + 1, interpreter, start_line, end_line =>
    (Interpreter.parse_block_loop
        (Interpreter.parse_single_statement_node (Interpreter.parse_block fuel))
        (fuel + 1) interpreter start_line end_line []).bind fun parsed =>
      .ok (match parsed.1 with
           | [node] => node
           | nodes => .StatementSequenceNode nodes,
           parsed.2.1, parsed.2.2)

/-- The method `Interpreter::run` on the contents of the input file: the lines
written to `std::cout`. -/
def Interpreter.run (parse_fuel evaluate_fuel : Nat) (input_string : List Char) :
    Outcome (List Int) :=
  let lines := Interpreter.read_input_file_and_parse_into_tokens input_string
  (Interpreter.parse_block parse_fuel { lines := lines, function_map := [] } 0
      ((lines.length : Int) - 1)).bind fun parsed =>
    (SyntaxTreeNode.evaluate evaluate_fuel parsed.1 ProgramState.initial).bind fun result =>
      .ok result.2.cout

/-! ## Notions used to state the properties -/

/-- The top boundary is a valid frame index. -/
def Variables.WellFormed (vars : Variables) : Prop :=
  ∃ b rest, vars.function_scope_indices = b :: rest ∧ b < vars.scoped_variables.length

/-- From `before` to `after` the boundary stack is the same, no frame was lost
and the frames below the top boundary are the same. -/
def Variables.Extends (before after : Variables) : Prop :=
  after.function_scope_indices = before.function_scope_indices ∧
  before.scoped_variables.length ≤ after.scoped_variables.length ∧
  ∀ b, before.function_scope_indices.head? = some b →
    after.scoped_variables.take b = before.scoped_variables.take b

/-- Every evaluation by `ev` that returns extends the variables it started
from. -/
def Evaluator.Sound (ev : Evaluator) : Prop :=
  ∀ node state r state', ev node state = .ok (r, state') →
    state.vars.WellFormed → state.vars.Extends state'.vars

/-- The value bound to `name` in frame `i`, if the frame exists and binds it. -/
def Variables.binding (vars : Variables) (i : Nat) (name : String) : Option Int :=
  StdMap.find (vars.scoped_variables.getD i []) name

/-- The children `statements` are evaluated by `ev` one after the other, each
once, from `state` to `state'`, and none of them signals a return. -/
inductive RunsWithoutReturn (ev : Evaluator) :
    List SyntaxTreeNode → ProgramState → ProgramState → Prop where
  | nil (state : ProgramState) : RunsWithoutReturn ev [] state state
  | cons {node : SyntaxTreeNode} {rest : List SyntaxTreeNode}
      {state state1 state2 : ProgramState} {r : EvaluationResult}
      (hnode : ev node state = .ok (r, state1)) (hr : r.should_return = false)
      (hrest : RunsWithoutReturn ev rest state1 state2) :
      RunsWithoutReturn ev (node :: rest) state state2

/-- The loop of a `while` makes `k` iterations from `state` to `state'`, each of
them complete: the condition is 1, the body runs in a new frame without
signalling a return, and the frame is popped. -/
inductive WhileIterations (ev : Evaluator) (condition body : SyntaxTreeNode) :
    Nat → ProgramState → ProgramState → Prop where
  | zero (state : ProgramState) : WhileIterations ev condition body 0 state state
  | succ {k : Nat} {state condition_state body_state state' : ProgramState}
      {condition_result body_result : EvaluationResult} {vars1 : Variables}
      (hcondition : ev condition state = .ok (condition_result, condition_state))
      (hone : condition_result.expression_value = 1)
      (hbody : ev body { condition_state with
        vars := condition_state.vars.enter_block_scope } = .ok (body_result, body_state))
      (hr : body_result.should_return = false)
      (hexit : body_state.vars.exit_block_scope = .ok vars1)
      (hrest : WhileIterations ev condition body k { body_state with vars := vars1 } state') :
      WhileIterations ev condition body (k + 1) state state'

/-- Whatever `ev` returns, `ev'` returns too. -/
def Evaluator.Below (ev ev' : Evaluator) : Prop :=
  ∀ node state x, ev node state = .ok x → ev' node state = .ok x

/-! ## Programs used as concrete inputs -/

/-- The node `parse_operand_token` builds for an integer literal. -/
def literal (value : Int) : SyntaxTreeNode := .OperandNode .LITERAL "" value

/-- The node `parse_operand_token` builds for an identifier. -/
def identifier (name : String) : SyntaxTreeNode := .OperandNode .IDENTIFIER name 0

/-- The body of `function f ( a ) { while ( a == a ) { return a } }`. -/
def returning_while_body : SyntaxTreeNode :=
  .WhileNode (.BinaryOperationNode .EQUAL (identifier "a") (identifier "a"))
    (.ReturnNode (identifier "a"))

/-- The tree of the program
`function f ( a ) { while ( a == a ) { return a } }`, `x = f ( 1 )`, `print ( a )`. -/
def leaking_call_program : SyntaxTreeNode :=
  .StatementSequenceNode
    [.EmptyNode,
     .AssignmentNode "x" (.FunctionNode returning_while_body [("a", literal 1)]),
     .PrintNode (identifier "a")]

/-- The body of `function add ( a , b ) { return a + b }`. -/
def add_body : SyntaxTreeNode :=
  .ReturnNode (.BinaryOperationNode .ADD (identifier "a") (identifier "b"))

/-- The body of `function inc ( a ) { return add ( a , 1 ) }`. -/
def inc_body : SyntaxTreeNode :=
  .ReturnNode (.FunctionNode add_body [("a", identifier "a"), ("b", literal 1)])

/-- The tree of the program `function add ( a , b ) { return a + b }`,
`function inc ( a ) { return add ( a , 1 ) }`, `print ( inc ( 2 ) )`. -/
def return_of_call_program : SyntaxTreeNode :=
  .StatementSequenceNode
    [.EmptyNode, .EmptyNode, .PrintNode (.FunctionNode inc_body [("a", literal 2)])]

/-- Variables inside a function scope: the caller's frame 0 binds `x`, the
boundary is 1, frame 1 holds the parameter `a` and frame 2 is a block. -/
def callee_variables : Variables :=
  { scoped_variables := [[("x", 1)], [("a", 2)], []], function_scope_indices := [1, 0] }

/-- The state after `print ( 1 )` from the initial state. -/
def printed_one : ProgramState := { vars := Variables.initial, cout := [1] }

/-- A state whose only frame binds `a` to 2: the body of `inc ( 2 )` starts in
such a frame. -/
def inc_frame_state : ProgramState :=
  { vars := { scoped_variables := [[("a", 2)]], function_scope_indices := [0] }, cout := [] }

/-- The tree of `if ( 1 == 1 ) { y = 1 }`. -/
def if_assigning_y : SyntaxTreeNode :=
  .IfElseNode (.BinaryOperationNode .EQUAL (literal 1) (literal 1))
    (.AssignmentNode "y" (literal 1)) .EmptyNode

/-- The state after `if ( 1 == 1 ) { y = 1 }` from the initial state: `y` is
bound in frame 0. -/
def y_bound_state : ProgramState :=
  { vars := { scoped_variables := [[("y", 1)]], function_scope_indices := [0] }, cout := [] }

/-- The tree of `while ( 1 == 1 ) { return 5 }`. -/
def while_returning_five : SyntaxTreeNode :=
  .WhileNode (.BinaryOperationNode .EQUAL (literal 1) (literal 1)) (.ReturnNode (literal 5))

/-- The entries of a map are in strictly increasing key order, the invariant of
`std::map`. -/
def StdMap.Sorted {α : Type} (m : StdMap α) : Prop :=
  List.Pairwise (fun entry later => key_less entry.1 later.1 = true) m

/-- A parser that has read the line `x = add ( b , 3 )` after the definition
`function add ( b , a ) { return a + b }`. -/
def call_line_interpreter : Interpreter :=
  { lines := [["x", "=", "add", "(", "b", ",", "3", ")"]],
    function_map := [("add", { body := add_body, parameters := ["b", "a"] })] }

/-- A caller state in which `b` is 10 and `a` is 20. -/
def caller_state : ProgramState :=
  { vars := { scoped_variables := [[("a", 20), ("b", 10)]], function_scope_indices := [0] },
    cout := [] }

/-- What each comparison and logical operator asks of its operands `l` and `r`
(nothing for the arithmetic operators). -/
def BinaryOperation.holds : BinaryOperation → Int → Int → Prop
  | .LESS, l, r => l < r
  | .LESS_EQUAL, l, r => l ≤ r
  | .GREATER, l, r => l > r
  | .GREATER_EQUAL, l, r => l ≥ r
  | .EQUAL, l, r => l = r
  | .NOT_EQUAL, l, r => l ≠ r
  | .AND, l, r => l ≠ 0 ∧ r ≠ 0
  | .OR, l, r => l ≠ 0 ∨ r ≠ 0
  | _, _, _ => False

/-- An integer literal: a token of one or more decimal digits. -/
def is_integer_literal (token : Token) : Bool :=
  !token.data.isEmpty && token.data.all Char.isDigit

/-- The number that an integer literal denotes. -/
def integer_literal_value (token : Token) : Int := digits_value token.data

/-- The source of scenario A with the literals `a` and `b`:
`x = a`, `y = b`, `z = x + y`, `print ( z )`. -/
def scenario_a_source (a b : Token) : List Char :=
  "x = ".data ++ a.data ++ "\ny = ".data ++ b.data ++ "\nz = x + y\nprint ( z )".data

/-- The source of scenario B with the literals `m` and `n`:
`function add ( a , b ) { return a + b }`, `print ( add ( m , n ) )`. -/
def scenario_b_source (m n : Token) : List Char :=
  "function add ( a , b ) \x7b return a + b \x7d\nprint ( add ( ".data ++ m.data ++
    " , ".data ++ n.data ++ " ) )".data

/-- The lines of scenario B. -/
def scenario_b_lines (m n : Token) : List Line :=
  [["function", "add", "(", "a", ",", "b", ")"], ["\x7b"], ["return", "a", "+", "b"], ["\x7d"],
   ["print", "(", "add", "(", m, ",", n, ")", ")"]]

/-- The function table of scenario B once `add` is defined. -/
def add_function_map : FunctionMap :=
  [("add", { body := add_body, parameters := ["a", "b"] })]

/-- The source of scenario D with the literals `a` and `b`:
`if ( a == b ) { print ( 1 ) } else { print ( 0 ) }`. -/
def scenario_d_source (a b : Token) : List Char :=
  "if ( ".data ++ a.data ++ " == ".data ++ b.data ++
    " ) \x7b print ( 1 ) \x7d else \x7b print ( 0 ) \x7d".data

/-- The lines of scenario D. -/
def scenario_d_lines (a b : Token) : List Line :=
  [["if", "(", a, "==", b, ")"], ["\x7b"], ["print", "(", "1", ")"], ["\x7d"],
   ["else"], ["\x7b"], ["print", "(", "0", ")"], ["\x7d"]]

/-- The tree of scenario D. -/
def scenario_d_tree (va vb : Int) : SyntaxTreeNode :=
  .IfElseNode (.BinaryOperationNode .EQUAL (literal va) (literal vb))
    (.PrintNode (literal 1)) (.PrintNode (literal 0))

/-- The source of scenario C with the literal `n`:
`i = 0`, `while ( i < n ) { print ( i )`, `i = i + 1 }`. -/
def scenario_c_source (n : Token) : List Char :=
  "i = 0\nwhile ( i < ".data ++ n.data ++ " ) \x7b print ( i )\ni = i + 1 \x7d".data

/-- The lines of scenario C. -/
def scenario_c_lines (n : Token) : List Line :=
  [["i", "=", "0"], ["while", "(", "i", "<", n, ")"], ["\x7b"], ["print", "(", "i", ")"],
   ["i", "=", "i", "+", "1"], ["\x7d"]]

/-- The condition `i < n` of scenario C. -/
def scenario_c_condition (vn : Int) : SyntaxTreeNode :=
  .BinaryOperationNode .LESS (identifier "i") (literal vn)

/-- The loop body `print ( i )`, `i = i + 1` of scenario C. -/
def scenario_c_body : SyntaxTreeNode :=
  .StatementSequenceNode
    [.PrintNode (identifier "i"),
     .AssignmentNode "i" (.BinaryOperationNode .ADD (identifier "i") (literal 1))]

/-- The tree of scenario C. -/
def scenario_c_tree (vn : Int) : SyntaxTreeNode :=
  .StatementSequenceNode
    [.AssignmentNode "i" (literal 0), .WhileNode (scenario_c_condition vn) scenario_c_body]

/-- The state of scenario C between two iterations: `i` is `k` in the only
frame, and `out` has been printed. -/
def counting_state (k : Nat) (out : List Int) : ProgramState :=
  { vars := { scoped_variables := [[("i", (k : Int))]], function_scope_indices := [0] },
    cout := out }

/-- The state of scenario C inside an iteration: the frame of the loop body is
on top. -/
def counting_body_state (k : Nat) (out : List Int) : ProgramState :=
  { vars := { scoped_variables := [[("i", (k : Int))], []], function_scope_indices := [0] },
    cout := out }

/-- The quotient of `l` by `r` truncated toward zero: the magnitude is the
whole part of `|l| / |r|`, the sign that of `l * r`. -/
def truncated_quotient (l r : Int) : Int :=
  Int.sign l * Int.sign r * ((l.natAbs / r.natAbs : Nat) : Int)

/-- The tokens of the arithmetic operators. -/
def arithmetic_operators : List Token := ["+", "-", "*", "/", "%"]

/-- The value of `l op r` in integer arithmetic, for an arithmetic operator
`op`: sum, difference, product, quotient truncated toward zero, and the
remainder `l - r * (l / r)`. -/
def arithmetic_value (op : Token) (l r : Int) : Int :=
  if op = "+" then l + r
  else if op = "-" then l - r
  else if op = "*" then l * r
  else if op = "/" then truncated_quotient l r
  else l - r * truncated_quotient l r

/-- The source `print ( a op b )`. -/
def print_operation_source (a op b : Token) : List Char :=
  "print ( ".data ++ a.data ++ " ".data ++ op.data ++ " ".data ++ b.data ++ " )".data

/-- A brace character. -/
def is_brace (c : Char) : Prop := c = '\x7b' ∨ c = '\x7d'

instance is_brace.decidable (c : Char) : Decidable (is_brace c) :=
  inferInstanceAs (Decidable (c = '\x7b' ∨ c = '\x7d'))

/-- A parenthesis or a comma. -/
def is_punctuation (c : Char) : Prop := c = '(' ∨ c = ')' ∨ c = ','

instance is_punctuation.decidable (c : Char) : Decidable (is_punctuation c) :=
  inferInstanceAs (Decidable (c = '(' ∨ c = ')' ∨ c = ','))

/-- One of the characters that must stand alone as a token: a brace, a
parenthesis or a comma. -/
def is_separator (c : Char) : Prop := is_brace c ∨ is_punctuation c

instance is_separator.decidable (c : Char) : Decidable (is_separator c) :=
  inferInstanceAs (Decidable (is_brace c ∨ is_punctuation c))

/-- Every two neighbouring characters of the text are related by `r`. -/
def neighbours (r : Char → Char → Prop) : List Char → Prop
  | a :: b :: rest => r a b ∧ neighbours r (b :: rest)
  | _ => True

/-- Beside a brace there is only a line break. -/
def braces_apart (a b : Char) : Prop :=
  (is_brace b → a = '\n') ∧ (is_brace a → b = '\n')

/-- Beside a brace there is only a line break, and beside a parenthesis or a
comma only a space or a line break. -/
def separators_apart (a b : Char) : Prop :=
  braces_apart a b ∧ (is_punctuation b → a = ' ' ∨ a = '\n') ∧
    (is_punctuation a → b = ' ' ∨ b = '\n')

/-- The token's first character is a decimal digit. -/
def starts_with_digit (token : Token) : Bool :=
  match token.data with
  | c :: _ => c.isDigit
  | [] => false

/-- The integer value of the token's leading decimal digits. -/
def leading_digits_value (token : Token) : Int :=
  digits_value (token.data.takeWhile Char.isDigit)

/-- The operators of the language and the operations they name. -/
def operator_table : List (Token × BinaryOperation) :=
  [("+", .ADD), ("-", .SUBTRACT), ("*", .MULTIPLY), ("/", .DIVIDE), ("%", .MOD),
   ("<", .LESS), ("<=", .LESS_EQUAL), (">", .GREATER), (">=", .GREATER_EQUAL),
   ("==", .EQUAL), ("!=", .NOT_EQUAL), ("&&", .AND), ("||", .OR)]

/-- What a line adds to the nesting depth: 1 when its first token is `{`, -1
when it is `}`, else 0. -/
def brace_delta (line : Line) : Int :=
  if line.head? = some "\x7b" then 1
  else if line.head? = some "\x7d" then -1
  else 0

/-- The nesting depth after line `j`, started at 1 after line `o`: 1, plus the
number of the lines `o+1..j` whose first token is `{`, minus the number of
those whose first token is `}`. -/
def nesting_depth (lines : List Line) (o j : Nat) : Int :=
  1 + (((lines.drop (o + 1)).take (j - o)).map brace_delta).sum

/-- The environment is well formed: there is a frame, there is a boundary, and
every boundary on the boundary stack is the index of a frame. -/
def Variables.Valid (vars : Variables) : Prop :=
  vars.scoped_variables ≠ [] ∧ vars.function_scope_indices ≠ [] ∧
    ∀ b ∈ vars.function_scope_indices, b < vars.scoped_variables.length

instance Variables.Valid.decidable (vars : Variables) : Decidable vars.Valid :=
  inferInstanceAs (Decidable (vars.scoped_variables ≠ [] ∧
    vars.function_scope_indices ≠ [] ∧
    ∀ b ∈ vars.function_scope_indices, b < vars.scoped_variables.length))

/-- The calls of `evaluate` in the body of `evaluate`, node by node:
`CallsChild fuel node state child child_state` when the evaluation of `node`
from `state` with budget `fuel + 1` calls `evaluate` with budget `fuel` on
`child` in `child_state`, the state left by what the body did before the call
(whether or not that call, or the evaluation of `node`, returns). -/
inductive CallsChild :
    Nat → SyntaxTreeNode → ProgramState → SyntaxTreeNode → ProgramState → Prop where
  /-- `StatementSequenceNode::evaluate`: the loop evaluates the next statement
  when the statements before it were evaluated and none signalled a return. -/
  | statement {fuel : Nat} {done rest : List SyntaxTreeNode} {child : SyntaxTreeNode}
      {state state1 : ProgramState}
      (hdone : RunsWithoutReturn (SyntaxTreeNode.evaluate fuel) done state state1) :
      CallsChild fuel (.StatementSequenceNode (done ++ child :: rest)) state child state1
  /-- `ReturnNode::evaluate` evaluates its value. -/
  | return_value {fuel : Nat} {value : SyntaxTreeNode} {state : ProgramState} :
      CallsChild fuel (.ReturnNode value) state value state
  /-- `AssignmentNode::evaluate` evaluates its value. -/
  | assignment_value {fuel : Nat} {variable_name : String} {value : SyntaxTreeNode}
      {state : ProgramState} :
      CallsChild fuel (.AssignmentNode variable_name value) state value state
  /-- `BinaryOperationNode::evaluate` evaluates the left operand. -/
  | binary_left {fuel : Nat} {operation : BinaryOperation}
      {left_operand right_operand : SyntaxTreeNode} {state : ProgramState} :
      CallsChild fuel (.BinaryOperationNode operation left_operand right_operand) state
        left_operand state
  /-- `BinaryOperationNode::evaluate` evaluates the right operand in the state
  the left operand left. -/
  | binary_right {fuel : Nat} {operation : BinaryOperation}
      {left_operand right_operand : SyntaxTreeNode} {state state1 : ProgramState}
      {left_result : EvaluationResult}
      (hleft : SyntaxTreeNode.evaluate fuel left_operand state = .ok (left_result, state1)) :
      CallsChild fuel (.BinaryOperationNode operation left_operand right_operand) state
        right_operand state1
  /-- `IfElseNode::evaluate` evaluates the condition. -/
  | if_condition {fuel : Nat} {condition if_block else_block : SyntaxTreeNode}
      {state : ProgramState} :
      CallsChild fuel (.IfElseNode condition if_block else_block) state condition state
  /-- `IfElseNode::evaluate` evaluates the if block when the condition is not 0. -/
  | if_branch {fuel : Nat} {condition if_block else_block : SyntaxTreeNode}
      {state state1 : ProgramState} {condition_result : EvaluationResult}
      (hcondition : SyntaxTreeNode.evaluate fuel condition state =
        .ok (condition_result, state1))
      (htrue : condition_result.expression_value ≠ 0) :
      CallsChild fuel (.IfElseNode condition if_block else_block) state if_block state1
  /-- `IfElseNode::evaluate` evaluates the else block when the condition is 0. -/
  | else_branch {fuel : Nat} {condition if_block else_block : SyntaxTreeNode}
      {state state1 : ProgramState} {condition_result : EvaluationResult}
      (hcondition : SyntaxTreeNode.evaluate fuel condition state =
        .ok (condition_result, state1))
      (hfalse : condition_result.expression_value = 0) :
      CallsChild fuel (.IfElseNode condition if_block else_block) state else_block state1
  /-- `FunctionNode::evaluate` evaluates an argument node in the state left by
  the argument nodes before it. -/
  | function_argument {fuel : Nat} {body : SyntaxTreeNode} {done rest : List (String × SyntaxTreeNode)}
      {argument : String × SyntaxTreeNode} {state state1 : ProgramState}
      {values : StdMap Int}
      (hdone : evaluate_arguments (SyntaxTreeNode.evaluate fuel) done [] state =
        .ok (values, state1)) :
      CallsChild fuel (.FunctionNode body (done ++ argument :: rest)) state argument.2 state1
  /-- `FunctionNode::evaluate` evaluates the body in the state in which the
  function scope is entered and the parameters are bound. -/
  | function_body {fuel : Nat} {body : SyntaxTreeNode}
      {arguments : List (String × SyntaxTreeNode)} {state state1 : ProgramState}
      (hentry : function_call_entry (SyntaxTreeNode.evaluate fuel) arguments state =
        .ok state1) :
      CallsChild fuel (.FunctionNode body arguments) state body state1
  /-- `PrintNode::evaluate` evaluates its value. -/
  | print_value {fuel : Nat} {value : SyntaxTreeNode} {state : ProgramState} :
      CallsChild fuel (.PrintNode value) state value state
  /-- `WhileNode::evaluate` evaluates the condition after `k` complete
  iterations, while the budget of the loop lasts. -/
  | while_condition {fuel k : Nat} {condition body : SyntaxTreeNode}
      {state state1 : ProgramState}
      (hiterations : WhileIterations (SyntaxTreeNode.evaluate fuel) condition body k
        state state1)
      (hk : k < fuel) :
      CallsChild fuel (.WhileNode condition body) state condition state1
  /-- `WhileNode::evaluate` evaluates the body, in a new frame, when the
  condition is 1. -/
  | while_body {fuel k : Nat} {condition body : SyntaxTreeNode}
      {state state1 state2 : ProgramState} {condition_result : EvaluationResult}
      (hiterations : WhileIterations (SyntaxTreeNode.evaluate fuel) condition body k
        state state1)
      (hk : k < fuel)
      (hcondition : SyntaxTreeNode.evaluate fuel condition state1 =
        .ok (condition_result, state2))
      (hone : condition_result.expression_value = 1) :
      CallsChild fuel (.WhileNode condition body) state body
        { state2 with vars := state2.vars.enter_block_scope }

/-- The evaluation of `node` from `state` with budget `fuel` arrives at a call
of `evaluate` with budget `fuel'` on `node'` in `state'`: the evaluation
itself, or a call made, directly or through further calls, by its body. -/
inductive Reaches :
    Nat → SyntaxTreeNode → ProgramState → Nat → SyntaxTreeNode → ProgramState → Prop where
  | here (fuel : Nat) (node : SyntaxTreeNode) (state : ProgramState) :
      Reaches fuel node state fuel node state
  | call {fuel fuel' : Nat} {node child node' : SyntaxTreeNode}
      {state child_state state' : ProgramState}
      (hchild : CallsChild fuel node state child child_state)
      (hrest : Reaches fuel child child_state fuel' node' state') :
      Reaches (fuel + 1) node state fuel' node' state'

/-- The evaluation of `node` from `state` with budget `fuel` arrives at a
binary operation whose two operands evaluate and whose `switch` is undefined
on their values: a signed overflow, a division or modulo by zero, or
`INT_MIN / -1`. -/
def ReachesUndefinedArithmetic (fuel : Nat) (node : SyntaxTreeNode) (state : ProgramState) :
    Prop :=
  ∃ (fuel' : Nat) (operation : BinaryOperation) (left_operand right_operand : SyntaxTreeNode)
    (state' : ProgramState) (left_result right_result : EvaluationResult × ProgramState),
    Reaches fuel node state (fuel' + 1)
      (.BinaryOperationNode operation left_operand right_operand) state' ∧
    SyntaxTreeNode.evaluate fuel' left_operand state' = .ok left_result ∧
    SyntaxTreeNode.evaluate fuel' right_operand left_result.2 = .ok right_result ∧
    apply_binary_operation operation left_result.1.expression_value
      right_result.1.expression_value = .undefined_behaviour

/-- The state after `function f ( a ) { while ( a == a ) { return a } }`,
`x = f ( 1 )`, `print ( a )`: the frame that the `while` did not pop is still
on the stack. -/
def leaked_frame_state : ProgramState :=
  { vars := { scoped_variables := [[], [("a", 1), ("x", 1)]],
              function_scope_indices := [0] },
    cout := [1] }

/-- The tree of `x = 1`, `while ( x == 1 ) { y = x / 0 }`. -/
def dividing_loop_program : SyntaxTreeNode :=
  .StatementSequenceNode
    [.AssignmentNode "x" (literal 1),
     .WhileNode (.BinaryOperationNode .EQUAL (identifier "x") (literal 1))
       (.AssignmentNode "y" (.BinaryOperationNode .DIVIDE (identifier "x") (literal 0)))]

/-- The state in which the division of `dividing_loop_program` is evaluated:
`x` is 1 and the frame of the `while` body is on the stack. -/
def division_state : ProgramState :=
  { vars := { scoped_variables := [[("x", 1)], []], function_scope_indices := [0] },
    cout := [] }

/-- Line `k` is a definition line of `name`: its tokens are `function`, `name`
and more. -/
def defines (lines : List Line) (k : Nat) (name : Token) : Prop :=
  ∃ rest, lines.get? k = some ("function" :: name :: rest)

/-- What parsing the lines from `start_line` up to `next` does to the
interpreter: the lines stay, and a name known afterwards was known before or
is the name of a definition line among the lines parsed. -/
def Interpreter.Grows (interpreter interpreter' : Interpreter) (start_line next : Nat) :
    Prop :=
  interpreter'.lines = interpreter.lines ∧
  ∀ name, (StdMap.find interpreter'.function_map name).isSome = true →
    (StdMap.find interpreter.function_map name).isSome = true ∨
      ∃ k, start_line ≤ k ∧ k < next ∧ defines interpreter.lines k name

/-- Every call of `block` that returns leaves the cursor where it was or
further, and the interpreter grown by the lines in between. -/
def ParseBlock.Sound (block : ParseBlock) : Prop :=
  ∀ interpreter start_line end_line node interpreter' next,
    block interpreter start_line end_line = .ok (node, interpreter', next) →
    start_line ≤ next ∧ interpreter.Grows interpreter' start_line next

/-- Every call of `statement` that returns leaves the cursor strictly further,
and the interpreter grown by the lines in between. -/
def ParseStatement.Sound (statement : ParseStatement) : Prop :=
  ∀ interpreter start_line node interpreter' next,
    statement interpreter start_line = .ok (node, interpreter', next) →
    start_line < next ∧ interpreter.Grows interpreter' start_line next

/-- A line that is one statement by itself: its first token is not a brace,
and its second token is `=` or its first token is none of `if`, `while` and
`function`. -/
def is_simple_line (line : Line) : Prop :=
  ∃ first rest, line = first :: rest ∧ first ≠ "\x7b" ∧ first ≠ "\x7d" ∧
    (rest.head? = some "=" ∨ (first ≠ "if" ∧ first ≠ "while" ∧ first ≠ "function"))

/-- A line that opens a statement with a braced block: its first token is
`keyword` and its second token is not `=`. -/
def is_header_line (keyword : Token) (line : Line) : Prop :=
  ∃ rest, line = keyword :: rest ∧ rest.head? ≠ some "="

/-- The lines are a sequence of well-formed statements: simple lines, and
`while`, `function` and `if` headers each followed by a `{` line, well-formed
lines and a `}` line; after the block of an `if` there is `else`, a `{` line,
well-formed lines and a `}` line, or the next of these lines does not begin
with `else`. -/
inductive WellFormedLines : List Line → Prop where
  | nil : WellFormedLines []
  | simple {line : Line} {rest : List Line} (hline : is_simple_line line)
      (hrest : WellFormedLines rest) : WellFormedLines (line :: rest)
  | block {header open_line close_line : Line} {body rest : List Line}
      (hheader : is_header_line "while" header ∨ is_header_line "function" header)
      (hopen : open_line.head? = some "\x7b") (hbody : WellFormedLines body)
      (hclose : close_line.head? = some "\x7d") (hrest : WellFormedLines rest) :
      WellFormedLines (header :: open_line :: (body ++ close_line :: rest))
  | if_only {header open_line close_line : Line} {body rest : List Line}
      (hheader : is_header_line "if" header)
      (hopen : open_line.head? = some "\x7b") (hbody : WellFormedLines body)
      (hclose : close_line.head? = some "\x7d") (hrest : WellFormedLines rest)
      (hnext : ∀ line ∈ rest.head?, line.head? ≠ some "else") :
      WellFormedLines (header :: open_line :: (body ++ close_line :: rest))
  | if_else {header open_line close_line else_line else_open else_close : Line}
      {body else_body rest : List Line}
      (hheader : is_header_line "if" header)
      (hopen : open_line.head? = some "\x7b") (hbody : WellFormedLines body)
      (hclose : close_line.head? = some "\x7d")
      (helse : else_line.head? = some "else")
      (helse_open : else_open.head? = some "\x7b") (helse_body : WellFormedLines else_body)
      (helse_close : else_close.head? = some "\x7d") (hrest : WellFormedLines rest) :
      WellFormedLines (header :: open_line :: (body ++ close_line :: else_line ::
        else_open :: (else_body ++ else_close :: rest)))

/-- The interpreter on the lines `while ( i < 3 )`, `{`, `print ( i )`, `}`,
`y = 1`, with an empty function table. -/
def while_block_interpreter : Interpreter :=
  { lines := [["while", "(", "i", "<", "3", ")"], ["\x7b"], ["print", "(", "i", ")"],
      ["\x7d"], ["y", "=", "1"]],
    function_map := [] }

/-- The source `function f ( n ) { return f ( n ) }`, `print ( f ( 3 ) )`, whose
function body names the function being defined. -/
def self_call_source : List Char :=
  "function f ( n ) \x7b return f ( n ) \x7d\nprint ( f ( 3 ) )".data

/-- The lines of `self_call_source`, with an empty function table. -/
def self_call_interpreter : Interpreter :=
  { lines := [["function", "f", "(", "n", ")"], ["\x7b"], ["return", "f", "(", "n", ")"],
      ["\x7d"], ["print", "(", "f", "(", "3", ")", ")"]],
    function_map := [] }

/-- A parser that has read the line `add = add ( 5 , 3 )` after the definition
`function add ( a , b ) { return a + b }`. -/
def misbound_call_interpreter : Interpreter :=
  { lines := [["add", "=", "add", "(", "5", ",", "3", ")"]],
    function_map := add_function_map }

/-- The arguments that `parse_function_call_node` builds for the line
`add = add ( 5 , 3 )`. -/
def misbound_arguments : List (String × SyntaxTreeNode) :=
  [("a", identifier "add"), ("b", identifier "(")]

/-- The state in which the body of `add` starts for the line
`add = add ( 5 , 3 )`, called from the initial state. -/
def misbound_body_state : ProgramState :=
  { vars := { scoped_variables := [[], [("a", -1), ("b", -1)]],
              function_scope_indices := [1, 0] },
    cout := [] }

/-- The source `function add ( a , b ) { return a + b }`, `add = add ( 5 , 3 )`,
`print ( add )`. -/
def misbound_call_source : List Char :=
  "function add ( a , b ) \x7b return a + b \x7d\nadd = add ( 5 , 3 )\nprint ( add )".data

/-- A parser that has read the line `x = add ( 2147483648 , 3 )` after the
definition `function add ( a , b ) { return a + b }`. -/
def large_argument_interpreter : Interpreter :=
  { lines := [["x", "=", "add", "(", "2147483648", ",", "3", ")"]],
    function_map := add_function_map }

/-! ## Lemmas on outcomes and maps -/

theorem Outcome.bind_eq_ok {α β : Type} {x : Outcome α} {f : α → Outcome β} {b : β}
    (h : x.bind f = .ok b) : ∃ a, x = .ok a ∧ f a = .ok b := by
  cases x with
  | ok a => exact ⟨a, rfl, h⟩
  | out_of_fuel => simp [Outcome.bind] at h
  | undefined_behaviour => simp [Outcome.bind] at h
  | uncaught_exception => simp [Outcome.bind] at h

theorem StdMap.find_assign_self {α : Type} (m : StdMap α) (key : String) (value : α) :
    StdMap.find (StdMap.assign m key value) key = some value := by
  induction m with
  | nil => simp [StdMap.assign, StdMap.find]
  | cons entry rest ih =>
    obtain ⟨k, v⟩ := entry
    by_cases hk : k = key
    · simp [StdMap.assign, StdMap.find, hk]
    · by_cases hlt : key_less key k = true
      · simp [StdMap.assign, StdMap.find, hk, hlt]
      · simp [StdMap.assign, StdMap.find, hk, hlt, ih]

theorem StdMap.find_assign_of_ne {α : Type} (m : StdMap α) (key other : String) (value : α)
    (hne : other ≠ key) :
    StdMap.find (StdMap.assign m key value) other = StdMap.find m other := by
  induction m with
  | nil => simp [StdMap.assign, StdMap.find, Ne.symm hne]
  | cons entry rest ih =>
    obtain ⟨k, v⟩ := entry
    by_cases hk : k = key
    · subst hk
      simp [StdMap.assign, StdMap.find, Ne.symm hne]
    · by_cases hlt : key_less key k = true
      · simp [StdMap.assign, StdMap.find, hk, hlt, Ne.symm hne]
      · simp [StdMap.assign, StdMap.find, hk, hlt, ih]

/-! ## Lemmas on `Variables` -/

/-- What the loop of `assign_variable_and_initialize_if_necessary` does when it
returns from inside: the frame it wrote is the innermost one, at or above the
limit, that binds the name. -/
theorem Variables.assign_loop_eq_some {frames updated : List VariableMap} {name : String}
    {value : Int} {limit n : Nat}
    (h : Variables.assign_loop frames name value limit n = some updated) :
    ∃ j, limit ≤ j ∧ j < n ∧ (StdMap.find (frames.getD j []) name).isSome = true ∧
      (∀ i, j < i → i < n → StdMap.find (frames.getD i []) name = none) ∧
      updated = frames.set j (StdMap.assign (frames.getD j []) name value) := by
  induction n with
  | zero => simp [Variables.assign_loop] at h
  | succ i ih =>
    unfold Variables.assign_loop at h
    by_cases hl : limit ≤ i
    · by_cases hb : (StdMap.find (frames.getD i []) name).isSome = true
      · rw [if_pos hl, if_pos hb] at h
        refine ⟨i, hl, Nat.lt_succ_self i, hb, ?_, ?_⟩
        · intro k h1 h2; omega
        · exact (Option.some.inj h).symm
      · rw [if_pos hl, if_neg hb] at h
        obtain ⟨j, h1, h2, h3, h4, h5⟩ := ih h
        refine ⟨j, h1, Nat.lt_succ_of_lt h2, h3, ?_, h5⟩
        intro k hk1 hk2
        by_cases hki : k = i
        · subst hki
          cases hf : StdMap.find (frames.getD k []) name with
          | none => rfl
          | some v => rw [hf] at hb; simp at hb
        · exact h4 k hk1 (by omega)
    · rw [if_neg hl] at h; cases h

/-- When the loop ends without a `return`, no frame from the limit up to the
start index binds the name. -/
theorem Variables.assign_loop_eq_none {frames : List VariableMap} {name : String}
    {value : Int} {limit n : Nat}
    (h : Variables.assign_loop frames name value limit n = none) :
    ∀ i, limit ≤ i → i < n → StdMap.find (frames.getD i []) name = none := by
  induction n with
  | zero => intro i _ hi; omega
  | succ k ih =>
    unfold Variables.assign_loop at h
    intro i h1 h2
    by_cases hl : limit ≤ k
    · by_cases hb : (StdMap.find (frames.getD k []) name).isSome = true
      · rw [if_pos hl, if_pos hb] at h; cases h
      · rw [if_pos hl, if_neg hb] at h
        by_cases hik : i = k
        · subst hik
          cases hf : StdMap.find (frames.getD i []) name with
          | none => rfl
          | some v => rw [hf] at hb; simp at hb
        · exact ih h i h1 (by omega)
    · omega


theorem Variables.Extends.refl (vars : Variables) : vars.Extends vars :=
  ⟨rfl, Nat.le_refl _, fun _ _ => rfl⟩

theorem Variables.Extends.trans {a b c : Variables} (hab : a.Extends b) (hbc : b.Extends c) :
    a.Extends c := by
  obtain ⟨h1, h2, h3⟩ := hab
  obtain ⟨k1, k2, k3⟩ := hbc
  refine ⟨k1.trans h1, Nat.le_trans h2 k2, ?_⟩
  intro x hx
  rw [k3 x (by rw [h1]; exact hx), h3 x hx]

theorem Variables.Extends.wellFormed {a b : Variables} (hab : a.Extends b)
    (hwf : a.WellFormed) : b.WellFormed := by
  obtain ⟨x, rest, h1, h2⟩ := hwf
  exact ⟨x, rest, hab.1.trans h1, Nat.lt_of_lt_of_le h2 hab.2.1⟩

/-- The write as one equation: the frame written is the innermost visible frame
binding the name, or the innermost frame when no visible frame binds it. -/
theorem Variables.assign_variable_eq (vars : Variables) (name : String) (value : Int)
    (b : Nat) (rest : List Nat) (hb : vars.function_scope_indices = b :: rest)
    (hlt : b < vars.scoped_variables.length) :
    ∃ j, b ≤ j ∧ j < vars.scoped_variables.length ∧
      (((StdMap.find (vars.scoped_variables.getD j []) name).isSome = true ∧
          ∀ i, j < i → i < vars.scoped_variables.length →
            StdMap.find (vars.scoped_variables.getD i []) name = none) ∨
        (j = vars.scoped_variables.length - 1 ∧
          ∀ i, b ≤ i → i < vars.scoped_variables.length →
            StdMap.find (vars.scoped_variables.getD i []) name = none)) ∧
      vars.assign_variable_and_initialize_if_necessary name value =
        .ok { vars with
          scoped_variables := vars.scoped_variables.set j
            (StdMap.assign (vars.scoped_variables.getD j []) name value) } := by
  cases hloop : Variables.assign_loop vars.scoped_variables name value b
      vars.scoped_variables.length with
  | some updated =>
    obtain ⟨j, h1, h2, h3, h4, h5⟩ := Variables.assign_loop_eq_some hloop
    refine ⟨j, h1, h2, Or.inl ⟨h3, h4⟩, ?_⟩
    simp only [Variables.assign_variable_and_initialize_if_necessary, hb, hloop, h5]
  | none =>
    have hnone := Variables.assign_loop_eq_none hloop
    refine ⟨vars.scoped_variables.length - 1, by omega, by omega, Or.inr ⟨rfl, hnone⟩, ?_⟩
    have hne : ¬ vars.scoped_variables.length = 0 := by omega
    simp only [Variables.assign_variable_and_initialize_if_necessary, hb, hloop, if_neg hne]

theorem Variables.assign_extends {vars vars1 : Variables} {name : String} {value : Int}
    (hwf : vars.WellFormed)
    (h : vars.assign_variable_and_initialize_if_necessary name value = .ok vars1) :
    vars.Extends vars1 ∧ vars1.scoped_variables.length = vars.scoped_variables.length := by
  obtain ⟨b, rest, hb, hlt⟩ := hwf
  obtain ⟨j, h1, h2, -, h4⟩ := Variables.assign_variable_eq vars name value b rest hb hlt
  rw [h4] at h
  have hv := Outcome.ok.inj h
  subst hv
  refine ⟨⟨rfl, by simp, ?_⟩, by simp⟩
  intro x hx
  rw [hb] at hx
  simp at hx
  subst hx
  by_cases hjb : b = j
  · subst hjb
    apply List.ext_getElem?
    intro i
    by_cases hi : i < b
    · simp [List.getElem?_take, hi, List.getElem?_set_ne (Nat.ne_of_gt hi)]
    · simp [List.getElem?_take, hi]
  · exact List.take_set_of_lt _ _ (by omega)


theorem Variables.block_scope_extends {vars vars2 vars3 : Variables} (hwf : vars.WellFormed)
    (h12 : vars.enter_block_scope.Extends vars2)
    (h3 : vars2.exit_block_scope = .ok vars3) : vars.Extends vars3 := by
  obtain ⟨b, rest, hb, hlt⟩ := hwf
  obtain ⟨k1, k2, k3⟩ := h12
  simp only [Variables.enter_block_scope, List.length_append, List.length_singleton] at k1 k2 k3
  unfold Variables.exit_block_scope at h3
  have hne : ¬ vars2.scoped_variables.length = 0 := by omega
  rw [if_neg hne] at h3
  have hv := Outcome.ok.inj h3
  subst hv
  refine ⟨k1, by simp; omega, ?_⟩
  intro x hx
  have hxb : x = b := by rw [hb] at hx; simpa using hx.symm
  subst hxb
  simp only [List.dropLast_eq_take, List.take_take]
  rw [Nat.min_eq_left (by omega), k3 x hx, List.take_append_of_le_length (by omega)]

theorem Variables.function_scope_frames {vars vars2 vars3 : Variables}
    (h12 : vars.enter_function_scope.Extends vars2)
    (h3 : vars2.exit_function_scope = .ok vars3) :
    vars3.function_scope_indices = vars.function_scope_indices ∧
      vars.scoped_variables.length ≤ vars3.scoped_variables.length ∧
      vars3.scoped_variables.take vars.scoped_variables.length = vars.scoped_variables := by
  obtain ⟨k1, k2, k3⟩ := h12
  simp only [Variables.enter_function_scope, List.length_append, List.length_singleton] at k1 k2 k3
  unfold Variables.exit_function_scope at h3
  have hne : ¬ vars2.scoped_variables.length = 0 := by omega
  rw [if_neg hne, k1] at h3
  have hv := Outcome.ok.inj h3
  subst hv
  refine ⟨rfl, by simp; omega, ?_⟩
  simp only [List.dropLast_eq_take, List.take_take]
  rw [Nat.min_eq_left (by omega), k3 _ rfl, List.take_left]

theorem Variables.function_scope_extends {vars vars2 vars3 : Variables} (hwf : vars.WellFormed)
    (h12 : vars.enter_function_scope.Extends vars2)
    (h3 : vars2.exit_function_scope = .ok vars3) : vars.Extends vars3 := by
  obtain ⟨b, rest, hb, hlt⟩ := hwf
  obtain ⟨k1, k2, k3⟩ := Variables.function_scope_frames h12 h3
  refine ⟨k1, k2, ?_⟩
  intro x hx
  have hxb : x = b := by rw [hb] at hx; simpa using hx.symm
  subst hxb
  have h := congrArg (List.take x) k3
  rw [List.take_take, Nat.min_eq_left (by omega)] at h
  exact h

theorem Variables.enter_function_scope_wellFormed (vars : Variables) :
    vars.enter_function_scope.WellFormed :=
  ⟨vars.scoped_variables.length, vars.function_scope_indices, rfl, by
    simp [Variables.enter_function_scope]⟩

theorem assign_argument_values_extends :
    ∀ (argument_values : StdMap Int) (vars vars1 : Variables),
      vars.WellFormed → assign_argument_values argument_values vars = .ok vars1 →
      vars.Extends vars1 := by
  intro argument_values
  induction argument_values with
  | nil =>
    intro vars vars1 _ h
    simp only [assign_argument_values] at h
    rw [← Outcome.ok.inj h]
    exact Variables.Extends.refl _
  | cons entry rest ih =>
    intro vars vars1 hwf h
    simp only [assign_argument_values] at h
    obtain ⟨v, hv, hf⟩ := Outcome.bind_eq_ok h
    have h1 := (Variables.assign_extends hwf hv).1
    exact h1.trans (ih v vars1 (h1.wellFormed hwf) hf)

theorem evaluate_statements_sound {ev : Evaluator} (hev : Evaluator.Sound ev) :
    ∀ (statements : List SyntaxTreeNode) (state : ProgramState) (r : EvaluationResult)
      (state' : ProgramState), evaluate_statements ev statements state = .ok (r, state') →
      state.vars.WellFormed → state.vars.Extends state'.vars := by
  intro statements
  induction statements with
  | nil =>
    intro state r state' h _
    simp only [evaluate_statements] at h
    have h2 := Outcome.ok.inj h
    rw [← (Prod.mk.inj h2).2]
    exact Variables.Extends.refl _
  | cons node rest ih =>
    intro state r state' h hwf
    simp only [evaluate_statements] at h
    obtain ⟨a, ha, hf⟩ := Outcome.bind_eq_ok h
    have h1 := hev node state a.1 a.2 ha hwf
    by_cases hr : a.1.should_return = true
    · rw [if_pos hr] at hf
      have h2 := Outcome.ok.inj hf
      rw [← (Prod.mk.inj h2).2]
      exact h1
    · rw [if_neg hr] at hf
      exact h1.trans (ih a.2 r state' hf (h1.wellFormed hwf))

theorem evaluate_arguments_sound {ev : Evaluator} (hev : Evaluator.Sound ev) :
    ∀ (arguments : List (String × SyntaxTreeNode)) (argument_values : StdMap Int)
      (state : ProgramState) (values : StdMap Int) (state' : ProgramState),
      evaluate_arguments ev arguments argument_values state = .ok (values, state') →
      state.vars.WellFormed → state.vars.Extends state'.vars := by
  intro arguments
  induction arguments with
  | nil =>
    intro argument_values state values state' h _
    simp only [evaluate_arguments] at h
    have h2 := Outcome.ok.inj h
    rw [← (Prod.mk.inj h2).2]
    exact Variables.Extends.refl _
  | cons argument rest ih =>
    intro argument_values state values state' h hwf
    simp only [evaluate_arguments] at h
    obtain ⟨a, ha, hf⟩ := Outcome.bind_eq_ok h
    have h1 := hev argument.2 state a.1 a.2 ha hwf
    exact h1.trans (ih _ a.2 values state' hf (h1.wellFormed hwf))

theorem while_loop_sound {ev : Evaluator} (hev : Evaluator.Sound ev)
    (condition body : SyntaxTreeNode) :
    ∀ (n : Nat) (state : ProgramState) (r : EvaluationResult) (state' : ProgramState),
      while_loop ev condition body n state = .ok (r, state') →
      state.vars.WellFormed → state.vars.Extends state'.vars := by
  intro n
  induction n with
  | zero => intro state r state' h _; simp [while_loop] at h
  | succ n ih =>
    intro state r state' h hwf
    simp only [while_loop] at h
    obtain ⟨c, hc, hf⟩ := Outcome.bind_eq_ok h
    have h1 := hev condition state c.1 c.2 hc hwf
    have hwf1 := h1.wellFormed hwf
    by_cases hone : c.1.expression_value = 1
    · rw [if_pos hone] at hf
      obtain ⟨b, hb, hg⟩ := Outcome.bind_eq_ok hf
      have hwf2 : c.2.vars.enter_block_scope.WellFormed := by
        obtain ⟨x, rest, hx1, hx2⟩ := hwf1
        exact ⟨x, rest, hx1, by simp [Variables.enter_block_scope]; omega⟩
      have h2 := hev body _ b.1 b.2 hb hwf2
      by_cases hr : b.1.should_return = true
      · rw [if_pos hr] at hg
        have h3 := Outcome.ok.inj hg
        rw [← (Prod.mk.inj h3).2]
        have h4 : c.2.vars.Extends c.2.vars.enter_block_scope := by
          refine ⟨rfl, by simp [Variables.enter_block_scope], ?_⟩
          intro x hx
          obtain ⟨y, rest, hy1, hy2⟩ := hwf1
          have hxy : x = y := by rw [hy1] at hx; simpa using hx.symm
          subst hxy
          simp only [Variables.enter_block_scope]
          exact List.take_append_of_le_length (by omega)
        exact h1.trans (h4.trans h2)
      · rw [if_neg hr] at hg
        obtain ⟨v, hv, hk⟩ := Outcome.bind_eq_ok hg
        have h3 := Variables.block_scope_extends hwf1 h2 hv
        have h4 := ih _ r state' hk (h3.wellFormed hwf1)
        exact h1.trans (h3.trans h4)
    · rw [if_neg hone] at hf
      have h3 := Outcome.ok.inj hf
      rw [← (Prod.mk.inj h3).2]
      exact h1


theorem function_call_entry_extends {ev : Evaluator} (hev : Evaluator.Sound ev)
    {arguments : List (String × SyntaxTreeNode)} {state state1 : ProgramState}
    (hwf : state.vars.WellFormed)
    (h : function_call_entry ev arguments state = .ok state1) :
    ∃ mid : Variables, state.vars.Extends mid ∧ mid.enter_function_scope.Extends state1.vars := by
  unfold function_call_entry at h
  obtain ⟨a, ha, hf⟩ := Outcome.bind_eq_ok h
  obtain ⟨v, hv, hg⟩ := Outcome.bind_eq_ok hf
  have h1 := evaluate_arguments_sound hev arguments [] state a.1 a.2 ha hwf
  have h2 := assign_argument_values_extends a.1 _ v
    (Variables.enter_function_scope_wellFormed a.2.vars) hv
  have h3 := Outcome.ok.inj hg
  subst h3
  exact ⟨a.2.vars, h1, h2⟩

theorem SyntaxTreeNode.evaluate_sound : ∀ fuel : Nat, Evaluator.Sound (SyntaxTreeNode.evaluate fuel) := by
  intro fuel
  induction fuel with
  | zero => intro node state r state' h _; simp [SyntaxTreeNode.evaluate] at h
  | succ fuel ih =>
    intro node state r state' h hwf
    cases node with
    | StatementSequenceNode statements =>
      simp only [SyntaxTreeNode.evaluate] at h
      exact evaluate_statements_sound ih statements state r state' h hwf
    | OperandNode operand_type identifier_value literal_value =>
      cases operand_type with
      | IDENTIFIER =>
        simp only [SyntaxTreeNode.evaluate] at h
        obtain ⟨v, _, hf⟩ := Outcome.bind_eq_ok h
        rw [← (Prod.mk.inj (Outcome.ok.inj hf)).2]
        exact Variables.Extends.refl _
      | LITERAL =>
        simp only [SyntaxTreeNode.evaluate] at h
        rw [← (Prod.mk.inj (Outcome.ok.inj h)).2]
        exact Variables.Extends.refl _
    | ReturnNode value =>
      simp only [SyntaxTreeNode.evaluate] at h
      obtain ⟨a, ha, hf⟩ := Outcome.bind_eq_ok h
      rw [← (Prod.mk.inj (Outcome.ok.inj hf)).2]
      exact ih value state a.1 a.2 ha hwf
    | AssignmentNode variable_name value =>
      simp only [SyntaxTreeNode.evaluate] at h
      obtain ⟨a, ha, hf⟩ := Outcome.bind_eq_ok h
      obtain ⟨v, hv, hg⟩ := Outcome.bind_eq_ok hf
      have h1 := ih value state a.1 a.2 ha hwf
      have h2 := (Variables.assign_extends (h1.wellFormed hwf) hv).1
      rw [← (Prod.mk.inj (Outcome.ok.inj hg)).2]
      exact h1.trans h2
    | BinaryOperationNode operation left_operand right_operand =>
      simp only [SyntaxTreeNode.evaluate] at h
      obtain ⟨a, ha, hf⟩ := Outcome.bind_eq_ok h
      obtain ⟨b, hb, hg⟩ := Outcome.bind_eq_ok hf
      obtain ⟨v, _, hk⟩ := Outcome.bind_eq_ok hg
      have h1 := ih left_operand state a.1 a.2 ha hwf
      have h2 := ih right_operand a.2 b.1 b.2 hb (h1.wellFormed hwf)
      rw [← (Prod.mk.inj (Outcome.ok.inj hk)).2]
      exact h1.trans h2
    | IfElseNode condition if_block else_block =>
      simp only [SyntaxTreeNode.evaluate] at h
      obtain ⟨a, ha, hf⟩ := Outcome.bind_eq_ok h
      have h1 := ih condition state a.1 a.2 ha hwf
      by_cases hc : a.1.expression_value ≠ 0
      · rw [if_pos hc] at hf
        exact h1.trans (ih if_block a.2 r state' hf (h1.wellFormed hwf))
      · rw [if_neg hc] at hf
        exact h1.trans (ih else_block a.2 r state' hf (h1.wellFormed hwf))
    | FunctionNode body arguments =>
      simp only [SyntaxTreeNode.evaluate] at h
      obtain ⟨s1, hs1, hf⟩ := Outcome.bind_eq_ok h
      obtain ⟨b, hb, hg⟩ := Outcome.bind_eq_ok hf
      obtain ⟨v, hv, hk⟩ := Outcome.bind_eq_ok hg
      obtain ⟨mid, h1, h2⟩ := function_call_entry_extends ih hwf hs1
      have h3 := ih body s1 b.1 b.2 hb (h2.wellFormed (Variables.enter_function_scope_wellFormed mid))
      have h4 := Variables.function_scope_extends (h1.wellFormed hwf) (h2.trans h3) hv
      rw [← (Prod.mk.inj (Outcome.ok.inj hk)).2]
      exact h1.trans h4
    | PrintNode value =>
      simp only [SyntaxTreeNode.evaluate] at h
      obtain ⟨a, ha, hf⟩ := Outcome.bind_eq_ok h
      rw [← (Prod.mk.inj (Outcome.ok.inj hf)).2]
      exact ih value state a.1 a.2 ha hwf
    | EmptyNode =>
      simp only [SyntaxTreeNode.evaluate] at h
      rw [← (Prod.mk.inj (Outcome.ok.inj h)).2]
      exact Variables.Extends.refl _
    | WhileNode condition body =>
      simp only [SyntaxTreeNode.evaluate] at h
      exact while_loop_sound ih condition body fuel state r state' h hwf



/-! ## One step of `evaluate` -/

theorem SyntaxTreeNode.evaluate_zero (node : SyntaxTreeNode) (state : ProgramState) :
    SyntaxTreeNode.evaluate 0 node state = .out_of_fuel := rfl

theorem SyntaxTreeNode.evaluate_sequence (fuel : Nat) (statements : List SyntaxTreeNode)
    (state : ProgramState) :
    SyntaxTreeNode.evaluate (fuel + 1) (.StatementSequenceNode statements) state =
      evaluate_statements (SyntaxTreeNode.evaluate fuel) statements state := rfl

theorem SyntaxTreeNode.evaluate_identifier (fuel : Nat) (identifier_value : String)
    (literal_value : Int) (state : ProgramState) :
    SyntaxTreeNode.evaluate (fuel + 1)
        (.OperandNode .IDENTIFIER identifier_value literal_value) state =
      (state.vars.get_variable_value identifier_value).bind fun value =>
        .ok ({ expression_value := value }, state) := rfl

theorem SyntaxTreeNode.evaluate_literal (fuel : Nat) (identifier_value : String)
    (literal_value : Int) (state : ProgramState) :
    SyntaxTreeNode.evaluate (fuel + 1)
        (.OperandNode .LITERAL identifier_value literal_value) state =
      .ok ({ expression_value := literal_value }, state) := rfl

theorem SyntaxTreeNode.evaluate_return (fuel : Nat) (value : SyntaxTreeNode)
    (state : ProgramState) :
    SyntaxTreeNode.evaluate (fuel + 1) (.ReturnNode value) state =
      (SyntaxTreeNode.evaluate fuel value state).bind fun value_result =>
        .ok ({ return_value := value_result.1.expression_value, should_return := true },
             value_result.2) := rfl

theorem SyntaxTreeNode.evaluate_assignment (fuel : Nat) (variable_name : String)
    (value : SyntaxTreeNode) (state : ProgramState) :
    SyntaxTreeNode.evaluate (fuel + 1) (.AssignmentNode variable_name value) state =
      (SyntaxTreeNode.evaluate fuel value state).bind fun assignment_value_result =>
        (assignment_value_result.2.vars.assign_variable_and_initialize_if_necessary
            variable_name
            (if value.node_type = .FUNCTION_CALL then assignment_value_result.1.return_value
             else assignment_value_result.1.expression_value)).bind fun vars1 =>
          .ok ({ expression_value := 1 },
               { assignment_value_result.2 with vars := vars1 }) := rfl

theorem SyntaxTreeNode.evaluate_binary (fuel : Nat) (operation : BinaryOperation)
    (left_operand right_operand : SyntaxTreeNode) (state : ProgramState) :
    SyntaxTreeNode.evaluate (fuel + 1)
        (.BinaryOperationNode operation left_operand right_operand) state =
      (SyntaxTreeNode.evaluate fuel left_operand state).bind fun left_result =>
        (SyntaxTreeNode.evaluate fuel right_operand left_result.2).bind fun right_result =>
          (apply_binary_operation operation left_result.1.expression_value
              right_result.1.expression_value).bind fun expression_value =>
            .ok ({ expression_value := expression_value }, right_result.2) := rfl

theorem SyntaxTreeNode.evaluate_if_else (fuel : Nat)
    (condition if_block else_block : SyntaxTreeNode) (state : ProgramState) :
    SyntaxTreeNode.evaluate (fuel + 1) (.IfElseNode condition if_block else_block) state =
      (SyntaxTreeNode.evaluate fuel condition state).bind fun condition_result =>
        if condition_result.1.expression_value ≠ 0 then
          SyntaxTreeNode.evaluate fuel if_block condition_result.2
        else SyntaxTreeNode.evaluate fuel else_block condition_result.2 := rfl

theorem SyntaxTreeNode.evaluate_function (fuel : Nat) (body : SyntaxTreeNode)
    (arguments : List (String × SyntaxTreeNode)) (state : ProgramState) :
    SyntaxTreeNode.evaluate (fuel + 1) (.FunctionNode body arguments) state =
      (function_call_entry (SyntaxTreeNode.evaluate fuel) arguments state).bind fun state1 =>
        (SyntaxTreeNode.evaluate fuel body state1).bind fun result =>
          (result.2.vars.exit_function_scope).bind fun vars1 =>
            .ok ({ result.1 with should_return := false },
                 { result.2 with vars := vars1 }) := rfl

theorem SyntaxTreeNode.evaluate_empty (fuel : Nat) (state : ProgramState) :
    SyntaxTreeNode.evaluate (fuel + 1) .EmptyNode state = .ok ({}, state) := rfl

theorem SyntaxTreeNode.evaluate_print (fuel : Nat) (value : SyntaxTreeNode)
    (state : ProgramState) :
    SyntaxTreeNode.evaluate (fuel + 1) (.PrintNode value) state =
      (SyntaxTreeNode.evaluate fuel value state).bind fun value_result =>
        .ok ({}, { value_result.2 with cout := value_result.2.cout ++
          [if value.node_type = .FUNCTION_CALL then value_result.1.return_value
           else value_result.1.expression_value] }) := rfl

theorem SyntaxTreeNode.evaluate_while (fuel : Nat) (condition body : SyntaxTreeNode)
    (state : ProgramState) :
    SyntaxTreeNode.evaluate (fuel + 1) (.WhileNode condition body) state =
      while_loop (SyntaxTreeNode.evaluate fuel) condition body fuel state := rfl

theorem while_loop_succ (ev : Evaluator) (condition body : SyntaxTreeNode) (n : Nat)
    (state : ProgramState) :
    while_loop ev condition body (n + 1) state =
      (ev condition state).bind fun condition_result =>
        if condition_result.1.expression_value = 1 then
          (ev body { condition_result.2 with
              vars := condition_result.2.vars.enter_block_scope }).bind
            fun current_iteration_result =>
              if current_iteration_result.1.should_return then
                .ok ({ return_value := current_iteration_result.1.return_value,
                       should_return := true }, current_iteration_result.2)
              else
                (current_iteration_result.2.vars.exit_block_scope).bind fun vars1 =>
                  while_loop ev condition body n
                    { current_iteration_result.2 with vars := vars1 }
        else .ok ({}, condition_result.2) := rfl

theorem evaluate_statements_cons (ev : Evaluator) (node : SyntaxTreeNode)
    (rest : List SyntaxTreeNode) (state : ProgramState) :
    evaluate_statements ev (node :: rest) state =
      (ev node state).bind fun node_result =>
        if node_result.1.should_return then
          .ok ({ return_value := node_result.1.return_value, should_return := true },
               node_result.2)
        else evaluate_statements ev rest node_result.2 := rfl

/-! ## More budget never changes a result -/

theorem Outcome.bind_ok {α β : Type} (a : α) (f : α → Outcome β) :
    (Outcome.ok a).bind f = f a := rfl

theorem evaluate_statements_mono {ev ev' : Evaluator} (hev : Evaluator.Below ev ev') :
    ∀ (statements : List SyntaxTreeNode) (state : ProgramState)
      (x : EvaluationResult × ProgramState),
      evaluate_statements ev statements state = .ok x →
      evaluate_statements ev' statements state = .ok x := by
  intro statements
  induction statements with
  | nil => intro state x h; simpa [evaluate_statements] using h
  | cons node rest ih =>
    intro state x h
    simp only [evaluate_statements] at h ⊢
    obtain ⟨a, ha, hf⟩ := Outcome.bind_eq_ok h
    rw [hev node state a ha, Outcome.bind_ok]
    by_cases hr : a.1.should_return = true
    · rw [if_pos hr] at hf ⊢; exact hf
    · rw [if_neg hr] at hf ⊢; exact ih a.2 x hf

theorem evaluate_arguments_mono {ev ev' : Evaluator} (hev : Evaluator.Below ev ev') :
    ∀ (arguments : List (String × SyntaxTreeNode)) (argument_values : StdMap Int)
      (state : ProgramState) (x : StdMap Int × ProgramState),
      evaluate_arguments ev arguments argument_values state = .ok x →
      evaluate_arguments ev' arguments argument_values state = .ok x := by
  intro arguments
  induction arguments with
  | nil => intro argument_values state x h; simpa [evaluate_arguments] using h
  | cons argument rest ih =>
    intro argument_values state x h
    simp only [evaluate_arguments] at h ⊢
    obtain ⟨a, ha, hf⟩ := Outcome.bind_eq_ok h
    rw [hev argument.2 state a ha, Outcome.bind_ok]
    exact ih _ a.2 x hf

theorem function_call_entry_mono {ev ev' : Evaluator} (hev : Evaluator.Below ev ev')
    (arguments : List (String × SyntaxTreeNode)) (state state1 : ProgramState)
    (h : function_call_entry ev arguments state = .ok state1) :
    function_call_entry ev' arguments state = .ok state1 := by
  unfold function_call_entry at h ⊢
  obtain ⟨a, ha, hf⟩ := Outcome.bind_eq_ok h
  rw [evaluate_arguments_mono hev arguments [] state a ha, Outcome.bind_ok]
  exact hf

theorem while_loop_mono {ev ev' : Evaluator} (hev : Evaluator.Below ev ev')
    (condition body : SyntaxTreeNode) :
    ∀ (n n' : Nat) (state : ProgramState) (x : EvaluationResult × ProgramState), n ≤ n' →
      while_loop ev condition body n state = .ok x →
      while_loop ev' condition body n' state = .ok x := by
  intro n
  induction n with
  | zero => intro n' state x _ h; simp [while_loop] at h
  | succ n ih =>
    intro n' state x hle h
    obtain ⟨m, rfl⟩ : ∃ m, n' = m + 1 := ⟨n' - 1, by omega⟩
    simp only [while_loop] at h ⊢
    obtain ⟨c, hc, hf⟩ := Outcome.bind_eq_ok h
    rw [hev condition state c hc, Outcome.bind_ok]
    by_cases hone : c.1.expression_value = 1
    · rw [if_pos hone] at hf ⊢
      obtain ⟨b, hb, hg⟩ := Outcome.bind_eq_ok hf
      rw [hev body _ b hb, Outcome.bind_ok]
      by_cases hr : b.1.should_return = true
      · rw [if_pos hr] at hg ⊢; exact hg
      · rw [if_neg hr] at hg ⊢
        obtain ⟨v, hv, hk⟩ := Outcome.bind_eq_ok hg
        rw [hv, Outcome.bind_ok]
        exact ih m _ x (by omega) hk
    · rw [if_neg hone] at hf ⊢; exact hf

theorem SyntaxTreeNode.evaluate_mono_succ :
    ∀ fuel : Nat, Evaluator.Below (SyntaxTreeNode.evaluate fuel)
      (SyntaxTreeNode.evaluate (fuel + 1)) := by
  intro fuel
  induction fuel with
  | zero => intro node state x h; simp [SyntaxTreeNode.evaluate] at h
  | succ fuel ih =>
    intro node state x h
    cases node with
    | StatementSequenceNode statements =>
      rw [SyntaxTreeNode.evaluate_sequence] at h ⊢
      exact evaluate_statements_mono ih statements state x h
    | OperandNode operand_type identifier_value literal_value =>
      cases operand_type with
      | IDENTIFIER => rw [SyntaxTreeNode.evaluate_identifier] at h ⊢; exact h
      | LITERAL => rw [SyntaxTreeNode.evaluate_literal] at h ⊢; exact h
    | ReturnNode value =>
      rw [SyntaxTreeNode.evaluate_return] at h ⊢
      obtain ⟨a, ha, hf⟩ := Outcome.bind_eq_ok h
      rw [ih value state a ha, Outcome.bind_ok]; exact hf
    | AssignmentNode variable_name value =>
      rw [SyntaxTreeNode.evaluate_assignment] at h ⊢
      obtain ⟨a, ha, hf⟩ := Outcome.bind_eq_ok h
      rw [ih value state a ha, Outcome.bind_ok]; exact hf
    | BinaryOperationNode operation left_operand right_operand =>
      rw [SyntaxTreeNode.evaluate_binary] at h ⊢
      obtain ⟨a, ha, hf⟩ := Outcome.bind_eq_ok h
      obtain ⟨b, hb, hg⟩ := Outcome.bind_eq_ok hf
      rw [ih left_operand state a ha, Outcome.bind_ok, ih right_operand a.2 b hb,
        Outcome.bind_ok]
      exact hg
    | IfElseNode condition if_block else_block =>
      rw [SyntaxTreeNode.evaluate_if_else] at h ⊢
      obtain ⟨a, ha, hf⟩ := Outcome.bind_eq_ok h
      rw [ih condition state a ha, Outcome.bind_ok]
      by_cases hc : a.1.expression_value ≠ 0
      · rw [if_pos hc] at hf ⊢; exact ih if_block a.2 x hf
      · rw [if_neg hc] at hf ⊢; exact ih else_block a.2 x hf
    | FunctionNode body arguments =>
      rw [SyntaxTreeNode.evaluate_function] at h ⊢
      obtain ⟨s1, hs1, hf⟩ := Outcome.bind_eq_ok h
      obtain ⟨b, hb, hg⟩ := Outcome.bind_eq_ok hf
      rw [function_call_entry_mono ih arguments state s1 hs1, Outcome.bind_ok,
        ih body s1 b hb, Outcome.bind_ok]
      exact hg
    | PrintNode value =>
      rw [SyntaxTreeNode.evaluate_print] at h ⊢
      obtain ⟨a, ha, hf⟩ := Outcome.bind_eq_ok h
      rw [ih value state a ha, Outcome.bind_ok]; exact hf
    | EmptyNode => rw [SyntaxTreeNode.evaluate_empty] at h ⊢; exact h
    | WhileNode condition body =>
      rw [SyntaxTreeNode.evaluate_while] at h ⊢
      exact while_loop_mono ih condition body fuel (fuel + 1) state x (Nat.le_succ fuel) h

theorem SyntaxTreeNode.evaluate_mono {fuel fuel' : Nat} (hle : fuel ≤ fuel') :
    Evaluator.Below (SyntaxTreeNode.evaluate fuel) (SyntaxTreeNode.evaluate fuel') := by
  induction hle with
  | refl => intro node state x h; exact h
  | step _ ih =>
    intro node state x h
    exact SyntaxTreeNode.evaluate_mono_succ _ node state x (ih node state x h)

/-! ## The key order and sorted maps -/

theorem key_less_irrefl (a : String) : key_less a a = false := by
  simp [key_less]

theorem key_less_trans {a b c : String} (h1 : key_less a b = true)
    (h2 : key_less b c = true) : key_less a c = true := by
  simp only [key_less, decide_eq_true_eq] at *
  exact lt_trans h1 h2

theorem key_less_total {a b : String} (hne : a ≠ b) (h : ¬ key_less a b = true) :
    key_less b a = true := by
  simp only [key_less, decide_eq_true_eq] at *
  rcases lt_trichotomy a.data b.data with h2 | h2 | h2
  · exact absurd h2 h
  · exact absurd (String.ext h2) hne
  · exact h2

theorem key_less_ne {a b : String} (h : key_less a b = true) : a ≠ b := by
  intro hab
  rw [hab, key_less_irrefl] at h
  cases h

theorem StdMap.mem_assign {α : Type} {m : StdMap α} {key : String} {value : α}
    {entry : String × α} (h : entry ∈ StdMap.assign m key value) :
    entry = (key, value) ∨ entry ∈ m := by
  induction m with
  | nil =>
    simp only [StdMap.assign, List.mem_singleton] at h
    exact Or.inl h
  | cons head rest ih =>
    obtain ⟨k, v⟩ := head
    unfold StdMap.assign at h
    by_cases hk : k = key
    · rw [if_pos hk] at h
      rcases List.mem_cons.mp h with h1 | h1
      · exact Or.inl h1
      · exact Or.inr (List.mem_cons_of_mem _ h1)
    · rw [if_neg hk] at h
      by_cases hlt : key_less key k = true
      · rw [if_pos hlt] at h
        rcases List.mem_cons.mp h with h1 | h1
        · exact Or.inl h1
        · exact Or.inr h1
      · rw [if_neg hlt] at h
        rcases List.mem_cons.mp h with h1 | h1
        · exact Or.inr (h1 ▸ List.mem_cons_self _ _)
        · rcases ih h1 with h2 | h2
          · exact Or.inl h2
          · exact Or.inr (List.mem_cons_of_mem _ h2)

theorem StdMap.sorted_nil {α : Type} : StdMap.Sorted ([] : StdMap α) := List.Pairwise.nil

theorem StdMap.assign_sorted {α : Type} {m : StdMap α} (hm : StdMap.Sorted m) (key : String)
    (value : α) : StdMap.Sorted (StdMap.assign m key value) := by
  induction m with
  | nil => exact List.pairwise_singleton _ _
  | cons head rest ih =>
    obtain ⟨k, v⟩ := head
    have hhead := (List.pairwise_cons.mp hm).1
    have hrest := (List.pairwise_cons.mp hm).2
    unfold StdMap.assign
    by_cases hk : k = key
    · rw [if_pos hk]
      refine List.pairwise_cons.mpr ⟨?_, hrest⟩
      intro later hl
      rw [← hk]
      exact hhead later hl
    · rw [if_neg hk]
      by_cases hlt : key_less key k = true
      · rw [if_pos hlt]
        refine List.pairwise_cons.mpr ⟨?_, hm⟩
        intro later hl
        rcases List.mem_cons.mp hl with h1 | h1
        · rw [h1]; exact hlt
        · exact key_less_trans hlt (hhead later h1)
      · rw [if_neg hlt]
        refine List.pairwise_cons.mpr ⟨?_, ih hrest⟩
        intro later hl
        rcases StdMap.mem_assign hl with h1 | h1
        · rw [h1]; exact key_less_total (Ne.symm hk) hlt
        · exact hhead later h1

theorem StdMap.find_eq_none_of_keys {α : Type} {m : StdMap α} {key : String}
    (h : ∀ entry ∈ m, entry.1 ≠ key) : StdMap.find m key = none := by
  induction m with
  | nil => rfl
  | cons head rest ih =>
    obtain ⟨k, v⟩ := head
    have hk : k ≠ key := h (k, v) (List.mem_cons_self _ _)
    simp only [StdMap.find, if_neg hk]
    exact ih (fun entry he => h entry (List.mem_cons_of_mem _ he))

theorem StdMap.find_of_mem {α : Type} {m : StdMap α} (hm : StdMap.Sorted m) {key : String}
    {value : α} (h : (key, value) ∈ m) : StdMap.find m key = some value := by
  induction m with
  | nil => cases h
  | cons head rest ih =>
    obtain ⟨k, v⟩ := head
    have hhead := (List.pairwise_cons.mp hm).1
    have hrest := (List.pairwise_cons.mp hm).2
    rcases List.mem_cons.mp h with h1 | h1
    · have hk : k = key := (Prod.mk.inj h1).1.symm
      have hv : v = value := (Prod.mk.inj h1).2.symm
      simp only [StdMap.find, if_pos hk, hv]
    · have hk : k ≠ key := key_less_ne (hhead (key, value) h1)
      simp only [StdMap.find, if_neg hk]
      exact ih hrest h1

theorem StdMap.mem_of_find {α : Type} {m : StdMap α} {key : String} {value : α}
    (h : StdMap.find m key = some value) : (key, value) ∈ m := by
  induction m with
  | nil => cases h
  | cons head rest ih =>
    obtain ⟨k, v⟩ := head
    unfold StdMap.find at h
    by_cases hk : k = key
    · rw [if_pos hk] at h
      rw [hk, Option.some.inj h]
      exact List.mem_cons_self _ _
    · rw [if_neg hk] at h
      exact List.mem_cons_of_mem _ (ih h)

theorem StdMap.find_tail_of_sorted {α : Type} {key : String} {value : α} {rest : StdMap α}
    (hm : StdMap.Sorted ((key, value) :: rest)) : StdMap.find rest key = none :=
  StdMap.find_eq_none_of_keys fun entry he =>
    Ne.symm (key_less_ne ((List.pairwise_cons.mp hm).1 entry he))

/-! ## Parsing a call line -/

theorem Interpreter.scan_function_name_append (interpreter : Interpreter)
    (before : List Token) (function_name : Token) (tail : List Token) (index : Nat)
    (hbefore : ∀ token ∈ before, interpreter.token_is_function_name token = false)
    (hname : interpreter.token_is_function_name function_name = true) :
    Interpreter.scan_function_name interpreter (before ++ function_name :: tail) index =
      .ok (index + before.length) := by
  induction before generalizing index with
  | nil => simp [Interpreter.scan_function_name, hname]
  | cons token rest ih =>
    have h1 : interpreter.token_is_function_name token = false :=
      hbefore token (List.mem_cons_self _ _)
    have h2 := ih (index + 1) (fun t ht => hbefore t (List.mem_cons_of_mem _ ht))
    rw [List.cons_append]
    unfold Interpreter.scan_function_name
    rw [h1, if_neg (by simp), h2]
    simp only [List.length_cons]
    congr 1
    omega

theorem Interpreter.collect_input_tokens_call (argument_tokens after : List Token)
    (htokens : ∀ token ∈ argument_tokens, token ≠ "," ∧ token ≠ ")") :
    Interpreter.collect_input_tokens (argument_tokens.intersperse "," ++ ")" :: after) =
      .ok argument_tokens := by
  induction argument_tokens with
  | nil => simp [Interpreter.collect_input_tokens]
  | cons token rest ih =>
    have h1 := htokens token (List.mem_cons_self _ _)
    have hrest : ∀ t ∈ rest, t ≠ "," ∧ t ≠ ")" :=
      fun t ht => htokens t (List.mem_cons_of_mem _ ht)
    cases rest with
    | nil =>
      simp [Interpreter.collect_input_tokens, h1.1, h1.2, Outcome.bind]
    | cons next more =>
      have h2 := ih hrest
      simp only [List.intersperse, List.cons_append] at h2 ⊢
      simp only [Interpreter.collect_input_tokens, if_neg h1.2]
      rw [if_neg (by decide : ¬ ("," : String) = ")")]
      rw [h2]
      simp [Outcome.bind, h1.1]

theorem Interpreter.get_function_signature_details_call (interpreter : Interpreter)
    (before after : List Token) (function_name : Token) (argument_tokens : List Token)
    (hbefore : ∀ token ∈ before, interpreter.token_is_function_name token = false)
    (hname : interpreter.token_is_function_name function_name = true)
    (htokens : ∀ token ∈ argument_tokens, token ≠ "," ∧ token ≠ ")") :
    interpreter.get_function_signature_details
        (before ++ call_tokens function_name argument_tokens ++ after) false =
      .ok { name := function_name, inputs := argument_tokens } := by
  have hline : before ++ call_tokens function_name argument_tokens ++ after =
      before ++ function_name :: "(" ::
        (argument_tokens.intersperse "," ++ ")" :: after) := by
    simp [call_tokens]
  rw [hline]
  unfold Interpreter.get_function_signature_details
  simp only [Bool.false_eq_true, if_false]
  rw [Interpreter.scan_function_name_append interpreter before function_name _ 0 hbefore hname,
    Outcome.bind_ok]
  have hget : (before ++ function_name :: "(" ::
      (argument_tokens.intersperse "," ++ ")" :: after)).get? (0 + before.length) =
        some function_name := by
    rw [Nat.zero_add, List.get?_eq_getElem?, List.getElem?_append_right (Nat.le_refl _)]
    simp
  have hdrop : (before ++ function_name :: "(" ::
      (argument_tokens.intersperse "," ++ ")" :: after)).drop (0 + before.length + 2) =
        argument_tokens.intersperse "," ++ ")" :: after := by
    rw [Nat.zero_add, List.drop_append_eq_append_drop]
    simp
  simp only [hget, hdrop]
  rw [Interpreter.collect_input_tokens_call argument_tokens after htokens, Outcome.bind_ok]

theorem Interpreter.parse_argument_tokens_forall {argument_tokens : List Token}
    {argument_nodes : List SyntaxTreeNode}
    (h : Interpreter.parse_argument_tokens argument_tokens = .ok argument_nodes) :
    List.Forall₂ (fun token node => Interpreter.parse_operand_token token = .ok node)
      argument_tokens argument_nodes := by
  induction argument_tokens generalizing argument_nodes with
  | nil =>
    simp only [Interpreter.parse_argument_tokens] at h
    rw [← Outcome.ok.inj h]
    exact List.Forall₂.nil
  | cons token rest ih =>
    simp only [Interpreter.parse_argument_tokens] at h
    obtain ⟨node, hnode, hf⟩ := Outcome.bind_eq_ok h
    obtain ⟨nodes, hnodes, hg⟩ := Outcome.bind_eq_ok hf
    rw [← Outcome.ok.inj hg]
    exact List.Forall₂.cons hnode (ih hnodes)

theorem Interpreter.parse_operand_token_operand {token : Token} {node : SyntaxTreeNode}
    (h : Interpreter.parse_operand_token token = .ok node) : node.node_type = .OPERAND := by
  unfold Interpreter.parse_operand_token at h
  by_cases hv : Interpreter.token_is_variable_name token = true
  · rw [if_pos hv] at h
    rw [← Outcome.ok.inj h]
    rfl
  · rw [if_neg hv] at h
    obtain ⟨v, _, hf⟩ := Outcome.bind_eq_ok h
    rw [← Outcome.ok.inj hf]
    rfl

theorem SyntaxTreeNode.evaluate_operand_ok (fuel : Nat) {node : SyntaxTreeNode}
    (hnode : node.node_type = .OPERAND) (state : ProgramState)
    (hstack : state.vars.function_scope_indices ≠ []) :
    ∃ r, SyntaxTreeNode.evaluate (fuel + 1) node state = .ok (r, state) := by
  cases node with
  | OperandNode operand_type identifier_value literal_value =>
    cases operand_type with
    | IDENTIFIER =>
      rw [SyntaxTreeNode.evaluate_identifier]
      unfold Variables.get_variable_value
      cases hs : state.vars.function_scope_indices with
      | nil => exact absurd hs hstack
      | cons scope_limit rest =>
        simp only []
        cases Variables.get_variable_value_loop state.vars.scoped_variables identifier_value
            scope_limit state.vars.scoped_variables.length with
        | none => exact ⟨_, rfl⟩
        | some value => exact ⟨_, rfl⟩
    | LITERAL => exact ⟨_, rfl⟩
  | _ => simp [SyntaxTreeNode.node_type] at hnode

/-! ## Binding the arguments of a call -/

theorem Interpreter.build_argument_map_spec :
    ∀ (parameters : List Token) (argument_nodes : List SyntaxTreeNode)
      (argument_map : StdMap SyntaxTreeNode),
      parameters.Nodup → parameters.length = argument_nodes.length →
      StdMap.Sorted argument_map →
      ∃ result, Interpreter.build_argument_map parameters argument_nodes argument_map =
          .ok result ∧ StdMap.Sorted result ∧
        (∀ pair ∈ List.zip parameters argument_nodes,
          StdMap.find result pair.1 = some pair.2) ∧
        (∀ name, name ∉ parameters → StdMap.find result name = StdMap.find argument_map name) := by
  intro parameters
  induction parameters with
  | nil =>
    intro argument_nodes argument_map _ _ hsorted
    refine ⟨argument_map, by simp [Interpreter.build_argument_map], hsorted, ?_, fun _ _ => rfl⟩
    intro pair hp
    simp at hp
  | cons parameter rest ih =>
    intro argument_nodes argument_map hnodup hlen hsorted
    cases argument_nodes with
    | nil => simp at hlen
    | cons node nodes =>
      have hnotin : parameter ∉ rest := (List.nodup_cons.mp hnodup).1
      obtain ⟨result, h1, h2, h3, h4⟩ := ih nodes (StdMap.assign argument_map parameter node)
        (List.nodup_cons.mp hnodup).2 (by simpa using hlen)
        (StdMap.assign_sorted hsorted parameter node)
      refine ⟨result, by simpa [Interpreter.build_argument_map] using h1, h2, ?_, ?_⟩
      · intro pair hp
        rw [List.zip_cons_cons] at hp
        rcases List.mem_cons.mp hp with h5 | h5
        · rw [h5]
          show StdMap.find result parameter = some node
          rw [h4 parameter hnotin]
          exact StdMap.find_assign_self _ _ _
        · exact h3 pair h5
      · intro name hname
        have hne : name ≠ parameter := fun h => hname (h ▸ List.mem_cons_self _ _)
        rw [h4 name (fun h => hname (List.mem_cons_of_mem _ h))]
        exact StdMap.find_assign_of_ne _ _ _ _ hne

theorem evaluate_arguments_spec (ev : Evaluator) (state : ProgramState) :
    ∀ (arguments : List (String × SyntaxTreeNode)) (argument_values : StdMap Int),
      StdMap.Sorted arguments → StdMap.Sorted argument_values →
      (∀ argument ∈ arguments, ∃ r, ev argument.2 state = .ok (r, state)) →
      ∃ values, evaluate_arguments ev arguments argument_values state = .ok (values, state) ∧
        StdMap.Sorted values ∧
        (∀ name node r, StdMap.find arguments name = some node →
          ev node state = .ok (r, state) →
          StdMap.find values name = some r.expression_value) ∧
        (∀ name, StdMap.find arguments name = none →
          StdMap.find values name = StdMap.find argument_values name) := by
  intro arguments
  induction arguments with
  | nil =>
    intro argument_values _ hsorted _
    refine ⟨argument_values, rfl, hsorted, ?_, fun _ _ => rfl⟩
    intro name node r h
    simp [StdMap.find] at h
  | cons argument rest ih =>
    intro argument_values hargs hsorted hev
    obtain ⟨key, node⟩ := argument
    obtain ⟨r0, hr0⟩ := hev (key, node) (List.mem_cons_self _ _)
    obtain ⟨values, h1, h2, h3, h4⟩ := ih
      (StdMap.assign argument_values key r0.expression_value)
      (List.pairwise_cons.mp hargs).2 (StdMap.assign_sorted hsorted _ _)
      (fun a ha => hev a (List.mem_cons_of_mem _ ha))
    have htail : StdMap.find rest key = none := StdMap.find_tail_of_sorted hargs
    refine ⟨values, ?_, h2, ?_, ?_⟩
    · simp only [evaluate_arguments]
      rw [hr0, Outcome.bind_ok]
      exact h1
    · intro name node' r hfind hr
      by_cases hk : key = name
      · simp only [StdMap.find, if_pos hk] at hfind
        have hnode : node = node' := Option.some.inj hfind
        rw [← hnode, hr0] at hr
        have hrr : r0 = r := (Prod.mk.inj (Outcome.ok.inj hr)).1
        rw [← hk, h4 key htail, ← hrr]
        exact StdMap.find_assign_self _ _ _
      · simp only [StdMap.find, if_neg hk] at hfind
        exact h3 name node' r hfind hr
    · intro name hfind
      by_cases hk : key = name
      · simp [StdMap.find, hk] at hfind
      · simp only [StdMap.find, if_neg hk] at hfind
        rw [h4 name hfind]
        exact StdMap.find_assign_of_ne _ _ _ _ (Ne.symm hk)

theorem Variables.assign_innermost_frame (frames : List VariableMap) (frame : VariableMap)
    (boundaries : List Nat) (name : String) (value : Int) :
    Variables.assign_variable_and_initialize_if_necessary
        { scoped_variables := frames ++ [frame],
          function_scope_indices := frames.length :: boundaries } name value =
      .ok { scoped_variables := frames ++ [StdMap.assign frame name value],
            function_scope_indices := frames.length :: boundaries } := by
  obtain ⟨j, h1, h2, -, h4⟩ := Variables.assign_variable_eq
    { scoped_variables := frames ++ [frame],
      function_scope_indices := frames.length :: boundaries } name value frames.length
    boundaries rfl (by simp)
  simp only [List.length_append, List.length_singleton] at h2
  have hj : j = frames.length := by omega
  subst hj
  rw [h4]
  simp

theorem assign_argument_values_spec (frames : List VariableMap) (boundaries : List Nat) :
    ∀ (argument_values : StdMap Int) (frame : VariableMap),
      StdMap.Sorted argument_values →
      ∃ frame', assign_argument_values argument_values
          { scoped_variables := frames ++ [frame],
            function_scope_indices := frames.length :: boundaries } =
          .ok { scoped_variables := frames ++ [frame'],
                function_scope_indices := frames.length :: boundaries } ∧
        ∀ name, StdMap.find frame' name =
          match StdMap.find argument_values name with
          | some value => some value
          | none => StdMap.find frame name := by
  intro argument_values
  induction argument_values with
  | nil =>
    intro frame _
    exact ⟨frame, rfl, fun _ => rfl⟩
  | cons entry rest ih =>
    intro frame hsorted
    obtain ⟨key, value⟩ := entry
    obtain ⟨frame', h1, h2⟩ := ih (StdMap.assign frame key value)
      (List.pairwise_cons.mp hsorted).2
    have htail : StdMap.find rest key = none := StdMap.find_tail_of_sorted hsorted
    refine ⟨frame', ?_, ?_⟩
    · simp only [assign_argument_values]
      rw [Variables.assign_innermost_frame, Outcome.bind_ok]
      exact h1
    · intro name
      by_cases hk : key = name
      · rw [h2 name, ← hk, htail]
        simp only [StdMap.find, if_true]
        exact StdMap.find_assign_self _ _ _
      · rw [h2 name]
        simp only [StdMap.find, if_neg hk]
        cases StdMap.find rest name with
        | some v => rfl
        | none => exact StdMap.find_assign_of_ne _ _ _ _ (Ne.symm hk)

theorem zip_of_forall₂ {P : Token → SyntaxTreeNode → Prop} :
    ∀ (parameters argument_tokens : List Token) (argument_nodes : List SyntaxTreeNode),
      List.Forall₂ P argument_tokens argument_nodes →
      ∀ pair ∈ List.zip parameters argument_tokens,
        ∃ node, P pair.2 node ∧ (pair.1, node) ∈ List.zip parameters argument_nodes := by
  intro parameters
  induction parameters with
  | nil => intro _ _ _ pair hp; simp at hp
  | cons parameter rest ih =>
    intro argument_tokens argument_nodes hall pair hp
    cases hall with
    | nil => simp at hp
    | @cons token node tokens nodes hhead htail =>
      rw [List.zip_cons_cons] at hp
      rcases List.mem_cons.mp hp with h1 | h1
      · rw [h1]
        exact ⟨node, hhead, by rw [List.zip_cons_cons]; exact List.mem_cons_self _ _⟩
      · obtain ⟨n, hn1, hn2⟩ := ih tokens nodes htail pair h1
        exact ⟨n, hn1, by rw [List.zip_cons_cons]; exact List.mem_cons_of_mem _ hn2⟩

theorem Variables.get_variable_value_unbound (frames : List VariableMap) (frame : VariableMap)
    (boundaries : List Nat) (name : String) (h : StdMap.find frame name = none) :
    Variables.get_variable_value
        { scoped_variables := frames ++ [frame],
          function_scope_indices := frames.length :: boundaries } name = .ok (-1) := by
  unfold Variables.get_variable_value
  simp only [List.length_append, List.length_singleton]
  unfold Variables.get_variable_value_loop
  rw [if_pos (Nat.le_refl _)]
  have hget : (frames ++ [frame]).getD frames.length [] = frame := by simp
  rw [hget, h]
  simp only []
  cases hl : frames.length with
  | zero => simp [Variables.get_variable_value_loop]
  | succ n =>
    unfold Variables.get_variable_value_loop
    rw [if_neg (by omega)]

/-! ## Reading a variable -/

theorem Variables.get_variable_value_loop_eq_some (frames : List VariableMap) (name : String)
    (limit : Nat) (value : Int) :
    ∀ (n j : Nat), limit ≤ j → j < n → StdMap.find (frames.getD j []) name = some value →
      (∀ i, j < i → i < n → StdMap.find (frames.getD i []) name = none) →
      Variables.get_variable_value_loop frames name limit n = some value := by
  intro n
  induction n with
  | zero => intro j _ hj; omega
  | succ k ih =>
    intro j hlj hjk hfind habove
    unfold Variables.get_variable_value_loop
    have hlk : limit ≤ k := by omega
    rw [if_pos hlk]
    by_cases hjk' : j = k
    · subst hjk'
      rw [hfind]
    · rw [habove k (by omega) (by omega)]
      exact ih j hlj (by omega) hfind (fun i h1 h2 => habove i h1 (by omega))

theorem Variables.get_variable_value_loop_eq_none (frames : List VariableMap) (name : String)
    (limit : Nat) :
    ∀ (n : Nat), (∀ i, limit ≤ i → i < n → StdMap.find (frames.getD i []) name = none) →
      Variables.get_variable_value_loop frames name limit n = none := by
  intro n
  induction n with
  | zero => intro _; rfl
  | succ k ih =>
    intro hnone
    unfold Variables.get_variable_value_loop
    by_cases hlk : limit ≤ k
    · rw [if_pos hlk, hnone k hlk (by omega)]
      exact ih (fun i h1 h2 => hnone i h1 (by omega))
    · rw [if_neg hlk]

/-! ## 32-bit arithmetic -/

theorem int_arithmetic_result_of_in_range {x : Int} (h : in_int_range x) :
    int_arithmetic_result x = .ok x := by
  unfold int_arithmetic_result
  exact if_pos h

theorem bool_to_int_cases (b : Bool) :
    (bool_to_int b = 0 ∨ bool_to_int b = 1) ∧ (bool_to_int b = 1 ↔ b = true) := by
  cases b <;> simp [bool_to_int]

/-! ## Integer literals -/

theorem digit_ne {c : Char} (hc : c.isDigit = true) (d : Char) (hd : d.isDigit = false) :
    c ≠ d := by
  intro h
  rw [h, hd] at hc
  cases hc

theorem digit_not_space {c : Char} (hc : c.isDigit = true) : is_space c = false := by
  have h1 := digit_ne hc ' ' (by decide)
  have h2 := digit_ne hc '\t' (by decide)
  have h3 := digit_ne hc '\n' (by decide)
  have h4 := digit_ne hc '\r' (by decide)
  have h5 : c.toNat ≠ 11 := by
    intro h
    have : c = Char.ofNat 11 := by rw [← h, Char.ofNat_toNat]
    exact digit_ne hc _ (by decide) this
  have h6 : c.toNat ≠ 12 := by
    intro h
    have : c = Char.ofNat 12 := by rw [← h, Char.ofNat_toNat]
    exact digit_ne hc _ (by decide) this
  simp [is_space, h1, h2, h3, h4, h5, h6]

theorem is_integer_literal_data {token : Token} (h : is_integer_literal token = true) :
    token.data ≠ [] ∧ ∀ c ∈ token.data, c.isDigit = true := by
  simp only [is_integer_literal, Bool.and_eq_true, Bool.not_eq_true', List.isEmpty_eq_false,
    List.all_eq_true] at h
  exact ⟨by
    intro hnil
    rw [hnil] at h
    simp at h, h.2⟩

theorem integer_literal_ne {token : Token} (h : is_integer_literal token = true)
    (other : Token) (hother : is_integer_literal other = false) : token ≠ other := by
  intro heq
  rw [heq, hother] at h
  cases h

theorem Interpreter.token_is_variable_name_literal {token : Token}
    (h : is_integer_literal token = true) :
    Interpreter.token_is_variable_name token = false := by
  obtain ⟨hne, hall⟩ := is_integer_literal_data h
  obtain ⟨data⟩ := token
  cases data with
  | nil => exact absurd rfl hne
  | cons c cs =>
    have hc : c.isDigit = true := hall c (List.mem_cons_self _ _)
    have hget : (String.mk (c :: cs)).get 0 = c := by
      simp [String.get, String.utf8GetAux]
    simp only [Interpreter.token_is_variable_name, hget]
    simp only [Char.isDigit, Bool.and_eq_true, decide_eq_true_eq] at hc
    have h1 : '0' ≤ c := hc.1
    have h2 : c ≤ '9' := hc.2
    simp [h1, h2]

theorem takeWhile_digits {digits : List Char} (hall : ∀ c ∈ digits, c.isDigit = true) :
    digits.takeWhile Char.isDigit = digits := by
  induction digits with
  | nil => rfl
  | cons c cs ih =>
    have hc : c.isDigit = true := hall c (List.mem_cons_self _ _)
    simp only [List.takeWhile, hc]
    rw [ih (fun d hd => hall d (List.mem_cons_of_mem _ hd))]

theorem digits_value_nonneg (digits : List Char) : 0 ≤ (digits_value digits : Int) :=
  Int.ofNat_nonneg _

theorem stoi_literal {token : Token} (h : is_integer_literal token = true)
    (hrange : integer_literal_value token ≤ 2147483647) :
    stoi token = .ok (integer_literal_value token) := by
  obtain ⟨hne, hall⟩ := is_integer_literal_data h
  unfold integer_literal_value at hrange ⊢
  obtain ⟨data⟩ := token
  cases data with
  | nil => exact absurd rfl hne
  | cons c cs =>
    have hc : c.isDigit = true := hall c (List.mem_cons_self _ _)
    have hspace : is_space c = false := digit_not_space hc
    have hminus : c ≠ '-' := digit_ne hc '-' (by decide)
    have hplus : c ≠ '+' := digit_ne hc '+' (by decide)
    have htake : (c :: cs).takeWhile Char.isDigit = c :: cs := takeWhile_digits hall
    have hnonneg := digits_value_nonneg (c :: cs)
    unfold stoi
    simp only [List.dropWhile, hspace]
    split
    · rename_i heq
      exact absurd (List.cons.inj heq).1 hminus
    · rename_i heq
      exact absurd (List.cons.inj heq).1 hplus
    · simp only [htake]
      rw [if_neg (by simp)]
      simp only [Bool.false_eq_true, if_false]
      rw [if_pos ⟨by omega, hrange⟩]

theorem Interpreter.parse_operand_token_literal {token : Token}
    (h : is_integer_literal token = true)
    (hrange : integer_literal_value token ≤ 2147483647) :
    Interpreter.parse_operand_token token = .ok (literal (integer_literal_value token)) := by
  unfold Interpreter.parse_operand_token
  rw [Interpreter.token_is_variable_name_literal h]
  simp only [Bool.false_eq_true, if_false, Interpreter.get_literal_value_from_token]
  rw [stoi_literal h hrange, Outcome.bind_ok]
  rfl

/-! ## Digits pass through preprocessing and tokenizing unchanged -/

theorem preprocess_braces_digits {digits : List Char}
    (hall : ∀ c ∈ digits, c.isDigit = true) (rest : List Char) :
    preprocess_braces (digits ++ rest) = digits ++ preprocess_braces rest := by
  induction digits with
  | nil => rfl
  | cons c cs ih =>
    have hc : c.isDigit = true := hall c (List.mem_cons_self _ _)
    have h1 := digit_ne hc '\x7b' (by decide)
    have h2 := digit_ne hc '\x7d' (by decide)
    rw [List.cons_append]
    simp only [preprocess_braces, h1, h2, or_self, if_false]
    rw [ih (fun d hd => hall d (List.mem_cons_of_mem _ hd))]
    rfl

theorem preprocess_parentheses_digits {digits : List Char}
    (hall : ∀ c ∈ digits, c.isDigit = true) (rest : List Char) :
    preprocess_parentheses (digits ++ rest) = digits ++ preprocess_parentheses rest := by
  induction digits with
  | nil => rfl
  | cons c cs ih =>
    have hc : c.isDigit = true := hall c (List.mem_cons_self _ _)
    have h1 := digit_ne hc '(' (by decide)
    have h2 := digit_ne hc ')' (by decide)
    have h3 := digit_ne hc ',' (by decide)
    rw [List.cons_append]
    simp only [preprocess_parentheses, h1, h2, h3, or_self, if_false]
    rw [ih (fun d hd => hall d (List.mem_cons_of_mem _ hd))]
    rfl

theorem preprocess_leading_whitespace_digits_seen {digits : List Char}
    (hall : ∀ c ∈ digits, c.isDigit = true) (rest : List Char) :
    preprocess_leading_whitespace true (digits ++ rest) =
      digits ++ preprocess_leading_whitespace true rest := by
  induction digits with
  | nil => rfl
  | cons c cs ih =>
    have hc : c.isDigit = true := hall c (List.mem_cons_self _ _)
    have h1 := digit_ne hc '\n' (by decide)
    have h2 := digit_ne hc ' ' (by decide)
    have h3 := digit_ne hc '\t' (by decide)
    rw [List.cons_append]
    simp only [preprocess_leading_whitespace, h1, h2, h3, or_self, if_false]
    rw [ih (fun d hd => hall d (List.mem_cons_of_mem _ hd))]
    rfl

theorem preprocess_leading_whitespace_digits {digits : List Char} (hne : digits ≠ [])
    (hall : ∀ c ∈ digits, c.isDigit = true) (seen_char : Bool) (rest : List Char) :
    preprocess_leading_whitespace seen_char (digits ++ rest) =
      digits ++ preprocess_leading_whitespace true rest := by
  cases digits with
  | nil => exact absurd rfl hne
  | cons c cs =>
    have hc : c.isDigit = true := hall c (List.mem_cons_self _ _)
    have h1 := digit_ne hc '\n' (by decide)
    have h2 := digit_ne hc ' ' (by decide)
    have h3 := digit_ne hc '\t' (by decide)
    rw [List.cons_append]
    simp only [preprocess_leading_whitespace, h1, h2, h3, or_self, if_false]
    rw [preprocess_leading_whitespace_digits_seen
      (fun d hd => hall d (List.mem_cons_of_mem _ hd))]
    rfl

theorem preprocess_blank_lines_digits {digits : List Char} (hne : digits ≠ [])
    (hall : ∀ c ∈ digits, c.isDigit = true) (after_newline : Bool) (rest : List Char) :
    preprocess_blank_lines after_newline (digits ++ rest) =
      digits ++ preprocess_blank_lines false rest := by
  induction digits generalizing after_newline with
  | nil => exact absurd rfl hne
  | cons c cs ih =>
    have hc : c.isDigit = true := hall c (List.mem_cons_self _ _)
    have h1 := digit_ne hc '\n' (by decide)
    rw [List.cons_append]
    simp only [preprocess_blank_lines, h1, false_and, if_false,
      decide_False]
    cases cs with
    | nil => rfl
    | cons d ds =>
      rw [ih (by simp) (fun x hx => hall x (List.mem_cons_of_mem _ hx))]
      rfl

theorem getline_loop_digits {digits : List Char} (hall : ∀ c ∈ digits, c.isDigit = true)
    (line_string rest : List Char) :
    getline_loop line_string (digits ++ rest) = getline_loop (line_string ++ digits) rest := by
  induction digits generalizing line_string with
  | nil => simp
  | cons c cs ih =>
    have hc : c.isDigit = true := hall c (List.mem_cons_self _ _)
    have h1 := digit_ne hc '\n' (by decide)
    rw [List.cons_append]
    simp only [getline_loop, h1, if_false]
    rw [ih (fun d hd => hall d (List.mem_cons_of_mem _ hd))]
    simp

theorem extract_tokens_digits {digits : List Char} (hall : ∀ c ∈ digits, c.isDigit = true)
    (token rest : List Char) :
    extract_tokens token (digits ++ rest) = extract_tokens (token ++ digits) rest := by
  induction digits generalizing token with
  | nil => simp
  | cons c cs ih =>
    have hc : c.isDigit = true := hall c (List.mem_cons_self _ _)
    have h1 := digit_not_space hc
    rw [List.cons_append]
    simp only [extract_tokens, h1, Bool.false_eq_true, if_false]
    rw [ih (fun d hd => hall d (List.mem_cons_of_mem _ hd))]
    simp

theorem extract_tokens_digits_end {digits : List Char} (hne : digits ≠ [])
    (hall : ∀ c ∈ digits, c.isDigit = true) (token : List Char) :
    extract_tokens token digits = [String.mk (token ++ digits)] := by
  have h := extract_tokens_digits hall token []
  rw [List.append_nil] at h
  rw [h]
  simp [extract_tokens, hne]

/-! ## One step of the parser -/

theorem Interpreter.parse_block_zero (interpreter : Interpreter) (start_line : Nat)
    (end_line : Int) :
    Interpreter.parse_block 0 interpreter start_line end_line = .out_of_fuel := rfl

theorem Interpreter.parse_block_succ (fuel : Nat) (interpreter : Interpreter)
    (start_line : Nat) (end_line : Int) :
    Interpreter.parse_block (fuel + 1) interpreter start_line end_line =
      (Interpreter.parse_block_loop
          (Interpreter.parse_single_statement_node (Interpreter.parse_block fuel))
          (fuel + 1) interpreter start_line end_line []).bind fun parsed =>
        .ok (match parsed.1 with
             | [node] => node
             | nodes => .StatementSequenceNode nodes,
             parsed.2.1, parsed.2.2) := rfl

theorem Interpreter.parse_block_loop_succ (statement : ParseStatement) (n : Nat)
    (interpreter : Interpreter) (start_line : Nat) (end_line : Int)
    (nodes : List SyntaxTreeNode) :
    Interpreter.parse_block_loop statement (n + 1) interpreter start_line end_line nodes =
      if (start_line : Int) ≤ end_line then
        (statement interpreter start_line).bind fun parsed =>
          Interpreter.parse_block_loop statement n parsed.2.1 parsed.2.2 end_line
            (nodes ++ [parsed.1])
      else .ok (nodes, interpreter, start_line) := rfl

theorem Interpreter.run_eq (parse_fuel evaluate_fuel : Nat) (input_string : List Char)
    (lines : List Line) (node : SyntaxTreeNode) (interpreter : Interpreter) (start_line : Nat)
    (result : EvaluationResult) (state : ProgramState)
    (hlines : Interpreter.read_input_file_and_parse_into_tokens input_string = lines)
    (hparse : Interpreter.parse_block parse_fuel { lines := lines, function_map := [] } 0
      ((lines.length : Int) - 1) = .ok (node, interpreter, start_line))
    (hevaluate : SyntaxTreeNode.evaluate evaluate_fuel node ProgramState.initial =
      .ok (result, state)) :
    Interpreter.run parse_fuel evaluate_fuel input_string = .ok state.cout := by
  unfold Interpreter.run
  simp only [hlines]
  rw [hparse, Outcome.bind_ok]
  simp only []
  rw [hevaluate, Outcome.bind_ok]
theorem scenario_a_lines (a b : Token) (ha : is_integer_literal a = true)
    (hb : is_integer_literal b = true) :
    Interpreter.read_input_file_and_parse_into_tokens (scenario_a_source a b) =
      [["x", "=", a], ["y", "=", b], ["z", "=", "x", "+", "y"], ["print", "(", "z", ")"]] := by
  obtain ⟨hane, haall⟩ := is_integer_literal_data ha
  obtain ⟨hbne, hball⟩ := is_integer_literal_data hb
  have hsrc : scenario_a_source a b =
      'x' :: ' ' :: '=' :: ' ' :: (a.data ++ ('\n' :: 'y' :: ' ' :: '=' :: ' ' :: (b.data ++
        "\nz = x + y\nprint ( z )".data))) := by
    simp [scenario_a_source]
  rw [hsrc]
  simp only [Interpreter.read_input_file_and_parse_into_tokens,
    Interpreter.preprocess_input_string]
  simp [preprocess_braces, preprocess_braces_digits haall, preprocess_braces_digits hball]
  simp [preprocess_parentheses, preprocess_parentheses_digits haall,
    preprocess_parentheses_digits hball]
  simp [preprocess_leading_whitespace, preprocess_leading_whitespace_digits hane haall,
    preprocess_leading_whitespace_digits hbne hball]
  simp [preprocess_blank_lines, preprocess_blank_lines_digits hane haall,
    preprocess_blank_lines_digits hbne hball]
  simp [getline_loop, getline_loop_digits haall, getline_loop_digits hball]
  simp [extract_tokens, is_space, extract_tokens_digits_end hane haall,
    extract_tokens_digits_end hbne hball]

theorem scenario_a_parse (a b : Token) (ha : is_integer_literal a = true)
    (hb : is_integer_literal b = true) (har : integer_literal_value a ≤ 2147483647)
    (hbr : integer_literal_value b ≤ 2147483647) :
    Interpreter.parse_block 5
        { lines := [["x", "=", a], ["y", "=", b], ["z", "=", "x", "+", "y"],
            ["print", "(", "z", ")"]], function_map := [] } 0 3 =
      .ok (.StatementSequenceNode
        [.AssignmentNode "x" (literal (integer_literal_value a)),
         .AssignmentNode "y" (literal (integer_literal_value b)),
         .AssignmentNode "z" (.BinaryOperationNode .ADD (identifier "x") (identifier "y")),
         .PrintNode (identifier "z")],
        { lines := [["x", "=", a], ["y", "=", b], ["z", "=", "x", "+", "y"],
            ["print", "(", "z", ")"]], function_map := [] }, 4) := by
  have s0 : ∀ block : ParseBlock, Interpreter.parse_single_statement_node block
      { lines := [["x", "=", a], ["y", "=", b], ["z", "=", "x", "+", "y"],
          ["print", "(", "z", ")"]], function_map := [] } 0 =
      .ok (.AssignmentNode "x" (literal (integer_literal_value a)),
        { lines := [["x", "=", a], ["y", "=", b], ["z", "=", "x", "+", "y"],
          ["print", "(", "z", ")"]], function_map := [] }, 1) := by
    intro block
    simp [Interpreter.parse_single_statement_node, Interpreter.get_next_statement_node_type,
      Interpreter.parse_assignment_node, Interpreter.parse_assignment_value_node,
      Interpreter.get_assignment_value_type,
      Interpreter.parse_operand_token_literal ha har, Outcome.bind]
  have s1 : ∀ block : ParseBlock, Interpreter.parse_single_statement_node block
      { lines := [["x", "=", a], ["y", "=", b], ["z", "=", "x", "+", "y"],
          ["print", "(", "z", ")"]], function_map := [] } 1 =
      .ok (.AssignmentNode "y" (literal (integer_literal_value b)),
        { lines := [["x", "=", a], ["y", "=", b], ["z", "=", "x", "+", "y"],
          ["print", "(", "z", ")"]], function_map := [] }, 2) := by
    intro block
    simp [Interpreter.parse_single_statement_node, Interpreter.get_next_statement_node_type,
      Interpreter.parse_assignment_node, Interpreter.parse_assignment_value_node,
      Interpreter.get_assignment_value_type,
      Interpreter.parse_operand_token_literal hb hbr, Outcome.bind]
  have s2 : ∀ block : ParseBlock, Interpreter.parse_single_statement_node block
      { lines := [["x", "=", a], ["y", "=", b], ["z", "=", "x", "+", "y"],
          ["print", "(", "z", ")"]], function_map := [] } 2 =
      .ok (.AssignmentNode "z" (.BinaryOperationNode .ADD (identifier "x") (identifier "y")),
        { lines := [["x", "=", a], ["y", "=", b], ["z", "=", "x", "+", "y"],
          ["print", "(", "z", ")"]], function_map := [] }, 3) := by
    intro block
    have hx : Interpreter.parse_operand_token "x" = .ok (identifier "x") := by rfl
    have hy : Interpreter.parse_operand_token "y" = .ok (identifier "y") := by rfl
    simp [Interpreter.parse_single_statement_node, Interpreter.get_next_statement_node_type,
      Interpreter.parse_assignment_node, Interpreter.parse_assignment_value_node,
      Interpreter.get_assignment_value_type, Interpreter.parse_binary_operation_node,
      Interpreter.binary_operation_token_to_enum, StdMap.find, hx, hy, Outcome.bind]
  have s3 : ∀ block : ParseBlock, Interpreter.parse_single_statement_node block
      { lines := [["x", "=", a], ["y", "=", b], ["z", "=", "x", "+", "y"],
          ["print", "(", "z", ")"]], function_map := [] } 3 =
      .ok (.PrintNode (identifier "z"),
        { lines := [["x", "=", a], ["y", "=", b], ["z", "=", "x", "+", "y"],
          ["print", "(", "z", ")"]], function_map := [] }, 4) := by
    intro block
    have hz : Interpreter.parse_operand_token "z" = .ok (identifier "z") := by rfl
    simp [Interpreter.parse_single_statement_node, Interpreter.get_next_statement_node_type,
      Interpreter.parse_print_node, Interpreter.parse_assignment_value_node,
      Interpreter.get_assignment_value_type, Interpreter.get_closing_parenthesis_index,
      Interpreter.closing_parenthesis_loop, hz, Outcome.bind]
  rw [Interpreter.parse_block_succ]
  simp [Interpreter.parse_block_loop, s0, s1, s2, s3, Outcome.bind]

theorem scenario_a_evaluate (va vb : Int) (hva : 0 ≤ va) (hvb : 0 ≤ vb)
    (hsum : va + vb ≤ 2147483647) :
    SyntaxTreeNode.evaluate 4 (.StatementSequenceNode
        [.AssignmentNode "x" (literal va),
         .AssignmentNode "y" (literal vb),
         .AssignmentNode "z" (.BinaryOperationNode .ADD (identifier "x") (identifier "y")),
         .PrintNode (identifier "z")]) ProgramState.initial =
      .ok ({},
        { vars := { scoped_variables := [[("x", va), ("y", vb), ("z", va + vb)]],
                    function_scope_indices := [0] },
          cout := [va + vb] }) := by
  have hw : int_arithmetic_result (va + vb) = .ok (va + vb) :=
    int_arithmetic_result_of_in_range ⟨by omega, hsum⟩
  have k1 : key_less "y" "x" = false := by decide
  have k2 : key_less "z" "x" = false := by decide
  have k3 : key_less "z" "y" = false := by decide
  simp [SyntaxTreeNode.evaluate, evaluate_statements, Outcome.bind, literal, identifier,
    SyntaxTreeNode.node_type, ProgramState.initial, Variables.initial,
    Variables.assign_variable_and_initialize_if_necessary, Variables.assign_loop,
    Variables.get_variable_value, Variables.get_variable_value_loop, StdMap.find,
    StdMap.assign, apply_binary_operation, hw, k1, k2, k3]

/-! ## Scenario B -/

theorem scenario_b_tokens (m n : Token) (hm : is_integer_literal m = true)
    (hn : is_integer_literal n = true) :
    Interpreter.read_input_file_and_parse_into_tokens (scenario_b_source m n) =
      scenario_b_lines m n := by
  obtain ⟨hmne, hmall⟩ := is_integer_literal_data hm
  obtain ⟨hnne, hnall⟩ := is_integer_literal_data hn
  have hsrc : scenario_b_source m n =
      "function add ( a , b ) \x7b return a + b \x7d\nprint ( add ( ".data ++ (m.data ++
        (' ' :: ',' :: ' ' :: (n.data ++ [' ', ')', ' ', ')']))) := by
    simp [scenario_b_source]
  rw [hsrc]
  simp only [Interpreter.read_input_file_and_parse_into_tokens,
    Interpreter.preprocess_input_string, scenario_b_lines]
  simp [preprocess_braces, preprocess_braces_digits hmall, preprocess_braces_digits hnall]
  simp [preprocess_parentheses, preprocess_parentheses_digits hmall,
    preprocess_parentheses_digits hnall]
  simp [preprocess_leading_whitespace, preprocess_leading_whitespace_digits hmne hmall,
    preprocess_leading_whitespace_digits hnne hnall]
  simp [preprocess_blank_lines, preprocess_blank_lines_digits hmne hmall,
    preprocess_blank_lines_digits hnne hnall]
  simp [getline_loop, getline_loop_digits hmall, getline_loop_digits hnall]
  simp [extract_tokens, is_space, extract_tokens_digits hmall, extract_tokens_digits hnall,
    hmne, hnne]

theorem scenario_b_parse (m n : Token) (hm : is_integer_literal m = true)
    (hn : is_integer_literal n = true) (hmr : integer_literal_value m ≤ 2147483647)
    (hnr : integer_literal_value n ≤ 2147483647) :
    Interpreter.parse_block 5 { lines := scenario_b_lines m n, function_map := [] } 0 4 =
      .ok (.StatementSequenceNode
        [.EmptyNode,
         .PrintNode (.FunctionNode add_body
           [("a", literal (integer_literal_value m)),
            ("b", literal (integer_literal_value n))])],
        { lines := scenario_b_lines m n, function_map := add_function_map }, 5) := by
  have ha : Interpreter.parse_operand_token "a" = .ok (identifier "a") := by rfl
  have hb : Interpreter.parse_operand_token "b" = .ok (identifier "b") := by rfl
  have m1 := integer_literal_ne hm ")" (by decide)
  have m2 := integer_literal_ne hm "," (by decide)
  have n1 := integer_literal_ne hn ")" (by decide)
  have n2 := integer_literal_ne hn "," (by decide)
  have k1 : key_less "b" "a" = false := by decide
  have inner : Interpreter.parse_block 4
      { lines := scenario_b_lines m n, function_map := [] } 2 2 =
        .ok (add_body, { lines := scenario_b_lines m n, function_map := [] }, 3) := by
    rw [Interpreter.parse_block_succ]
    simp [Interpreter.parse_block_loop, scenario_b_lines,
      Interpreter.parse_single_statement_node, Interpreter.get_next_statement_node_type,
      Interpreter.parse_return_node, Interpreter.parse_assignment_value_node,
      Interpreter.get_assignment_value_type, Interpreter.parse_binary_operation_node,
      Interpreter.binary_operation_token_to_enum, StdMap.find,
      ha, hb, Outcome.bind, add_body]
  have s0 : Interpreter.parse_single_statement_node (Interpreter.parse_block 4)
      { lines := scenario_b_lines m n, function_map := [] } 0 =
      .ok (.EmptyNode, { lines := scenario_b_lines m n, function_map := add_function_map },
        4) := by
    have hclose : Interpreter.get_closing_brace_line
        { lines := scenario_b_lines m n, function_map := [] } 1 = .ok 3 := by
      simp [Interpreter.get_closing_brace_line, Interpreter.closing_brace_loop,
        scenario_b_lines]
    have hsig : Interpreter.get_function_signature_details
        { lines := scenario_b_lines m n, function_map := [] }
        ["function", "add", "(", "a", ",", "b", ")"] true =
          .ok { inputs := ["a", "b"], name := "add" } := by
      simp [Interpreter.get_function_signature_details, Interpreter.collect_input_tokens,
        Outcome.bind]
    have hkind : Interpreter.get_next_statement_node_type
        { lines := scenario_b_lines m n, function_map := [] } 0 =
          .ok .FUNCTION_DEFINITION := by
      simp [Interpreter.get_next_statement_node_type, scenario_b_lines]
    have hline : (scenario_b_lines m n)[0]? =
        some ["function", "add", "(", "a", ",", "b", ")"] := by
      simp [scenario_b_lines]
    have h31 : ((3 : Int) - 1) = 2 := by norm_num
    simp only [Interpreter.parse_single_statement_node, hkind, Outcome.bind_ok,
      Interpreter.parse_function_definition, hline, hsig, Interpreter.parse_braces_block,
      hclose, h31, inner, StdMap.assign, add_function_map]
  have s4 : Interpreter.parse_single_statement_node (Interpreter.parse_block 4)
      { lines := scenario_b_lines m n, function_map := add_function_map } 4 =
      .ok (.PrintNode (.FunctionNode add_body
          [("a", literal (integer_literal_value m)),
           ("b", literal (integer_literal_value n))]),
        { lines := scenario_b_lines m n, function_map := add_function_map }, 5) := by
    simp [Interpreter.parse_single_statement_node, Interpreter.get_next_statement_node_type,
      scenario_b_lines, Interpreter.parse_print_node, Interpreter.get_closing_parenthesis_index,
      Interpreter.closing_parenthesis_loop, Interpreter.parse_assignment_value_node,
      Interpreter.get_assignment_value_type, Interpreter.parse_function_call_node,
      Interpreter.get_function_signature_details, Interpreter.scan_function_name,
      Interpreter.token_is_function_name, Interpreter.collect_input_tokens,
      Interpreter.parse_argument_tokens, Interpreter.build_argument_map,
      Interpreter.parse_operand_token_literal hm hmr,
      Interpreter.parse_operand_token_literal hn hnr,
      StdMap.find, StdMap.assign, add_function_map, m1, m2, n1, n2, k1, Outcome.bind]
  rw [Interpreter.parse_block_succ]
  simp [Interpreter.parse_block_loop, s0, s4, Outcome.bind]

/-- Evaluation of the tree of scenario B from the initial environment. -/
theorem scenario_b_evaluate (vm vn : Int) (hvm : 0 ≤ vm) (hvn : 0 ≤ vn)
    (hsum : vm + vn ≤ 2147483647) :
    SyntaxTreeNode.evaluate 6 (.StatementSequenceNode
        [.EmptyNode,
         .PrintNode (.FunctionNode add_body [("a", literal vm), ("b", literal vn)])])
        ProgramState.initial =
      .ok ({}, { vars := Variables.initial, cout := [vm + vn] }) := by
  have hw : int_arithmetic_result (vm + vn) = .ok (vm + vn) :=
    int_arithmetic_result_of_in_range ⟨by omega, hsum⟩
  have k1 : key_less "b" "a" = false := by decide
  simp [SyntaxTreeNode.evaluate, evaluate_statements, evaluate_arguments,
    assign_argument_values, function_call_entry, Outcome.bind, literal, identifier,
    add_body, SyntaxTreeNode.node_type, ProgramState.initial, Variables.initial,
    Variables.enter_function_scope, Variables.exit_function_scope,
    Variables.assign_variable_and_initialize_if_necessary, Variables.assign_loop,
    Variables.get_variable_value, Variables.get_variable_value_loop, StdMap.find,
    StdMap.assign, apply_binary_operation, hw, k1]

/-! ## Scenario D -/

theorem scenario_d_tokens (a b : Token) (ha : is_integer_literal a = true)
    (hb : is_integer_literal b = true) :
    Interpreter.read_input_file_and_parse_into_tokens (scenario_d_source a b) =
      scenario_d_lines a b := by
  obtain ⟨hane, haall⟩ := is_integer_literal_data ha
  obtain ⟨hbne, hball⟩ := is_integer_literal_data hb
  have hsrc : scenario_d_source a b =
      "if ( ".data ++ (a.data ++ (' ' :: '=' :: '=' :: ' ' :: (b.data ++
        " ) \x7b print ( 1 ) \x7d else \x7b print ( 0 ) \x7d".data))) := by
    simp [scenario_d_source]
  rw [hsrc]
  simp only [Interpreter.read_input_file_and_parse_into_tokens,
    Interpreter.preprocess_input_string, scenario_d_lines]
  simp [preprocess_braces, preprocess_braces_digits haall, preprocess_braces_digits hball]
  simp [preprocess_parentheses, preprocess_parentheses_digits haall,
    preprocess_parentheses_digits hball]
  simp [preprocess_leading_whitespace, preprocess_leading_whitespace_digits hane haall,
    preprocess_leading_whitespace_digits hbne hball]
  simp [preprocess_blank_lines, preprocess_blank_lines_digits hane haall,
    preprocess_blank_lines_digits hbne hball]
  simp [getline_loop, getline_loop_digits haall, getline_loop_digits hball]
  simp [extract_tokens, is_space, extract_tokens_digits haall, extract_tokens_digits hball,
    hane, hbne]

theorem scenario_d_parse (a b : Token) (ha : is_integer_literal a = true)
    (hb : is_integer_literal b = true) (har : integer_literal_value a ≤ 2147483647)
    (hbr : integer_literal_value b ≤ 2147483647) :
    Interpreter.parse_block 5 { lines := scenario_d_lines a b, function_map := [] } 0 7 =
      .ok (scenario_d_tree (integer_literal_value a) (integer_literal_value b),
        { lines := scenario_d_lines a b, function_map := [] }, 8) := by
  have h1 : Interpreter.parse_operand_token "1" = .ok (literal 1) := by rfl
  have h0 : Interpreter.parse_operand_token "0" = .ok (literal 0) := by rfl
  have inner1 : Interpreter.parse_block 4
      { lines := scenario_d_lines a b, function_map := [] } 2 2 =
        .ok (.PrintNode (literal 1),
          { lines := scenario_d_lines a b, function_map := [] }, 3) := by
    rw [Interpreter.parse_block_succ]
    simp [Interpreter.parse_block_loop, scenario_d_lines,
      Interpreter.parse_single_statement_node, Interpreter.get_next_statement_node_type,
      Interpreter.parse_print_node, Interpreter.get_closing_parenthesis_index,
      Interpreter.closing_parenthesis_loop, Interpreter.parse_assignment_value_node,
      Interpreter.get_assignment_value_type, h1, Outcome.bind]
  have inner0 : Interpreter.parse_block 4
      { lines := scenario_d_lines a b, function_map := [] } 6 6 =
        .ok (.PrintNode (literal 0),
          { lines := scenario_d_lines a b, function_map := [] }, 7) := by
    rw [Interpreter.parse_block_succ]
    simp [Interpreter.parse_block_loop, scenario_d_lines,
      Interpreter.parse_single_statement_node, Interpreter.get_next_statement_node_type,
      Interpreter.parse_print_node, Interpreter.get_closing_parenthesis_index,
      Interpreter.closing_parenthesis_loop, Interpreter.parse_assignment_value_node,
      Interpreter.get_assignment_value_type, h0, Outcome.bind]
  have hclose1 : Interpreter.get_closing_brace_line
      { lines := scenario_d_lines a b, function_map := [] } 1 = .ok 3 := by
    simp [Interpreter.get_closing_brace_line, Interpreter.closing_brace_loop,
      scenario_d_lines]
  have hclose5 : Interpreter.get_closing_brace_line
      { lines := scenario_d_lines a b, function_map := [] } 5 = .ok 7 := by
    simp [Interpreter.get_closing_brace_line, Interpreter.closing_brace_loop,
      scenario_d_lines]
  have hkind : Interpreter.get_next_statement_node_type
      { lines := scenario_d_lines a b, function_map := [] } 0 = .ok .IF_ELSE := by
    simp [Interpreter.get_next_statement_node_type, scenario_d_lines]
  have hline0 : (scenario_d_lines a b)[0]? = some ["if", "(", a, "==", b, ")"] := by
    simp [scenario_d_lines]
  have hline4 : (scenario_d_lines a b)[4]? = some ["else"] := by
    simp [scenario_d_lines]
  have hcond : Interpreter.parse_binary_operation_node a "==" b =
      .ok (.BinaryOperationNode .EQUAL (literal (integer_literal_value a))
        (literal (integer_literal_value b))) := by
    simp [Interpreter.parse_binary_operation_node,
      Interpreter.binary_operation_token_to_enum,
      Interpreter.parse_operand_token_literal ha har,
      Interpreter.parse_operand_token_literal hb hbr, Outcome.bind]
  have h31 : ((3 : Int) - 1) = 2 := by norm_num
  have h71 : ((7 : Int) - 1) = 6 := by norm_num
  have s0 : Interpreter.parse_single_statement_node (Interpreter.parse_block 4)
      { lines := scenario_d_lines a b, function_map := [] } 0 =
      .ok (scenario_d_tree (integer_literal_value a) (integer_literal_value b),
        { lines := scenario_d_lines a b, function_map := [] }, 8) := by
    simp [Interpreter.parse_single_statement_node, hkind, Outcome.bind_ok,
      Interpreter.parse_if_else_node, hline0, hcond, Interpreter.parse_braces_block,
      hclose1, hclose5, h31, h71, inner1, inner0, hline4, scenario_d_tree]
  rw [Interpreter.parse_block_succ]
  simp [Interpreter.parse_block_loop, s0, Outcome.bind]

/-- Evaluation of the tree of scenario D from the initial environment. -/
theorem scenario_d_evaluate (va vb : Int) :
    SyntaxTreeNode.evaluate 3 (scenario_d_tree va vb) ProgramState.initial =
      .ok ({}, { vars := Variables.initial, cout := [if va = vb then 1 else 0] }) := by
  by_cases h : va = vb
  · simp [SyntaxTreeNode.evaluate, Outcome.bind, literal, scenario_d_tree,
      SyntaxTreeNode.node_type, ProgramState.initial, apply_binary_operation, bool_to_int, h]
  · simp [SyntaxTreeNode.evaluate, Outcome.bind, literal, scenario_d_tree,
      SyntaxTreeNode.node_type, ProgramState.initial, apply_binary_operation, bool_to_int, h]

/-! ## Scenario C -/

theorem scenario_c_tokens (n : Token) (hn : is_integer_literal n = true) :
    Interpreter.read_input_file_and_parse_into_tokens (scenario_c_source n) =
      scenario_c_lines n := by
  obtain ⟨hnne, hnall⟩ := is_integer_literal_data hn
  have hsrc : scenario_c_source n =
      "i = 0\nwhile ( i < ".data ++ (n.data ++
        " ) \x7b print ( i )\ni = i + 1 \x7d".data) := by
    simp [scenario_c_source]
  rw [hsrc]
  simp only [Interpreter.read_input_file_and_parse_into_tokens,
    Interpreter.preprocess_input_string, scenario_c_lines]
  simp [preprocess_braces, preprocess_braces_digits hnall]
  simp [preprocess_parentheses, preprocess_parentheses_digits hnall]
  simp [preprocess_leading_whitespace, preprocess_leading_whitespace_digits hnne hnall]
  simp [preprocess_blank_lines, preprocess_blank_lines_digits hnne hnall]
  simp [getline_loop, getline_loop_digits hnall]
  simp [extract_tokens, is_space, extract_tokens_digits hnall, hnne]

theorem scenario_c_parse (n : Token) (hn : is_integer_literal n = true)
    (hnr : integer_literal_value n ≤ 2147483647) :
    Interpreter.parse_block 5 { lines := scenario_c_lines n, function_map := [] } 0 5 =
      .ok (scenario_c_tree (integer_literal_value n),
        { lines := scenario_c_lines n, function_map := [] }, 6) := by
  have hi : Interpreter.parse_operand_token "i" = .ok (identifier "i") := by rfl
  have h1 : Interpreter.parse_operand_token "1" = .ok (literal 1) := by rfl
  have h0 : Interpreter.parse_operand_token "0" = .ok (literal 0) := by rfl
  have inner : Interpreter.parse_block 4
      { lines := scenario_c_lines n, function_map := [] } 3 4 =
        .ok (scenario_c_body, { lines := scenario_c_lines n, function_map := [] }, 5) := by
    rw [Interpreter.parse_block_succ]
    simp [Interpreter.parse_block_loop, scenario_c_lines,
      Interpreter.parse_single_statement_node, Interpreter.get_next_statement_node_type,
      Interpreter.parse_print_node, Interpreter.get_closing_parenthesis_index,
      Interpreter.closing_parenthesis_loop, Interpreter.parse_assignment_node,
      Interpreter.parse_assignment_value_node, Interpreter.get_assignment_value_type,
      Interpreter.parse_binary_operation_node, Interpreter.binary_operation_token_to_enum,
      StdMap.find, hi, h1, Outcome.bind, scenario_c_body]
  have s0 : ∀ block : ParseBlock, Interpreter.parse_single_statement_node block
      { lines := scenario_c_lines n, function_map := [] } 0 =
      .ok (.AssignmentNode "i" (literal 0),
        { lines := scenario_c_lines n, function_map := [] }, 1) := by
    intro block
    simp [scenario_c_lines, Interpreter.parse_single_statement_node,
      Interpreter.get_next_statement_node_type, Interpreter.parse_assignment_node,
      Interpreter.parse_assignment_value_node, Interpreter.get_assignment_value_type,
      h0, Outcome.bind]
  have hclose : Interpreter.get_closing_brace_line
      { lines := scenario_c_lines n, function_map := [] } 2 = .ok 5 := by
    simp [Interpreter.get_closing_brace_line, Interpreter.closing_brace_loop,
      scenario_c_lines]
  have hkind : Interpreter.get_next_statement_node_type
      { lines := scenario_c_lines n, function_map := [] } 1 = .ok .WHILE := by
    simp [Interpreter.get_next_statement_node_type, scenario_c_lines]
  have hline1 : (scenario_c_lines n)[1]? = some ["while", "(", "i", "<", n, ")"] := by
    simp [scenario_c_lines]
  have hcond : Interpreter.parse_binary_operation_node "i" "<" n =
      .ok (scenario_c_condition (integer_literal_value n)) := by
    simp [Interpreter.parse_binary_operation_node,
      Interpreter.binary_operation_token_to_enum, hi,
      Interpreter.parse_operand_token_literal hn hnr, Outcome.bind, scenario_c_condition]
  have h51 : ((5 : Int) - 1) = 4 := by norm_num
  have s1 : Interpreter.parse_single_statement_node (Interpreter.parse_block 4)
      { lines := scenario_c_lines n, function_map := [] } 1 =
      .ok (.WhileNode (scenario_c_condition (integer_literal_value n)) scenario_c_body,
        { lines := scenario_c_lines n, function_map := [] }, 6) := by
    simp [Interpreter.parse_single_statement_node, hkind, Outcome.bind_ok,
      Interpreter.parse_while_node, hline1, hcond, Interpreter.parse_braces_block,
      hclose, h51, inner]
  rw [Interpreter.parse_block_succ]
  simp [Interpreter.parse_block_loop, s0, s1, Outcome.bind, scenario_c_tree]

theorem scenario_c_condition_evaluate (vn : Int) (k : Nat) (out : List Int) :
    SyntaxTreeNode.evaluate 2 (scenario_c_condition vn) (counting_state k out) =
      .ok ({ expression_value := bool_to_int (decide ((k : Int) < vn)) },
        counting_state k out) := by
  simp [SyntaxTreeNode.evaluate, Outcome.bind, literal, identifier, scenario_c_condition,
    counting_state, Variables.get_variable_value, Variables.get_variable_value_loop,
    StdMap.find, apply_binary_operation]

theorem scenario_c_body_evaluate_value (v : Int) (out : List Int) (h0 : 0 ≤ v)
    (hv : v < 2147483647) :
    SyntaxTreeNode.evaluate 4 scenario_c_body
        { vars := { scoped_variables := [[("i", v)], []], function_scope_indices := [0] },
          cout := out } =
      .ok ({},
        { vars := { scoped_variables := [[("i", v + 1)], []], function_scope_indices := [0] },
          cout := out ++ [v] }) := by
  have hw : int_arithmetic_result (v + 1) = .ok (v + 1) :=
    int_arithmetic_result_of_in_range ⟨by omega, by omega⟩
  simp [SyntaxTreeNode.evaluate, evaluate_statements, Outcome.bind, literal, identifier,
    scenario_c_body, SyntaxTreeNode.node_type,
    Variables.assign_variable_and_initialize_if_necessary, Variables.assign_loop,
    Variables.get_variable_value, Variables.get_variable_value_loop, StdMap.find,
    StdMap.assign, apply_binary_operation, hw]

theorem scenario_c_body_evaluate (k : Nat) (out : List Int) (hk : (k : Int) < 2147483647) :
    SyntaxTreeNode.evaluate 4 scenario_c_body (counting_body_state k out) =
      .ok ({}, counting_body_state (k + 1) (out ++ [(k : Int)])) := by
  have h := scenario_c_body_evaluate_value (k : Int) out (by omega) hk
  simpa [counting_body_state] using h

/-- The loop of scenario C from `i = k`: when `ev` evaluates the condition and
the body as the code does, `d + 1` evaluations of the condition print
`k, ..., k + d - 1` and leave `i = k + d = bound`. -/
theorem scenario_c_while_loop (ev : Evaluator) (bound : Nat)
    (hbound : (bound : Int) ≤ 2147483647)
    (hcondition : ∀ (k : Nat) (out : List Int), ev (scenario_c_condition bound) (counting_state k out) =
      .ok ({ expression_value := bool_to_int (decide ((k : Int) < (bound : Int))) },
        counting_state k out))
    (hbody : ∀ (k : Nat) (out : List Int), (k : Int) < 2147483647 →
      ev scenario_c_body (counting_body_state k out) =
        .ok ({}, counting_body_state (k + 1) (out ++ [(k : Int)]))) :
    ∀ (d k count : Nat) (out : List Int), k + d = bound → d + 1 ≤ count →
      while_loop ev (scenario_c_condition bound) scenario_c_body count
          (counting_state k out) =
        .ok ({}, counting_state bound
          (out ++ (List.range' k d).map Int.ofNat)) := by
  intro d
  induction d with
  | zero =>
    intro k count out hk hcount
    obtain ⟨count, rfl⟩ : ∃ c, count = c + 1 := ⟨count - 1, by omega⟩
    have hk' : k = bound := by omega
    subst hk'
    simp [while_loop, hcondition, Outcome.bind, bool_to_int]
  | succ d ih =>
    intro k count out hk hcount
    obtain ⟨count, rfl⟩ : ∃ c, count = c + 1 := ⟨count - 1, by omega⟩
    have hlt : (k : Int) < (bound : Int) := by omega
    have hk2 : (k : Int) < 2147483647 := by omega
    have hbody' := hbody k out hk2
    have hstep : ({ counting_state k out with
        vars := (counting_state k out).vars.enter_block_scope } : ProgramState) =
          counting_body_state k out := by
      simp [counting_state, counting_body_state, Variables.enter_block_scope]
    have hexit : (counting_body_state (k + 1) (out ++ [(k : Int)])).vars.exit_block_scope =
        .ok (counting_state (k + 1) (out ++ [(k : Int)])).vars := by
      simp [counting_state, counting_body_state, Variables.exit_block_scope]
    have hnext := ih (k + 1) count (out ++ [(k : Int)]) (by omega) (by omega)
    rw [while_loop_succ, hcondition, Outcome.bind_ok]
    simp only [bool_to_int, hlt, decide_True, if_true, hstep, hbody', Outcome.bind_ok, hexit]
    have hstate : ProgramState.mk (counting_state (k + 1) (out ++ [(k : Int)])).vars
        (counting_body_state (k + 1) (out ++ [(k : Int)])).cout =
          counting_state (k + 1) (out ++ [(k : Int)]) := rfl
    rw [hstate, hnext]
    simp [List.range'_succ]

/-- Evaluation of the tree of scenario C from the initial environment: the
loop runs `bound` times, so a budget of `bound + 6` is enough. -/
theorem scenario_c_evaluate (bound fuel : Nat) (hbound : (bound : Int) ≤ 2147483647)
    (hfuel : bound + 6 ≤ fuel) :
    SyntaxTreeNode.evaluate fuel (scenario_c_tree bound) ProgramState.initial =
      .ok ({}, counting_state bound ((List.range bound).map Int.ofNat)) := by
  obtain ⟨fuel, rfl⟩ : ∃ f, fuel = f + 2 := ⟨fuel - 2, by omega⟩
  have hassign : SyntaxTreeNode.evaluate (fuel + 1) (.AssignmentNode "i" (literal 0))
      ProgramState.initial = .ok ({ expression_value := 1 }, counting_state 0 []) := by
    apply SyntaxTreeNode.evaluate_mono (Nat.le_add_left 2 (fuel - 1) |>.trans (by omega))
    decide
  have hloop := scenario_c_while_loop (SyntaxTreeNode.evaluate fuel) bound hbound
    (fun k out => SyntaxTreeNode.evaluate_mono (by omega) _ _ _
      (scenario_c_condition_evaluate bound k out))
    (fun k out hk => SyntaxTreeNode.evaluate_mono (by omega) _ _ _
      (scenario_c_body_evaluate k out hk))
    bound 0 fuel [] (by omega) (by omega)
  rw [scenario_c_tree, SyntaxTreeNode.evaluate_sequence, evaluate_statements_cons, hassign,
    Outcome.bind_ok]
  simp only [Bool.false_eq_true, if_false]
  rw [evaluate_statements_cons, SyntaxTreeNode.evaluate_while, hloop, Outcome.bind_ok]
  simp [evaluate_statements, List.range_eq_range']

/-! ## Arithmetic -/

theorem tdiv_eq_truncated_quotient (l r : Int) : Int.tdiv l r = truncated_quotient l r := by
  unfold truncated_quotient
  rcases l with (_ | a) | a <;> rcases r with (_ | b) | b <;>
    simp [Int.tdiv, Int.sign, Int.natAbs]

theorem print_operation_tokens_char (a b : Token) (c : Char)
    (ha : is_integer_literal a = true) (hb : is_integer_literal b = true)
    (hc : c ∈ ['+', '-', '*', '/', '%']) :
    Interpreter.read_input_file_and_parse_into_tokens
        (print_operation_source a (String.mk [c]) b) =
      [["print", "(", a, String.mk [c], b, ")"]] := by
  obtain ⟨hane, haall⟩ := is_integer_literal_data ha
  obtain ⟨hbne, hball⟩ := is_integer_literal_data hb
  have hsrc : print_operation_source a (String.mk [c]) b =
      "print ( ".data ++ (a.data ++ (' ' :: c :: ' ' :: (b.data ++ [' ', ')']))) := by
    simp [print_operation_source]
  rw [hsrc]
  simp only [Interpreter.read_input_file_and_parse_into_tokens,
    Interpreter.preprocess_input_string]
  simp only [List.mem_cons, List.mem_singleton, List.not_mem_nil, or_false] at hc
  rcases hc with rfl | rfl | rfl | rfl | rfl
  all_goals
    simp [preprocess_braces, preprocess_braces_digits haall, preprocess_braces_digits hball]
    simp [preprocess_parentheses, preprocess_parentheses_digits haall,
      preprocess_parentheses_digits hball]
    simp [preprocess_leading_whitespace, preprocess_leading_whitespace_digits hane haall,
      preprocess_leading_whitespace_digits hbne hball]
    simp [preprocess_blank_lines, preprocess_blank_lines_digits hane haall,
      preprocess_blank_lines_digits hbne hball]
    simp [getline_loop, getline_loop_digits haall, getline_loop_digits hball]
    simp [extract_tokens, is_space, extract_tokens_digits haall,
      extract_tokens_digits hball, hane, hbne]

theorem print_operation_tokens (a op b : Token) (ha : is_integer_literal a = true)
    (hb : is_integer_literal b = true) (hop : op ∈ arithmetic_operators) :
    Interpreter.read_input_file_and_parse_into_tokens (print_operation_source a op b) =
      [["print", "(", a, op, b, ")"]] := by
  simp only [arithmetic_operators, List.mem_cons, List.mem_singleton, List.not_mem_nil,
    or_false] at hop
  rcases hop with rfl | rfl | rfl | rfl | rfl
  · exact print_operation_tokens_char a b '+' ha hb (by decide)
  · exact print_operation_tokens_char a b '-' ha hb (by decide)
  · exact print_operation_tokens_char a b '*' ha hb (by decide)
  · exact print_operation_tokens_char a b '/' ha hb (by decide)
  · exact print_operation_tokens_char a b '%' ha hb (by decide)

theorem print_operation_parse (a op b : Token) (ha : is_integer_literal a = true)
    (hb : is_integer_literal b = true) (har : integer_literal_value a ≤ 2147483647)
    (hbr : integer_literal_value b ≤ 2147483647) (hop : op ∈ arithmetic_operators) :
    Interpreter.parse_block 5
        { lines := [["print", "(", a, op, b, ")"]], function_map := [] } 0 0 =
      .ok (.PrintNode (.BinaryOperationNode (Interpreter.binary_operation_token_to_enum op)
          (literal (integer_literal_value a)) (literal (integer_literal_value b))),
        { lines := [["print", "(", a, op, b, ")"]], function_map := [] }, 1) := by
  have a1 := integer_literal_ne ha ")" (by decide)
  have b1 := integer_literal_ne hb ")" (by decide)
  have hop1 : op ≠ ")" := by
    intro h
    rw [h] at hop
    revert hop
    decide
  have s0 : ∀ block : ParseBlock, Interpreter.parse_single_statement_node block
      { lines := [["print", "(", a, op, b, ")"]], function_map := [] } 0 =
      .ok (.PrintNode (.BinaryOperationNode (Interpreter.binary_operation_token_to_enum op)
          (literal (integer_literal_value a)) (literal (integer_literal_value b))),
        { lines := [["print", "(", a, op, b, ")"]], function_map := [] }, 1) := by
    intro block
    simp [Interpreter.parse_single_statement_node, Interpreter.get_next_statement_node_type,
      Interpreter.parse_print_node, Interpreter.get_closing_parenthesis_index,
      Interpreter.closing_parenthesis_loop, Interpreter.parse_assignment_value_node,
      Interpreter.get_assignment_value_type, Interpreter.parse_binary_operation_node,
      Interpreter.parse_operand_token_literal ha har,
      Interpreter.parse_operand_token_literal hb hbr, StdMap.find, a1, b1, hop1, Outcome.bind]
  rw [Interpreter.parse_block_succ]
  simp [Interpreter.parse_block_loop, s0, Outcome.bind]

/-- The `switch` on the arithmetic operators, when the operands and the result
fit in 32 bits. -/
theorem apply_arithmetic_operation (op : Token) (l r : Int)
    (hop : op ∈ arithmetic_operators)
    (hdivisor : op = "/" ∨ op = "%" → r ≠ 0 ∧ ¬(l = -2147483648 ∧ r = -1))
    (hresult : in_int_range (arithmetic_value op l r)) :
    apply_binary_operation (Interpreter.binary_operation_token_to_enum op) l r =
      .ok (arithmetic_value op l r) := by
  simp only [arithmetic_operators, List.mem_cons, List.mem_singleton, List.not_mem_nil,
    or_false] at hop
  rcases hop with rfl | rfl | rfl | rfl | rfl
  · have h : int_arithmetic_result (l + r) = .ok (l + r) :=
      int_arithmetic_result_of_in_range (by simpa [arithmetic_value] using hresult)
    simp [Interpreter.binary_operation_token_to_enum, apply_binary_operation,
      arithmetic_value, h]
  · have h : int_arithmetic_result (l - r) = .ok (l - r) :=
      int_arithmetic_result_of_in_range (by simpa [arithmetic_value] using hresult)
    simp [Interpreter.binary_operation_token_to_enum, apply_binary_operation,
      arithmetic_value, h]
  · have h : int_arithmetic_result (l * r) = .ok (l * r) :=
      int_arithmetic_result_of_in_range (by simpa [arithmetic_value] using hresult)
    simp [Interpreter.binary_operation_token_to_enum, apply_binary_operation,
      arithmetic_value, h]
  · obtain ⟨h1, h2⟩ := hdivisor (Or.inl rfl)
    simp [Interpreter.binary_operation_token_to_enum, apply_binary_operation,
      arithmetic_value, h1, h2, tdiv_eq_truncated_quotient]
  · obtain ⟨h1, h2⟩ := hdivisor (Or.inr rfl)
    simp [Interpreter.binary_operation_token_to_enum, apply_binary_operation,
      arithmetic_value, h1, h2, Int.tmod_def, tdiv_eq_truncated_quotient]

theorem print_operation_evaluate (operation : BinaryOperation) (l r value : Int)
    (h : apply_binary_operation operation l r = .ok value) :
    SyntaxTreeNode.evaluate 3 (.PrintNode (.BinaryOperationNode operation (literal l)
        (literal r))) ProgramState.initial =
      .ok ({}, { vars := Variables.initial, cout := [value] }) := by
  simp [SyntaxTreeNode.evaluate, Outcome.bind, literal, SyntaxTreeNode.node_type,
    ProgramState.initial, h]

/-! ## Braces, parentheses and commas stand alone -/

theorem neighbours_cons_cons (r : Char → Char → Prop) (a b : Char) (rest : List Char) :
    neighbours r (a :: b :: rest) ↔ r a b ∧ neighbours r (b :: rest) := Iff.rfl

theorem neighbours_singleton (r : Char → Char → Prop) (a : Char) : neighbours r [a] :=
  trivial

theorem neighbours_tail {r : Char → Char → Prop} {a : Char} {l : List Char}
    (h : neighbours r (a :: l)) : neighbours r l := by
  cases l with
  | nil => trivial
  | cons b rest => exact h.2

theorem neighbours_head {r : Char → Char → Prop} {a b : Char} {l : List Char}
    (hab : ∀ x, r a x → r b x) (h : neighbours r (a :: l)) : neighbours r (b :: l) := by
  cases l with
  | nil => trivial
  | cons c rest => exact ⟨hab c h.1, h.2⟩

theorem neighbours_cons {r : Char → Char → Prop} {a : Char} {l : List Char}
    (hhead : ∀ b ∈ l.head?, r a b) (h : neighbours r l) : neighbours r (a :: l) := by
  cases l with
  | nil => trivial
  | cons c rest => exact ⟨hhead c rfl, h⟩

theorem neighbours_append_left {r : Char → Char → Prop} :
    ∀ (x y : List Char), neighbours r (x ++ y) → neighbours r x
  | [], _, _ => trivial
  | [_], _, _ => trivial
  | _ :: b :: rest, y, h =>
    ⟨h.1, neighbours_append_left (b :: rest) y h.2⟩

theorem neighbours_append_right {r : Char → Char → Prop} :
    ∀ (x y : List Char), neighbours r (x ++ y) → neighbours r y
  | [], _, h => h
  | _ :: rest, y, h => neighbours_append_right rest y (neighbours_tail h)

theorem braces_apart_newline_left (b : Char) : braces_apart '\n' b :=
  ⟨fun _ => rfl, fun h => absurd h (by decide)⟩

theorem braces_apart_newline_right (a : Char) : braces_apart a '\n' :=
  ⟨fun h => absurd h (by decide), fun _ => rfl⟩

theorem separators_apart_newline_left (b : Char) : separators_apart '\n' b :=
  ⟨braces_apart_newline_left b, fun _ => Or.inr rfl, fun h => absurd h (by decide)⟩

theorem separators_apart_newline_right (a : Char) : separators_apart a '\n' :=
  ⟨braces_apart_newline_right a, fun h => absurd h (by decide), fun _ => Or.inr rfl⟩

theorem preprocess_braces_neighbours :
    ∀ (input_string : List Char) (a : Char), ¬is_brace a →
      neighbours braces_apart (a :: preprocess_braces input_string)
  | [], _, _ => trivial
  | c :: rest, a, ha => by
    by_cases hc : c = '\x7b' ∨ c = '\x7d'
    · have ih := preprocess_braces_neighbours rest '\n' (by decide)
      simp only [preprocess_braces, hc, if_true]
      exact ⟨braces_apart_newline_right a, braces_apart_newline_left c,
        braces_apart_newline_right c, ih⟩
    · have ih := preprocess_braces_neighbours rest c hc
      simp only [preprocess_braces, hc, if_false]
      exact ⟨⟨fun h => absurd h hc, fun h => absurd h ha⟩, ih⟩

theorem preprocess_parentheses_neighbours :
    ∀ (text : List Char) (a : Char), neighbours braces_apart (a :: text) →
      ¬is_punctuation a → neighbours separators_apart (a :: preprocess_parentheses text)
  | [], _, _, _ => trivial
  | c :: rest, a, h, ha => by
    by_cases hc : c = '(' ∨ c = ')' ∨ c = ','
    · have hcb : ¬is_brace c := by
        rcases hc with rfl | rfl | rfl <;> decide
      have hcn : c ≠ '\n' := by
        rcases hc with rfl | rfl | rfl <;> decide
      have hab : ¬is_brace a := fun hb => hcn (h.1.2 hb)
      have hrest : neighbours braces_apart (' ' :: rest) :=
        neighbours_head (fun x hx => ⟨fun hb => absurd (hx.1 hb) hcn,
          fun hb => absurd hb (by decide)⟩) h.2
      have ih := preprocess_parentheses_neighbours rest ' ' hrest (by decide)
      simp only [preprocess_parentheses, hc, if_true]
      refine ⟨⟨⟨fun hb => absurd hb (by decide), fun hb => absurd hb hab⟩,
          fun hp => absurd hp (by decide), fun hp => absurd hp ha⟩,
        ⟨⟨fun hb => absurd hb hcb, fun hb => absurd hb (by decide)⟩,
          fun _ => Or.inl rfl, fun hp => absurd hp (by decide)⟩,
        ⟨⟨fun hb => absurd hb (by decide), fun hb => absurd hb hcb⟩,
          fun hp => absurd hp (by decide), fun _ => Or.inl rfl⟩, ih⟩
    · have ih := preprocess_parentheses_neighbours rest c h.2 hc
      simp only [preprocess_parentheses, hc, if_false]
      exact ⟨⟨h.1, fun hp => absurd hp hc, fun hp => absurd hp ha⟩, ih⟩

theorem preprocess_leading_whitespace_neighbours :
    ∀ (text : List Char) (a : Char) (seen_char : Bool),
      neighbours separators_apart (a :: text) → (seen_char = false → a = '\n') →
      neighbours separators_apart (a :: preprocess_leading_whitespace seen_char text)
  | [], _, _, _, _ => trivial
  | c :: rest, a, seen_char, h, ha => by
    by_cases hc : c = '\n'
    · subst hc
      have ih := preprocess_leading_whitespace_neighbours rest '\n' false h.2 (fun _ => rfl)
      simp only [preprocess_leading_whitespace, if_true]
      exact ⟨h.1, ih⟩
    · by_cases hs : c = ' ' ∨ c = '\t'
      · cases seen_char with
        | false =>
          have ha' : a = '\n' := ha rfl
          subst ha'
          have ih := preprocess_leading_whitespace_neighbours rest '\n' false
            (neighbours_head (fun x _ => separators_apart_newline_left x) h.2) (fun _ => rfl)
          simpa [preprocess_leading_whitespace, hc, hs] using ih
        | true =>
          have ih := preprocess_leading_whitespace_neighbours rest c true h.2
            (fun hf => absurd hf (by decide))
          simp only [preprocess_leading_whitespace, hc, hs, if_true, if_false,
            Bool.not_true, Bool.false_eq_true]
          exact ⟨h.1, ih⟩
      · have ih := preprocess_leading_whitespace_neighbours rest c true h.2
          (fun hf => absurd hf (by decide))
        simp only [preprocess_leading_whitespace, hc, hs, if_false]
        exact ⟨h.1, ih⟩

theorem preprocess_blank_lines_neighbours :
    ∀ (text : List Char) (a : Char) (after_newline : Bool),
      neighbours separators_apart (a :: text) → (after_newline = true → a = '\n') →
      neighbours separators_apart (a :: preprocess_blank_lines after_newline text)
  | [], _, _, _, _ => trivial
  | c :: rest, a, after_newline, h, ha => by
    have ih := preprocess_blank_lines_neighbours rest c (decide (c = '\n')) h.2
      (fun hd => of_decide_eq_true hd)
    by_cases hskip : c = '\n' ∧ (rest = [] ∨ after_newline = true)
    · rw [preprocess_blank_lines, if_pos hskip]
      obtain ⟨hc, hrest⟩ := hskip
      rcases hrest with hrest | hafter
      · subst hrest
        exact neighbours_singleton _ a
      · have ha' : a = c := by rw [ha hafter, hc]
        rw [ha']
        exact ih
    · rw [preprocess_blank_lines, if_neg hskip]
      exact ⟨h.1, ih⟩

theorem preprocess_input_string_neighbours (input_string : List Char) :
    neighbours separators_apart (Interpreter.preprocess_input_string input_string) :=
  neighbours_tail
    (preprocess_blank_lines_neighbours _ '\n' false
      (preprocess_leading_whitespace_neighbours _ '\n' false
        (preprocess_parentheses_neighbours _ '\n'
          (preprocess_braces_neighbours input_string '\n' (by decide)) (by decide))
        (fun _ => rfl))
      (fun h => absurd h (by decide)))

/-- A character that has no neighbour of the kind `q` on either side, in a text
without characters of the kind `q`, is the whole text. -/
theorem neighbours_isolated {p q : Char → Prop} :
    ∀ (text : List Char), neighbours (fun a b => (p b → q a) ∧ (p a → q b)) text →
      (∀ c ∈ text, ¬q c) → ∀ c ∈ text, p c → text = [c]
  | [], _, _, c, hc, _ => absurd hc (List.not_mem_nil c)
  | [x], _, _, c, hc, _ => by
    rw [List.mem_singleton] at hc
    rw [hc]
  | x :: y :: rest, h, hq, c, hc, hp => by
    exfalso
    rcases List.mem_cons.1 hc with hcx | hcy
    · subst hcx
      exact hq y (by simp) (h.1.2 hp)
    · have htail := neighbours_isolated (y :: rest) h.2
        (fun d hd => hq d (List.mem_cons_of_mem _ hd)) c hcy hp
      have hy : y = c := by
        injection htail
      subst hy
      exact hq x (by simp) (h.1.1 hp)

theorem neighbours_imp {r r' : Char → Char → Prop} (himp : ∀ a b, r a b → r' a b) :
    ∀ (text : List Char), neighbours r text → neighbours r' text
  | [], _ => trivial
  | [_], _ => trivial
  | a :: b :: rest, h => ⟨himp a b h.1, neighbours_imp himp (b :: rest) h.2⟩

theorem getline_loop_neighbours {r : Char → Char → Prop} :
    ∀ (text line_string : List Char), neighbours r (line_string ++ text) →
      '\n' ∉ line_string →
      ∀ line ∈ getline_loop line_string text, neighbours r line ∧ '\n' ∉ line
  | [], line_string, h, hline, line, hmem => by
    by_cases hempty : line_string = []
    · simp [getline_loop, hempty] at hmem
    · simp only [getline_loop, hempty, if_false, List.mem_singleton] at hmem
      subst hmem
      exact ⟨by simpa using h, hline⟩
  | c :: rest, line_string, h, hline, line, hmem => by
    by_cases hc : c = '\n'
    · simp only [getline_loop, hc, if_true, List.mem_cons] at hmem
      rcases hmem with hmem | hmem
      · subst hmem
        exact ⟨neighbours_append_left _ _ h, hline⟩
      · exact getline_loop_neighbours rest []
          (neighbours_tail (neighbours_append_right _ _ h)) (List.not_mem_nil _) line hmem
    · simp only [getline_loop, hc, if_false] at hmem
      refine getline_loop_neighbours rest (line_string ++ [c]) ?_ ?_ line hmem
      · simpa using h
      · simp only [List.mem_append, List.mem_singleton, not_or]
        exact ⟨hline, fun heq => hc heq.symm⟩

theorem extract_tokens_neighbours {r : Char → Char → Prop} :
    ∀ (text token : List Char), neighbours r (token ++ text) →
      (∀ c ∈ token, is_space c = false) →
      ∀ t ∈ extract_tokens token text,
        neighbours r t.data ∧ (∀ c ∈ t.data, is_space c = false) ∧
          (∀ c ∈ t.data, c ∈ token ++ text)
  | [], token, h, htoken, t, hmem => by
    by_cases hempty : token = []
    · simp [extract_tokens, hempty] at hmem
    · simp only [extract_tokens, hempty, if_false, List.mem_singleton] at hmem
      subst hmem
      exact ⟨by simpa using h, htoken, fun c hc => by simpa using hc⟩
  | c :: rest, token, h, htoken, t, hmem => by
    have hrest := neighbours_tail (neighbours_append_right _ _ h)
    by_cases hc : is_space c = true
    · have ih := extract_tokens_neighbours rest [] hrest
        (fun d hd => absurd hd (List.not_mem_nil d)) t
      by_cases hempty : token = []
      · simp only [extract_tokens, hc, hempty, if_true] at hmem
        obtain ⟨h1, h2, h3⟩ := ih hmem
        exact ⟨h1, h2, fun d hd => by
          have := h3 d hd
          simp only [List.nil_append] at this
          simp [this]⟩
      · simp only [extract_tokens, hc, hempty, if_true, if_false, List.mem_cons] at hmem
        rcases hmem with hmem | hmem
        · subst hmem
          exact ⟨neighbours_append_left _ _ h, htoken, fun d hd => by simp [hd]⟩
        · obtain ⟨h1, h2, h3⟩ := ih hmem
          exact ⟨h1, h2, fun d hd => by
            have := h3 d hd
            simp only [List.nil_append] at this
            simp [this]⟩
    · simp only [extract_tokens, hc, if_false] at hmem
      have ih := extract_tokens_neighbours rest (token ++ [c]) (by simpa using h)
        (fun d hd => by
          rcases List.mem_append.1 hd with hd | hd
          · exact htoken d hd
          · rw [List.mem_singleton] at hd
            rw [hd]
            simpa using hc) t hmem
      obtain ⟨h1, h2, h3⟩ := ih
      exact ⟨h1, h2, fun d hd => by simpa using h3 d hd⟩

/-! ## Operands -/

theorem string_get_zero_cons (c : Char) (cs : List Char) : (String.mk (c :: cs)).get 0 = c := by
  simp [String.get, String.utf8GetAux]

theorem Interpreter.token_is_variable_name_eq (token : Token) :
    Interpreter.token_is_variable_name token = !starts_with_digit token := by
  obtain ⟨data⟩ := token
  cases data with
  | nil => decide
  | cons c cs =>
    simp only [Interpreter.token_is_variable_name, string_get_zero_cons, starts_with_digit,
      Char.isDigit]
    by_cases h : '0' ≤ c ∧ c ≤ '9'
    · have h1 : c.val ≥ 48 := h.1
      have h2 : c.val ≤ 57 := h.2
      simp [h, h1, h2]
    · have h' : ¬(c.val ≥ 48 ∧ c.val ≤ 57) := h
      rw [if_neg h]
      have hd : (decide (c.val ≥ 48) && decide (c.val ≤ 57)) = false := by
        rw [Bool.and_eq_false_iff]
        by_cases h1 : c.val ≥ 48
        · exact Or.inr (decide_eq_false (fun h2 => h' ⟨h1, h2⟩))
        · exact Or.inl (decide_eq_false h1)
      rw [hd]
      rfl

theorem stoi_starts_with_digit {token : Token} (h : starts_with_digit token = true) :
    stoi token =
      if leading_digits_value token ≤ 2147483647 then .ok (leading_digits_value token)
      else .uncaught_exception := by
  obtain ⟨data⟩ := token
  cases data with
  | nil => simp [starts_with_digit] at h
  | cons c cs =>
    have hc : c.isDigit = true := h
    have hspace : is_space c = false := digit_not_space hc
    have hminus : c ≠ '-' := digit_ne hc '-' (by decide)
    have hplus : c ≠ '+' := digit_ne hc '+' (by decide)
    have htake : (c :: cs).takeWhile Char.isDigit = c :: cs.takeWhile Char.isDigit := by
      simp [List.takeWhile, hc]
    have hnonneg := digits_value_nonneg ((c :: cs).takeWhile Char.isDigit)
    unfold stoi leading_digits_value
    simp only [List.dropWhile, hspace]
    split
    · rename_i heq
      exact absurd (List.cons.inj heq).1 hminus
    · rename_i heq
      exact absurd (List.cons.inj heq).1 hplus
    · rw [if_neg (by rw [htake]; simp)]
      simp only [Bool.false_eq_true, if_false]
      by_cases hr : (digits_value ((c :: cs).takeWhile Char.isDigit) : Int) ≤ 2147483647
      · rw [if_pos ⟨by omega, hr⟩, if_pos hr]
      · rw [if_neg (fun hh => hr hh.2), if_neg hr]

theorem Interpreter.parse_operand_token_digit {token : Token}
    (h : starts_with_digit token = true) :
    Interpreter.parse_operand_token token =
      if leading_digits_value token ≤ 2147483647 then
        .ok (literal (leading_digits_value token))
      else .uncaught_exception := by
  unfold Interpreter.parse_operand_token
  rw [Interpreter.token_is_variable_name_eq, h]
  simp only [Bool.not_true, Bool.false_eq_true, if_false,
    Interpreter.get_literal_value_from_token]
  rw [stoi_starts_with_digit h]
  by_cases hr : leading_digits_value token ≤ 2147483647
  · rw [if_pos hr, if_pos hr, Outcome.bind_ok]
    rfl
  · rw [if_neg hr, if_neg hr]
    rfl

theorem Interpreter.parse_operand_token_identifier {token : Token}
    (h : starts_with_digit token = false) :
    Interpreter.parse_operand_token token = .ok (identifier token) := by
  unfold Interpreter.parse_operand_token
  rw [Interpreter.token_is_variable_name_eq, h]
  rfl

/-! ## The matching closing brace -/

theorem closing_brace_loop_cons (line : Line) (rest : List Line) (i : Nat) (d : Int)
    (hline : line ≠ []) :
    Interpreter.closing_brace_loop (line :: rest) i d =
      if d + brace_delta line = 0 then .ok (i : Int)
      else Interpreter.closing_brace_loop rest (i + 1) (d + brace_delta line) := by
  cases line with
  | nil => exact absurd rfl hline
  | cons first tokens =>
    simp only [Interpreter.closing_brace_loop, List.head?_cons, brace_delta,
      Option.some.injEq]
    by_cases h1 : first = "\x7b"
    · simp [h1]
    · by_cases h2 : first = "\x7d"
      · simp [h2]
        rfl
      · simp [h1, h2]

/-- The loop of `get_closing_brace_line` from line `i` with depth `d`: it
returns `i + n` for the first `n` at which the depth after `n + 1` more lines
is 0, and -1 when there is none. -/
theorem closing_brace_loop_spec :
    ∀ (rest : List Line) (i : Nat) (d : Int), (∀ line ∈ rest, line ≠ []) →
      (∀ n : Nat, Interpreter.closing_brace_loop rest i d = .ok ((i + n : Nat) : Int) ↔
        n < rest.length ∧ d + ((rest.take (n + 1)).map brace_delta).sum = 0 ∧
          ∀ m < n, d + ((rest.take (m + 1)).map brace_delta).sum ≠ 0) ∧
      (Interpreter.closing_brace_loop rest i d = .ok (-1) ↔
        ∀ m < rest.length, d + ((rest.take (m + 1)).map brace_delta).sum ≠ 0) ∧
      (∃ r, Interpreter.closing_brace_loop rest i d = .ok r ∧
        (r = -1 ∨ ∃ n : Nat, r = ((i + n : Nat) : Int)))
  | [], i, d, _ => by
    refine ⟨fun n => ?_, ?_, ⟨-1, rfl, Or.inl rfl⟩⟩
    · simp only [Interpreter.closing_brace_loop, List.length_nil, Nat.not_lt_zero, false_and,
        iff_false]
      intro h
      have := Outcome.ok.inj h
      omega
    · simp [Interpreter.closing_brace_loop]
  | line :: rest, i, d, hne => by
    have hline : line ≠ [] := hne line (List.mem_cons_self _ _)
    have hrest : ∀ l ∈ rest, l ≠ [] := fun l hl => hne l (List.mem_cons_of_mem _ hl)
    obtain ⟨ih1, ih2, r, hr, hr'⟩ :=
      closing_brace_loop_spec rest (i + 1) (d + brace_delta line) hrest
    rw [closing_brace_loop_cons line rest i d hline]
    by_cases hzero : d + brace_delta line = 0
    · rw [if_pos hzero]
      refine ⟨fun n => ?_, ?_, ⟨i, rfl, Or.inr ⟨0, rfl⟩⟩⟩
      · cases n with
        | zero => simp [hzero]
        | succ n =>
          constructor
          · intro h
            have := Outcome.ok.inj h
            omega
          · rintro ⟨_, _, h3⟩
            exact absurd (by simpa using hzero) (h3 0 (Nat.succ_pos n))
      · constructor
        · intro h
          have := Outcome.ok.inj h
          omega
        · intro h
          exact absurd (by simpa using hzero) (h 0 (by simp))
    · rw [if_neg hzero]
      have hsum : ∀ m : Nat, d + (((line :: rest).take (m + 1 + 1)).map brace_delta).sum =
          d + brace_delta line + ((rest.take (m + 1)).map brace_delta).sum := by
        intro m
        simp only [List.take_succ_cons, List.map_cons, List.sum_cons]
        ring
      refine ⟨fun n => ?_, ?_, ⟨r, hr, ?_⟩⟩
      · cases n with
        | zero =>
          constructor
          · intro h
            rw [hr] at h
            have := Outcome.ok.inj h
            rcases hr' with hr' | ⟨k, hk⟩
            · omega
            · omega
          · rintro ⟨_, h2, _⟩
            exact absurd (by simpa using h2) hzero
        | succ n =>
          have hcast : (((i + (n + 1) : Nat)) : Int) = (((i + 1 + n : Nat)) : Int) := by
            omega
          rw [hcast, ih1 n, hsum n]
          constructor
          · rintro ⟨h1, h2, h3⟩
            refine ⟨by simpa using h1, h2, fun m hm => ?_⟩
            cases m with
            | zero => simpa using hzero
            | succ m =>
              rw [hsum m]
              exact h3 m (by omega)
          · rintro ⟨h1, h2, h3⟩
            refine ⟨by simpa using h1, h2, fun m hm => ?_⟩
            have := h3 (m + 1) (by omega)
            rwa [hsum m] at this
      · rw [ih2]
        constructor
        · intro h m hm
          cases m with
          | zero => simpa using hzero
          | succ m =>
            rw [hsum m]
            exact h m (by simpa using hm)
        · intro h m hm
          have := h (m + 1) (by simpa using hm)
          rwa [hsum m] at this
      · rcases hr' with hr' | ⟨k, hk⟩
        · exact Or.inl hr'
        · exact Or.inr ⟨k + 1, by omega⟩

theorem brace_delta_bounds (line : Line) :
    -1 ≤ brace_delta line ∧ brace_delta line ≤ 1 ∧
      (brace_delta line = -1 → line.head? = some "\x7d") := by
  unfold brace_delta
  by_cases h1 : line.head? = some "\x7b"
  · simp [h1]
  · by_cases h2 : line.head? = some "\x7d"
    · simp [h2]
    · simp [h1, h2]

theorem depth_take_succ (rest : List Line) (m : Nat) (hm : m < rest.length) :
    ((rest.take (m + 1)).map brace_delta).sum =
      ((rest.take m).map brace_delta).sum + brace_delta (rest.get ⟨m, hm⟩) := by
  rw [List.take_succ, List.map_append, List.sum_append]
  simp [List.getElem?_eq_getElem hm]

/-- While the depth, started at 1, has not reached 0, it is at least 1; and the
line at which it reaches 0 is a `}` line that follows depth 1. -/
theorem depth_before_first_zero (rest : List Line) (n : Nat) (hn : n < rest.length)
    (hzero : 1 + ((rest.take (n + 1)).map brace_delta).sum = 0)
    (hbefore : ∀ m < n, 1 + ((rest.take (m + 1)).map brace_delta).sum ≠ 0) :
    (∀ m ≤ n, 1 ≤ 1 + ((rest.take m).map brace_delta).sum) ∧
    1 + ((rest.take n).map brace_delta).sum = 1 ∧
    (rest.get ⟨n, hn⟩).head? = some "\x7d" := by
  have hpos : ∀ m ≤ n, 1 ≤ 1 + ((rest.take m).map brace_delta).sum := by
    intro m
    induction m with
    | zero => intro _; simp
    | succ m ih =>
      intro hm
      have h1 := ih (by omega)
      have h2 := depth_take_succ rest m (by omega)
      have h3 := (brace_delta_bounds (rest.get ⟨m, by omega⟩)).1
      have h4 := hbefore m (by omega)
      omega
  have h1 := hpos n (le_refl n)
  have h2 := depth_take_succ rest n hn
  obtain ⟨h3, _, h5⟩ := brace_delta_bounds (rest.get ⟨n, hn⟩)
  exact ⟨hpos, by omega, h5 (by omega)⟩

/-! ## The environment stays well formed -/

theorem Outcome.bind_eq_undefined {α β : Type} {x : Outcome α} {f : α → Outcome β}
    (h : x.bind f = .undefined_behaviour) :
    x = .undefined_behaviour ∨ ∃ a, x = .ok a ∧ f a = .undefined_behaviour := by
  cases x with
  | ok a => exact Or.inr ⟨a, rfl, h⟩
  | out_of_fuel => simp [Outcome.bind] at h
  | undefined_behaviour => exact Or.inl rfl
  | uncaught_exception => simp [Outcome.bind] at h

theorem Variables.Valid.top_boundary {vars : Variables} (h : vars.Valid) : vars.WellFormed := by
  obtain ⟨_, h2, h3⟩ := h
  cases hidx : vars.function_scope_indices with
  | nil => exact absurd hidx h2
  | cons b rest => exact ⟨b, rest, hidx, h3 b (by rw [hidx]; exact List.mem_cons_self _ _)⟩

theorem Variables.Extends.valid {a b : Variables} (hab : a.Extends b) (h : a.Valid) :
    b.Valid := by
  obtain ⟨h1, h2, h3⟩ := h
  obtain ⟨k1, k2, _⟩ := hab
  have hpos : 0 < a.scoped_variables.length := List.length_pos.2 h1
  refine ⟨List.length_pos.1 (by omega), by rw [k1]; exact h2, ?_⟩
  intro x hx
  rw [k1] at hx
  exact Nat.lt_of_lt_of_le (h3 x hx) k2

theorem Variables.enter_block_scope_valid {vars : Variables} (h : vars.Valid) :
    vars.enter_block_scope.Valid := by
  obtain ⟨_, h2, h3⟩ := h
  refine ⟨by simp [Variables.enter_block_scope], h2, ?_⟩
  intro b hb
  have := h3 b hb
  simp [Variables.enter_block_scope]
  omega

theorem Variables.enter_function_scope_valid {vars : Variables} (h : vars.Valid) :
    vars.enter_function_scope.Valid := by
  obtain ⟨_, _, h3⟩ := h
  refine ⟨by simp [Variables.enter_function_scope],
    by simp [Variables.enter_function_scope], ?_⟩
  intro b hb
  simp only [Variables.enter_function_scope, List.mem_cons] at hb
  simp only [Variables.enter_function_scope, List.length_append, List.length_singleton]
  rcases hb with rfl | hb
  · omega
  · have := h3 b hb
    omega

theorem Variables.get_variable_value_defined {vars : Variables} (hwf : vars.WellFormed)
    (name : String) : ∃ value, vars.get_variable_value name = .ok value := by
  obtain ⟨b, rest, hb, _⟩ := hwf
  unfold Variables.get_variable_value
  rw [hb]
  cases hloop : Variables.get_variable_value_loop vars.scoped_variables name b
      vars.scoped_variables.length with
  | none => exact ⟨-1, by simp only [hloop]⟩
  | some value => exact ⟨value, by simp only [hloop]⟩

theorem Variables.assign_defined {vars : Variables} (hwf : vars.WellFormed)
    (name : String) (value : Int) :
    ∃ vars1, vars.assign_variable_and_initialize_if_necessary name value = .ok vars1 := by
  obtain ⟨b, rest, hb, hlt⟩ := hwf
  obtain ⟨j, _, _, _, h⟩ := Variables.assign_variable_eq vars name value b rest hb hlt
  exact ⟨_, h⟩

theorem assign_argument_values_defined :
    ∀ (argument_values : StdMap Int) (vars : Variables), vars.WellFormed →
      ∃ vars1, assign_argument_values argument_values vars = .ok vars1 := by
  intro argument_values
  induction argument_values with
  | nil => intro vars _; exact ⟨vars, rfl⟩
  | cons argument_value rest ih =>
    intro vars hwf
    simp only [assign_argument_values]
    obtain ⟨vars1, h1⟩ := Variables.assign_defined hwf argument_value.1 argument_value.2
    rw [h1, Outcome.bind_ok]
    exact ih vars1 ((Variables.assign_extends hwf h1).1.wellFormed hwf)

theorem RunsWithoutReturn.vars_extend {ev : Evaluator} (hev : Evaluator.Sound ev)
    {statements : List SyntaxTreeNode} {state state' : ProgramState}
    (h : RunsWithoutReturn ev statements state state') (hwf : state.vars.WellFormed) :
    state.vars.Extends state'.vars := by
  induction h with
  | nil state => exact Variables.Extends.refl _
  | @cons node rest state state1 state2 r hnode hr hrest ih =>
    have h1 := hev node state r state1 hnode hwf
    exact h1.trans (ih (h1.wellFormed hwf))

theorem WhileIterations.frames_extend {ev : Evaluator} (hev : Evaluator.Sound ev)
    {condition body : SyntaxTreeNode} {k : Nat} {state state' : ProgramState}
    (h : WhileIterations ev condition body k state state') (hwf : state.vars.WellFormed) :
    state.vars.Extends state'.vars := by
  induction h with
  | zero state => exact Variables.Extends.refl _
  | @succ k state condition_state body_state state' condition_result body_result vars1
      hcondition hone hbody hr hexit hrest ih =>
    have h1 := hev condition state condition_result condition_state hcondition hwf
    have hcwf := h1.wellFormed hwf
    have hentered : (condition_state.vars.enter_block_scope).WellFormed := by
      obtain ⟨b, rest, hb, hlt⟩ := hcwf
      exact ⟨b, rest, hb, by simp [Variables.enter_block_scope]; omega⟩
    have h2 := hev body _ body_result body_state hbody hentered
    have h3 : condition_state.vars.Extends vars1 :=
      Variables.block_scope_extends hcwf h2 hexit
    have h4 := h1.trans h3
    exact h4.trans (ih (h4.wellFormed hwf))

theorem CallsChild.child_valid {fuel : Nat} {node child : SyntaxTreeNode}
    {state child_state : ProgramState} (h : CallsChild fuel node state child child_state)
    (hvalid : state.vars.Valid) : child_state.vars.Valid := by
  have hsound := SyntaxTreeNode.evaluate_sound fuel
  have hwf := hvalid.top_boundary
  cases h with
  | statement hdone => exact (hdone.vars_extend hsound hwf).valid hvalid
  | return_value => exact hvalid
  | assignment_value => exact hvalid
  | binary_left => exact hvalid
  | binary_right hleft => exact (hsound _ _ _ _ hleft hwf).valid hvalid
  | if_condition => exact hvalid
  | if_branch hcondition _ => exact (hsound _ _ _ _ hcondition hwf).valid hvalid
  | else_branch hcondition _ => exact (hsound _ _ _ _ hcondition hwf).valid hvalid
  | function_argument hdone =>
    exact (evaluate_arguments_sound hsound _ _ _ _ _ hdone hwf).valid hvalid
  | function_body hentry =>
    obtain ⟨mid, h1, h2⟩ := function_call_entry_extends hsound hwf hentry
    exact h2.valid (Variables.enter_function_scope_valid (h1.valid hvalid))
  | print_value => exact hvalid
  | while_condition hiterations _ => exact (hiterations.frames_extend hsound hwf).valid hvalid
  | while_body hiterations _ hcondition _ =>
    have h1 := hiterations.frames_extend hsound hwf
    have h2 := hsound _ _ _ _ hcondition (h1.wellFormed hwf)
    exact Variables.enter_block_scope_valid ((h1.trans h2).valid hvalid)

theorem Reaches.reached_valid {fuel fuel' : Nat} {node node' : SyntaxTreeNode}
    {state state' : ProgramState} (h : Reaches fuel node state fuel' node' state')
    (hvalid : state.vars.Valid) : state'.vars.Valid := by
  induction h with
  | here fuel node state => exact hvalid
  | call hchild _ ih => exact ih (hchild.child_valid hvalid)


/-! ## Undefined behaviour of an evaluation comes from arithmetic only -/

theorem evaluate_statements_undefined {ev : Evaluator} :
    ∀ (statements : List SyntaxTreeNode) (state : ProgramState),
      evaluate_statements ev statements state = .undefined_behaviour →
      ∃ done child rest state1, statements = done ++ child :: rest ∧
        RunsWithoutReturn ev done state state1 ∧ ev child state1 = .undefined_behaviour := by
  intro statements
  induction statements with
  | nil => intro state h; simp [evaluate_statements] at h
  | cons node rest ih =>
    intro state h
    rw [evaluate_statements_cons] at h
    rcases Outcome.bind_eq_undefined h with h1 | ⟨a, ha, hf⟩
    · exact ⟨[], node, rest, state, rfl, RunsWithoutReturn.nil state, h1⟩
    · by_cases hr : a.1.should_return = true
      · simp [hr] at hf
      · simp only [hr, Bool.false_eq_true, if_false] at hf
        obtain ⟨done, child, rest', state1, h2, h3, h4⟩ := ih a.2 hf
        refine ⟨node :: done, child, rest', state1, by rw [h2]; rfl, ?_, h4⟩
        exact RunsWithoutReturn.cons ha (by simpa using hr) h3

theorem evaluate_arguments_undefined {ev : Evaluator} :
    ∀ (arguments : List (String × SyntaxTreeNode)) (argument_values : StdMap Int)
      (state : ProgramState),
      evaluate_arguments ev arguments argument_values state = .undefined_behaviour →
      ∃ done argument rest values state1, arguments = done ++ argument :: rest ∧
        evaluate_arguments ev done argument_values state = .ok (values, state1) ∧
        ev argument.2 state1 = .undefined_behaviour := by
  intro arguments
  induction arguments with
  | nil => intro argument_values state h; simp [evaluate_arguments] at h
  | cons argument rest ih =>
    intro argument_values state h
    simp only [evaluate_arguments] at h
    rcases Outcome.bind_eq_undefined h with h1 | ⟨a, ha, hf⟩
    · exact ⟨[], argument, rest, argument_values, state, rfl, rfl, h1⟩
    · obtain ⟨done, argument', rest', values, state1, h2, h3, h4⟩ := ih _ a.2 hf
      refine ⟨argument :: done, argument', rest', values, state1, by rw [h2]; rfl, ?_, h4⟩
      simp only [List.cons_append, evaluate_arguments, ha, Outcome.bind_ok]
      exact h3

theorem function_call_entry_undefined {ev : Evaluator}
    {arguments : List (String × SyntaxTreeNode)} {state : ProgramState}
    (h : function_call_entry ev arguments state = .undefined_behaviour) :
    ∃ done argument rest values state1, arguments = done ++ argument :: rest ∧
      evaluate_arguments ev done [] state = .ok (values, state1) ∧
      ev argument.2 state1 = .undefined_behaviour := by
  unfold function_call_entry at h
  rcases Outcome.bind_eq_undefined h with h1 | ⟨a, _, hf⟩
  · exact evaluate_arguments_undefined arguments [] state h1
  · obtain ⟨vars1, h2⟩ := assign_argument_values_defined a.1 _
      (Variables.enter_function_scope_wellFormed a.2.vars)
    rw [h2, Outcome.bind_ok] at hf
    simp at hf

theorem while_loop_undefined {ev : Evaluator} (hev : Evaluator.Sound ev)
    (condition body : SyntaxTreeNode) :
    ∀ (n : Nat) (state : ProgramState), state.vars.WellFormed →
      while_loop ev condition body n state = .undefined_behaviour →
      ∃ k state1, k < n ∧ WhileIterations ev condition body k state state1 ∧
        (ev condition state1 = .undefined_behaviour ∨
          ∃ condition_result state2, ev condition state1 = .ok (condition_result, state2) ∧
            condition_result.expression_value = 1 ∧
            ev body { state2 with vars := state2.vars.enter_block_scope } =
              .undefined_behaviour) := by
  intro n
  induction n with
  | zero => intro state _ h; simp [while_loop] at h
  | succ n ih =>
    intro state hwf h
    rw [while_loop_succ] at h
    rcases Outcome.bind_eq_undefined h with h1 | ⟨c, hc, hf⟩
    · exact ⟨0, state, Nat.succ_pos n, WhileIterations.zero state, Or.inl h1⟩
    · have hcwf := (hev condition state c.1 c.2 hc hwf).wellFormed hwf
      by_cases hone : c.1.expression_value = 1
      · simp only [hone, if_true] at hf
        have hentered : (c.2.vars.enter_block_scope).WellFormed := by
          obtain ⟨b, rest, hb, hlt⟩ := hcwf
          exact ⟨b, rest, hb, by simp [Variables.enter_block_scope]; omega⟩
        rcases Outcome.bind_eq_undefined hf with h2 | ⟨it, hit, hg⟩
        · exact ⟨0, state, Nat.succ_pos n, WhileIterations.zero state,
            Or.inr ⟨c.1, c.2, hc, hone, h2⟩⟩
        · by_cases hr : it.1.should_return = true
          · simp [hr] at hg
          · simp only [hr, Bool.false_eq_true, if_false] at hg
            have hext := hev body _ it.1 it.2 hit hentered
            have hlen : ¬(it.2.vars.scoped_variables.length = 0) := by
              have := hext.2.1
              simp [Variables.enter_block_scope] at this
              omega
            have hexit : it.2.vars.exit_block_scope =
                .ok { it.2.vars with
                  scoped_variables := it.2.vars.scoped_variables.dropLast } := by
              simp [Variables.exit_block_scope, hlen]
            rw [hexit, Outcome.bind_ok] at hg
            have hnext := (hev condition state c.1 c.2 hc hwf).trans
              (Variables.block_scope_extends hcwf hext hexit)
            obtain ⟨k, state1, hk, hiterations, hlast⟩ := ih _ (hnext.wellFormed hwf) hg
            exact ⟨k + 1, state1, Nat.succ_lt_succ hk,
              WhileIterations.succ hc hone hit (by simpa using hr) hexit hiterations, hlast⟩
      · simp [hone] at hf

theorem ReachesUndefinedArithmetic.of_child {fuel : Nat} {node child : SyntaxTreeNode}
    {state child_state : ProgramState} (hchild : CallsChild fuel node state child child_state)
    (h : ReachesUndefinedArithmetic fuel child child_state) :
    ReachesUndefinedArithmetic (fuel + 1) node state := by
  obtain ⟨fuel', operation, left_operand, right_operand, state', a, b, h1, h2, h3, h4⟩ := h
  exact ⟨fuel', operation, left_operand, right_operand, state', a, b,
    Reaches.call hchild h1, h2, h3, h4⟩

theorem SyntaxTreeNode.evaluate_undefined :
    ∀ (fuel : Nat) (node : SyntaxTreeNode) (state : ProgramState), state.vars.WellFormed →
      SyntaxTreeNode.evaluate fuel node state = .undefined_behaviour →
      ReachesUndefinedArithmetic fuel node state := by
  intro fuel
  induction fuel with
  | zero => intro node state _ h; simp [SyntaxTreeNode.evaluate] at h
  | succ fuel ih =>
    have hsound := SyntaxTreeNode.evaluate_sound fuel
    intro node state hwf h
    cases node with
    | StatementSequenceNode statements =>
      rw [SyntaxTreeNode.evaluate_sequence] at h
      obtain ⟨done, child, rest, state1, h1, h2, h3⟩ :=
        evaluate_statements_undefined statements state h
      subst h1
      exact ReachesUndefinedArithmetic.of_child (CallsChild.statement h2)
        (ih child state1 ((h2.vars_extend hsound hwf).wellFormed hwf) h3)
    | OperandNode operand_type identifier_value literal_value =>
      cases operand_type with
      | IDENTIFIER =>
        rw [SyntaxTreeNode.evaluate_identifier] at h
        obtain ⟨value, hvalue⟩ := Variables.get_variable_value_defined hwf identifier_value
        rw [hvalue, Outcome.bind_ok] at h
        simp at h
      | LITERAL => simp [SyntaxTreeNode.evaluate] at h
    | ReturnNode value =>
      rw [SyntaxTreeNode.evaluate_return] at h
      rcases Outcome.bind_eq_undefined h with h1 | ⟨a, _, hf⟩
      · exact ReachesUndefinedArithmetic.of_child CallsChild.return_value (ih value state hwf h1)
      · simp at hf
    | AssignmentNode variable_name value =>
      rw [SyntaxTreeNode.evaluate_assignment] at h
      rcases Outcome.bind_eq_undefined h with h1 | ⟨a, ha, hf⟩
      · exact ReachesUndefinedArithmetic.of_child CallsChild.assignment_value
          (ih value state hwf h1)
      · have hawf := (hsound value state a.1 a.2 ha hwf).wellFormed hwf
        obtain ⟨vars1, h1⟩ := Variables.assign_defined hawf variable_name
          (if value.node_type = .FUNCTION_CALL then a.1.return_value else a.1.expression_value)
        rw [h1, Outcome.bind_ok] at hf
        simp at hf
    | BinaryOperationNode operation left_operand right_operand =>
      rw [SyntaxTreeNode.evaluate_binary] at h
      rcases Outcome.bind_eq_undefined h with h1 | ⟨a, ha, hf⟩
      · exact ReachesUndefinedArithmetic.of_child CallsChild.binary_left
          (ih left_operand state hwf h1)
      · have hawf := (hsound left_operand state a.1 a.2 ha hwf).wellFormed hwf
        rcases Outcome.bind_eq_undefined hf with h2 | ⟨b, hb, hg⟩
        · exact ReachesUndefinedArithmetic.of_child (CallsChild.binary_right ha)
            (ih right_operand a.2 hawf h2)
        · rcases Outcome.bind_eq_undefined hg with h3 | ⟨v, _, hv⟩
          · exact ⟨fuel, operation, left_operand, right_operand, state, a, b,
              Reaches.here _ _ _, ha, hb, h3⟩
          · simp at hv
    | IfElseNode condition if_block else_block =>
      rw [SyntaxTreeNode.evaluate_if_else] at h
      rcases Outcome.bind_eq_undefined h with h1 | ⟨a, ha, hf⟩
      · exact ReachesUndefinedArithmetic.of_child CallsChild.if_condition
          (ih condition state hwf h1)
      · have hawf := (hsound condition state a.1 a.2 ha hwf).wellFormed hwf
        by_cases hc : a.1.expression_value ≠ 0
        · rw [if_pos hc] at hf
          exact ReachesUndefinedArithmetic.of_child (CallsChild.if_branch ha hc)
            (ih if_block a.2 hawf hf)
        · rw [if_neg hc] at hf
          exact ReachesUndefinedArithmetic.of_child
            (CallsChild.else_branch ha (by simpa using hc)) (ih else_block a.2 hawf hf)
    | FunctionNode body arguments =>
      rw [SyntaxTreeNode.evaluate_function] at h
      rcases Outcome.bind_eq_undefined h with h1 | ⟨s1, hs1, hf⟩
      · obtain ⟨done, argument, rest, values, state1, k1, k2, k3⟩ :=
          function_call_entry_undefined h1
        subst k1
        have hwf1 := (evaluate_arguments_sound hsound done [] state values state1 k2
          hwf).wellFormed hwf
        exact ReachesUndefinedArithmetic.of_child (CallsChild.function_argument k2)
          (ih argument.2 state1 hwf1 k3)
      · obtain ⟨mid, _, h2⟩ := function_call_entry_extends hsound hwf hs1
        have hs1wf := h2.wellFormed (Variables.enter_function_scope_wellFormed mid)
        rcases Outcome.bind_eq_undefined hf with h3 | ⟨b, hb, hg⟩
        · exact ReachesUndefinedArithmetic.of_child (CallsChild.function_body hs1)
            (ih body s1 hs1wf h3)
        · have hext := h2.trans (hsound body s1 b.1 b.2 hb hs1wf)
          have hlen : ¬(b.2.vars.scoped_variables.length = 0) := by
            have := hext.2.1
            simp [Variables.enter_function_scope] at this
            omega
          have hidx : b.2.vars.function_scope_indices =
              mid.scoped_variables.length :: mid.function_scope_indices := hext.1
          simp [Variables.exit_function_scope, hlen, hidx, Outcome.bind] at hg
    | PrintNode value =>
      rw [SyntaxTreeNode.evaluate_print] at h
      rcases Outcome.bind_eq_undefined h with h1 | ⟨a, _, hf⟩
      · exact ReachesUndefinedArithmetic.of_child CallsChild.print_value (ih value state hwf h1)
      · simp at hf
    | EmptyNode => simp [SyntaxTreeNode.evaluate] at h
    | WhileNode condition body =>
      rw [SyntaxTreeNode.evaluate_while] at h
      obtain ⟨k, state1, hk, hiterations, hlast⟩ :=
        while_loop_undefined hsound condition body fuel state hwf h
      have hwf1 := (hiterations.frames_extend hsound hwf).wellFormed hwf
      rcases hlast with h1 | ⟨condition_result, state2, h1, h2, h3⟩
      · exact ReachesUndefinedArithmetic.of_child (CallsChild.while_condition hiterations hk)
          (ih condition state1 hwf1 h1)
      · have hwf2 := (hsound condition state1 condition_result state2 h1 hwf1).wellFormed hwf1
        have hentered : (state2.vars.enter_block_scope).WellFormed := by
          obtain ⟨b, rest, hb, hlt⟩ := hwf2
          exact ⟨b, rest, hb, by simp [Variables.enter_block_scope]; omega⟩
        exact ReachesUndefinedArithmetic.of_child
          (CallsChild.while_body hiterations hk h1 h2) (ih body _ hentered h3)

/-! ## The scope exits of evaluation -/

theorem while_body_exit_valid (fuel : Nat) (body : SyntaxTreeNode)
    (state body_state : ProgramState) (r : EvaluationResult) (hvalid : state.vars.Valid)
    (hbody : SyntaxTreeNode.evaluate fuel body
      { state with vars := state.vars.enter_block_scope } = .ok (r, body_state)) :
    ∃ vars1, body_state.vars.exit_block_scope = .ok vars1 ∧ vars1.Valid := by
  have hwf := hvalid.top_boundary
  have hentered : (state.vars.enter_block_scope).WellFormed := by
    obtain ⟨b, rest, hb, hlt⟩ := hwf
    exact ⟨b, rest, hb, by simp [Variables.enter_block_scope]; omega⟩
  have hext := SyntaxTreeNode.evaluate_sound fuel body _ r body_state hbody hentered
  have hlen : ¬(body_state.vars.scoped_variables.length = 0) := by
    have := hext.2.1
    simp [Variables.enter_block_scope] at this
    omega
  have hexit : body_state.vars.exit_block_scope =
      .ok { body_state.vars with
        scoped_variables := body_state.vars.scoped_variables.dropLast } := by
    simp [Variables.exit_block_scope, hlen]
  exact ⟨_, hexit, (Variables.block_scope_extends hwf hext hexit).valid hvalid⟩

theorem function_body_exit_valid (fuel : Nat) (body : SyntaxTreeNode)
    (arguments : List (String × SyntaxTreeNode)) (state state1 body_state : ProgramState)
    (r : EvaluationResult) (hvalid : state.vars.Valid)
    (hentry : function_call_entry (SyntaxTreeNode.evaluate fuel) arguments state = .ok state1)
    (hbody : SyntaxTreeNode.evaluate fuel body state1 = .ok (r, body_state)) :
    ∃ vars1, body_state.vars.exit_function_scope = .ok vars1 ∧ vars1.Valid := by
  have hsound := SyntaxTreeNode.evaluate_sound fuel
  have hwf := hvalid.top_boundary
  obtain ⟨mid, h1, h2⟩ := function_call_entry_extends hsound hwf hentry
  have hs1wf := h2.wellFormed (Variables.enter_function_scope_wellFormed mid)
  have hext := h2.trans (hsound body state1 r body_state hbody hs1wf)
  have hlen : ¬(body_state.vars.scoped_variables.length = 0) := by
    have := hext.2.1
    simp [Variables.enter_function_scope] at this
    omega
  have hidx : body_state.vars.function_scope_indices =
      mid.scoped_variables.length :: mid.function_scope_indices := hext.1
  have hexit : body_state.vars.exit_function_scope =
      .ok { scoped_variables := body_state.vars.scoped_variables.dropLast,
            function_scope_indices := mid.function_scope_indices } := by
    simp [Variables.exit_function_scope, hlen, hidx]
  have hmid := h1.wellFormed hwf
  exact ⟨_, hexit,
    (h1.trans (Variables.function_scope_extends hmid hext hexit)).valid hvalid⟩


/-! ## Parsing makes progress -/

theorem Interpreter.Grows.same (interpreter : Interpreter) (start_line next : Nat) :
    interpreter.Grows interpreter start_line next :=
  ⟨rfl, fun _ h => Or.inl h⟩

theorem Interpreter.Grows.chain {a b c : Interpreter} {s m n : Nat}
    (hab : a.Grows b s m) (hbc : b.Grows c m n) (hsm : s ≤ m) (hmn : m ≤ n) :
    a.Grows c s n := by
  refine ⟨hbc.1.trans hab.1, fun name h => ?_⟩
  rcases hbc.2 name h with h1 | ⟨k, k1, k2, k3⟩
  · rcases hab.2 name h1 with h2 | ⟨k, k1, k2, k3⟩
    · exact Or.inl h2
    · exact Or.inr ⟨k, k1, by omega, k3⟩
  · exact Or.inr ⟨k, by omega, k2, by rw [← hab.1]; exact k3⟩

theorem Interpreter.Grows.widen {a b : Interpreter} {s m s' n : Nat}
    (hab : a.Grows b s m) (hs : s' ≤ s) (hn : m ≤ n) : a.Grows b s' n := by
  refine ⟨hab.1, fun name h => ?_⟩
  rcases hab.2 name h with h1 | ⟨k, k1, k2, k3⟩
  · exact Or.inl h1
  · exact Or.inr ⟨k, by omega, by omega, k3⟩

theorem StdMap.find_assign_isSome {α : Type} (m : StdMap α) (key name : String) (value : α)
    (h : (StdMap.find (StdMap.assign m key value) name).isSome = true) :
    name = key ∨ (StdMap.find m name).isSome = true := by
  by_cases hname : name = key
  · exact Or.inl hname
  · rw [StdMap.find_assign_of_ne m key name value hname] at h
    exact Or.inr h

theorem Interpreter.parse_braces_block_sound {block : ParseBlock}
    (hblock : ParseBlock.Sound block) {interpreter interpreter' : Interpreter}
    {start_line next : Nat} {node : SyntaxTreeNode}
    (h : Interpreter.parse_braces_block block interpreter start_line =
      .ok (node, interpreter', next)) :
    start_line + 2 ≤ next ∧ interpreter.Grows interpreter' (start_line + 1) next := by
  unfold Interpreter.parse_braces_block at h
  obtain ⟨end_line, _, h1⟩ := Outcome.bind_eq_ok h
  obtain ⟨parsed, hparsed, h2⟩ := Outcome.bind_eq_ok h1
  obtain ⟨p1, p2⟩ := hblock interpreter (start_line + 1) (end_line - 1) parsed.1 parsed.2.1
    parsed.2.2 hparsed
  have h3 := Outcome.ok.inj h2
  simp only [Prod.mk.injEq] at h3
  obtain ⟨_, h4, h5⟩ := h3
  subst h4 h5
  exact ⟨by omega, p2.widen (Nat.le_refl _) (by omega)⟩

theorem Interpreter.parse_assignment_node_next {interpreter interpreter' : Interpreter}
    {start_line next : Nat} {node : SyntaxTreeNode}
    (h : interpreter.parse_assignment_node start_line = .ok (node, interpreter', next)) :
    interpreter' = interpreter ∧ next = start_line + 1 := by
  unfold Interpreter.parse_assignment_node at h
  split at h
  · cases h
  · split at h
    · cases h
    · obtain ⟨value, _, h1⟩ := Outcome.bind_eq_ok h
      have h2 := Outcome.ok.inj h1
      simp only [Prod.mk.injEq] at h2
      exact ⟨h2.2.1.symm, h2.2.2.symm⟩

theorem Interpreter.parse_print_node_next {interpreter interpreter' : Interpreter}
    {start_line next : Nat} {node : SyntaxTreeNode}
    (h : interpreter.parse_print_node start_line = .ok (node, interpreter', next)) :
    interpreter' = interpreter ∧ next = start_line + 1 := by
  unfold Interpreter.parse_print_node at h
  split at h
  · cases h
  · obtain ⟨value, _, h1⟩ := Outcome.bind_eq_ok h
    have h2 := Outcome.ok.inj h1
    simp only [Prod.mk.injEq] at h2
    exact ⟨h2.2.1.symm, h2.2.2.symm⟩

theorem Interpreter.parse_return_node_next {interpreter interpreter' : Interpreter}
    {start_line next : Nat} {node : SyntaxTreeNode}
    (h : interpreter.parse_return_node start_line = .ok (node, interpreter', next)) :
    interpreter' = interpreter ∧ next = start_line + 1 := by
  unfold Interpreter.parse_return_node at h
  split at h
  · cases h
  · obtain ⟨value, _, h1⟩ := Outcome.bind_eq_ok h
    have h2 := Outcome.ok.inj h1
    simp only [Prod.mk.injEq] at h2
    exact ⟨h2.2.1.symm, h2.2.2.symm⟩

theorem Interpreter.parse_lone_function_call_node_next
    {interpreter interpreter' : Interpreter} {start_line next : Nat} {node : SyntaxTreeNode}
    (h : interpreter.parse_lone_function_call_node start_line =
      .ok (node, interpreter', next)) :
    interpreter' = interpreter ∧ next = start_line + 1 := by
  unfold Interpreter.parse_lone_function_call_node at h
  obtain ⟨value, _, h1⟩ := Outcome.bind_eq_ok h
  have h2 := Outcome.ok.inj h1
  simp only [Prod.mk.injEq] at h2
  exact ⟨h2.2.1.symm, h2.2.2.symm⟩

theorem Interpreter.parse_while_node_sound {block : ParseBlock}
    (hblock : ParseBlock.Sound block) {interpreter interpreter' : Interpreter}
    {start_line next : Nat} {node : SyntaxTreeNode}
    (h : Interpreter.parse_while_node block interpreter start_line =
      .ok (node, interpreter', next)) :
    start_line + 3 ≤ next ∧ interpreter.Grows interpreter' (start_line + 2) next := by
  unfold Interpreter.parse_while_node at h
  split at h
  · cases h
  · split at h
    · obtain ⟨condition, _, h1⟩ := Outcome.bind_eq_ok h
      obtain ⟨body, hbody, h2⟩ := Outcome.bind_eq_ok h1
      have h3 := Outcome.ok.inj h2
      simp only [Prod.mk.injEq] at h3
      obtain ⟨_, h4, h5⟩ := h3
      subst h4 h5
      exact Interpreter.parse_braces_block_sound hblock hbody
    · cases h

theorem Interpreter.parse_if_else_node_sound {block : ParseBlock}
    (hblock : ParseBlock.Sound block) {interpreter interpreter' : Interpreter}
    {start_line next : Nat} {node : SyntaxTreeNode}
    (h : Interpreter.parse_if_else_node block interpreter start_line =
      .ok (node, interpreter', next)) :
    start_line + 3 ≤ next ∧ interpreter.Grows interpreter' (start_line + 2) next := by
  unfold Interpreter.parse_if_else_node at h
  split at h
  · cases h
  · split at h
    · obtain ⟨condition, _, h1⟩ := Outcome.bind_eq_ok h
      obtain ⟨⟨if_node, if_interpreter, if_next⟩, hif, h2⟩ := Outcome.bind_eq_ok h1
      obtain ⟨p1, p2⟩ := Interpreter.parse_braces_block_sound hblock hif
      simp only at h2
      split at h2
      · have h3 := Outcome.ok.inj h2
        simp only [Prod.mk.injEq] at h3
        obtain ⟨_, h4, h5⟩ := h3
        subst h4 h5
        exact ⟨p1, p2⟩
      · split at h2
        · cases h2
        · split at h2
          · obtain ⟨⟨else_node, else_interpreter, else_next⟩, helse, h3⟩ :=
              Outcome.bind_eq_ok h2
            obtain ⟨q1, q2⟩ := Interpreter.parse_braces_block_sound hblock helse
            have h4 := Outcome.ok.inj h3
            simp only [Prod.mk.injEq] at h4
            obtain ⟨_, h5, h6⟩ := h4
            subst h5 h6
            exact ⟨by omega, p2.chain (q2.widen (by omega) (Nat.le_refl _)) (by omega)
              (by omega)⟩
          · have h3 := Outcome.ok.inj h2
            simp only [Prod.mk.injEq] at h3
            obtain ⟨_, h4, h5⟩ := h3
            subst h4 h5
            exact ⟨p1, p2⟩
    · cases h

theorem Interpreter.get_next_statement_node_type_function {interpreter : Interpreter}
    {start_line : Nat}
    (h : interpreter.get_next_statement_node_type start_line = .ok .FUNCTION_DEFINITION) :
    ∃ tokens, interpreter.lines[start_line]? = some ("function" :: tokens) := by
  unfold Interpreter.get_next_statement_node_type at h
  split at h
  · cases h
  · rename_i tokens hline
    split at h
    · cases h
    · cases tokens with
      | nil => simp at h
      | cons first rest =>
        simp only [List.head?_cons] at h
        by_cases h1 : first = "if"
        · simp [h1] at h
        · by_cases h2 : first = "return"
          · simp [h2] at h
          · by_cases h3 : first = "print"
            · simp [h3] at h
            · by_cases h4 : first = "function"
              · subst h4
                exact ⟨rest, hline⟩
              · by_cases h5 : first = "while"
                · simp [h5] at h
                · by_cases h6 : interpreter.token_is_function_name first = true
                  · simp [h1, h2, h3, h4, h5, h6] at h
                  · simp [h1, h2, h3, h4, h5, h6] at h

theorem Interpreter.get_function_signature_details_definition {interpreter : Interpreter}
    {tokens : Line} {details : FunctionSignatureDetails}
    (h : interpreter.get_function_signature_details tokens true = .ok details) :
    tokens.get? 1 = some details.name := by
  unfold Interpreter.get_function_signature_details at h
  simp only [if_true, Outcome.bind_ok] at h
  split at h
  · cases h
  · rename_i name hname
    obtain ⟨inputs, _, h1⟩ := Outcome.bind_eq_ok h
    have h2 := Outcome.ok.inj h1
    rw [← h2]
    exact hname

theorem Interpreter.parse_function_definition_sound {block : ParseBlock}
    (hblock : ParseBlock.Sound block) {interpreter interpreter' : Interpreter}
    {start_line next : Nat} {node : SyntaxTreeNode} {tokens : List Token}
    (hline : interpreter.lines[start_line]? = some ("function" :: tokens))
    (h : Interpreter.parse_function_definition block interpreter start_line =
      .ok (node, interpreter', next)) :
    start_line + 3 ≤ next ∧ interpreter.Grows interpreter' start_line next := by
  unfold Interpreter.parse_function_definition at h
  rw [hline] at h
  simp only at h
  obtain ⟨details, hdetails, h1⟩ := Outcome.bind_eq_ok h
  obtain ⟨⟨body, body_interpreter, body_next⟩, hbody, h2⟩ := Outcome.bind_eq_ok h1
  obtain ⟨p1, p2⟩ := Interpreter.parse_braces_block_sound hblock hbody
  have hname := Interpreter.get_function_signature_details_definition hdetails
  have h3 := Outcome.ok.inj h2
  simp only [Prod.mk.injEq] at h3
  obtain ⟨_, h4, h5⟩ := h3
  subst h4 h5
  refine ⟨p1, p2.1, fun name hknown => ?_⟩
  rcases StdMap.find_assign_isSome _ _ _ _ hknown with hkey | hold
  · refine Or.inr ⟨start_line, Nat.le_refl _, by omega, ?_⟩
    cases tokens with
    | nil => simp at hname
    | cons second rest =>
      simp only [List.get?_cons_succ, List.get?_cons_zero, Option.some.injEq] at hname
      exact ⟨rest, by rw [hkey, ← hname]; simpa using hline⟩
  · rcases p2.2 name hold with h6 | ⟨k, k1, k2, k3⟩
    · exact Or.inl h6
    · exact Or.inr ⟨k, by omega, k2, k3⟩

theorem Interpreter.parse_single_statement_node_sound {block : ParseBlock}
    (hblock : ParseBlock.Sound block) :
    ParseStatement.Sound (Interpreter.parse_single_statement_node block) := by
  intro interpreter start_line node interpreter' next h
  unfold Interpreter.parse_single_statement_node at h
  obtain ⟨kind, hkind, h1⟩ := Outcome.bind_eq_ok h
  cases kind with
  | ASSIGNMENT =>
    obtain ⟨h2, h3⟩ := Interpreter.parse_assignment_node_next h1
    subst h2 h3
    exact ⟨by omega, Interpreter.Grows.same _ _ _⟩
  | RETURN =>
    obtain ⟨h2, h3⟩ := Interpreter.parse_return_node_next h1
    subst h2 h3
    exact ⟨by omega, Interpreter.Grows.same _ _ _⟩
  | IF_ELSE =>
    obtain ⟨h2, h3⟩ := Interpreter.parse_if_else_node_sound hblock h1
    exact ⟨by omega, h3.widen (by omega) (Nat.le_refl _)⟩
  | LONE_FUNCTION_CALL =>
    obtain ⟨h2, h3⟩ := Interpreter.parse_lone_function_call_node_next h1
    subst h2 h3
    exact ⟨by omega, Interpreter.Grows.same _ _ _⟩
  | FUNCTION_DEFINITION =>
    obtain ⟨tokens, hline⟩ := Interpreter.get_next_statement_node_type_function hkind
    obtain ⟨h2, h3⟩ := Interpreter.parse_function_definition_sound hblock hline h1
    exact ⟨by omega, h3⟩
  | PRINT =>
    obtain ⟨h2, h3⟩ := Interpreter.parse_print_node_next h1
    subst h2 h3
    exact ⟨by omega, Interpreter.Grows.same _ _ _⟩
  | WHILE =>
    obtain ⟨h2, h3⟩ := Interpreter.parse_while_node_sound hblock h1
    exact ⟨by omega, h3.widen (by omega) (Nat.le_refl _)⟩

theorem Interpreter.parse_block_loop_sound {statement : ParseStatement}
    (hstatement : ParseStatement.Sound statement) (end_line : Int) :
    ∀ (n : Nat) (interpreter : Interpreter) (start_line : Nat) (nodes : List SyntaxTreeNode)
      (nodes' : List SyntaxTreeNode) (interpreter' : Interpreter) (next : Nat),
      Interpreter.parse_block_loop statement n interpreter start_line end_line nodes =
        .ok (nodes', interpreter', next) →
      start_line ≤ next ∧ interpreter.Grows interpreter' start_line next := by
  intro n
  induction n with
  | zero => intro interpreter start_line nodes nodes' interpreter' next h; cases h
  | succ n ih =>
    intro interpreter start_line nodes nodes' interpreter' next h
    rw [Interpreter.parse_block_loop_succ] at h
    by_cases hle : (start_line : Int) ≤ end_line
    · rw [if_pos hle] at h
      obtain ⟨⟨node1, interpreter1, next1⟩, h1, h2⟩ := Outcome.bind_eq_ok h
      obtain ⟨p1, p2⟩ := hstatement interpreter start_line node1 interpreter1 next1 h1
      obtain ⟨q1, q2⟩ := ih interpreter1 next1 _ nodes' interpreter' next h2
      exact ⟨by omega, p2.chain q2 (by omega) q1⟩
    · rw [if_neg hle] at h
      have h3 := Outcome.ok.inj h
      simp only [Prod.mk.injEq] at h3
      obtain ⟨_, h4, h5⟩ := h3
      subst h4 h5
      exact ⟨Nat.le_refl _, Interpreter.Grows.same _ _ _⟩

theorem Interpreter.parse_block_sound :
    ∀ fuel : Nat, ParseBlock.Sound (Interpreter.parse_block fuel) := by
  intro fuel
  induction fuel with
  | zero =>
    intro interpreter start_line end_line node interpreter' next h
    cases h
  | succ fuel ih =>
    intro interpreter start_line end_line node interpreter' next h
    rw [Interpreter.parse_block_succ] at h
    obtain ⟨⟨nodes1, interpreter1, next1⟩, h1, h2⟩ := Outcome.bind_eq_ok h
    have h3 := Outcome.ok.inj h2
    simp only [Prod.mk.injEq] at h3
    obtain ⟨_, h4, h5⟩ := h3
    subst h4 h5
    exact Interpreter.parse_block_loop_sound
      (Interpreter.parse_single_statement_node_sound ih) end_line _ _ _ _ _ _ _ h1

/-! ## Parsing terminates -/

theorem Outcome.bind_ne_out_of_fuel {α β : Type} {x : Outcome α} {f : α → Outcome β}
    (hx : x ≠ .out_of_fuel) (hf : ∀ a, x = .ok a → f a ≠ .out_of_fuel) :
    x.bind f ≠ .out_of_fuel := by
  cases x with
  | ok a => exact hf a rfl
  | out_of_fuel => exact absurd rfl hx
  | undefined_behaviour => simp [Outcome.bind]
  | uncaught_exception => simp [Outcome.bind]

theorem stoi_ne_out_of_fuel (token : String) : stoi token ≠ .out_of_fuel := by
  unfold stoi
  simp only
  repeat' split
  all_goals simp

theorem Interpreter.parse_operand_token_ne_out_of_fuel (token : Token) :
    Interpreter.parse_operand_token token ≠ .out_of_fuel := by
  unfold Interpreter.parse_operand_token
  split
  · simp
  · exact Outcome.bind_ne_out_of_fuel (stoi_ne_out_of_fuel token) (fun _ _ => by simp)

theorem Interpreter.parse_binary_operation_node_ne_out_of_fuel (left op right : Token) :
    Interpreter.parse_binary_operation_node left op right ≠ .out_of_fuel := by
  unfold Interpreter.parse_binary_operation_node
  refine Outcome.bind_ne_out_of_fuel (Interpreter.parse_operand_token_ne_out_of_fuel left) ?_
  intro _ _
  exact Outcome.bind_ne_out_of_fuel (Interpreter.parse_operand_token_ne_out_of_fuel right)
    (fun _ _ => by simp)

theorem Interpreter.scan_function_name_ne_out_of_fuel (interpreter : Interpreter) :
    ∀ (tokens : List Token) (i : Nat),
      Interpreter.scan_function_name interpreter tokens i ≠ .out_of_fuel
  | [], _ => by simp [Interpreter.scan_function_name]
  | token :: rest, i => by
    unfold Interpreter.scan_function_name
    split
    · simp
    · exact Interpreter.scan_function_name_ne_out_of_fuel interpreter rest (i + 1)

theorem Interpreter.collect_input_tokens_ne_out_of_fuel :
    ∀ tokens : List Token, Interpreter.collect_input_tokens tokens ≠ .out_of_fuel
  | [] => by simp [Interpreter.collect_input_tokens]
  | token :: rest => by
    unfold Interpreter.collect_input_tokens
    split
    · simp
    · exact Outcome.bind_ne_out_of_fuel
        (Interpreter.collect_input_tokens_ne_out_of_fuel rest) (fun _ _ => by simp)

theorem Interpreter.get_function_signature_details_ne_out_of_fuel
    (interpreter : Interpreter) (tokens : Line) (is_definition : Bool) :
    interpreter.get_function_signature_details tokens is_definition ≠ .out_of_fuel := by
  unfold Interpreter.get_function_signature_details
  refine Outcome.bind_ne_out_of_fuel ?_ ?_
  · split
    · simp
    · exact Interpreter.scan_function_name_ne_out_of_fuel interpreter tokens 0
  · intro index _
    split
    · simp
    · exact Outcome.bind_ne_out_of_fuel
        (Interpreter.collect_input_tokens_ne_out_of_fuel _) (fun _ _ => by simp)

theorem Interpreter.parse_argument_tokens_ne_out_of_fuel :
    ∀ tokens : List Token, Interpreter.parse_argument_tokens tokens ≠ .out_of_fuel
  | [] => by simp [Interpreter.parse_argument_tokens]
  | token :: rest => by
    unfold Interpreter.parse_argument_tokens
    refine Outcome.bind_ne_out_of_fuel
      (Interpreter.parse_operand_token_ne_out_of_fuel token) ?_
    intro _ _
    exact Outcome.bind_ne_out_of_fuel
      (Interpreter.parse_argument_tokens_ne_out_of_fuel rest) (fun _ _ => by simp)

theorem Interpreter.build_argument_map_ne_out_of_fuel :
    ∀ (parameters : List Token) (argument_nodes : List SyntaxTreeNode)
      (argument_map : StdMap SyntaxTreeNode),
      Interpreter.build_argument_map parameters argument_nodes argument_map ≠ .out_of_fuel
  | [], _, _ => by simp [Interpreter.build_argument_map]
  | _ :: _, [], _ => by simp [Interpreter.build_argument_map]
  | _ :: parameters, _ :: argument_nodes, _ => by
    unfold Interpreter.build_argument_map
    exact Interpreter.build_argument_map_ne_out_of_fuel parameters argument_nodes _

theorem Interpreter.parse_function_call_node_ne_out_of_fuel (interpreter : Interpreter)
    (start_line : Nat) : interpreter.parse_function_call_node start_line ≠ .out_of_fuel := by
  unfold Interpreter.parse_function_call_node
  split
  · simp
  · refine Outcome.bind_ne_out_of_fuel
      (Interpreter.get_function_signature_details_ne_out_of_fuel _ _ _) ?_
    intro details _
    refine Outcome.bind_ne_out_of_fuel
      (Interpreter.parse_argument_tokens_ne_out_of_fuel _) ?_
    intro nodes _
    split
    · simp
    · exact Outcome.bind_ne_out_of_fuel
        (Interpreter.build_argument_map_ne_out_of_fuel _ _ _) (fun _ _ => by simp)

theorem Interpreter.parse_assignment_value_node_ne_out_of_fuel (interpreter : Interpreter)
    (start_line start_index : Nat) (end_index : Int) :
    interpreter.parse_assignment_value_node start_line start_index end_index ≠
      .out_of_fuel := by
  unfold Interpreter.parse_assignment_value_node
  split
  · simp
  · refine Outcome.bind_ne_out_of_fuel ?_ ?_
    · unfold Interpreter.get_assignment_value_type
      split
      · simp
      · split
        · simp
        · split <;> simp
    · intro kind _
      cases kind with
      | OPERAND =>
        simp only
        split
        · simp
        · exact Interpreter.parse_operand_token_ne_out_of_fuel _
      | BINARY_OPERATION =>
        simp only
        split
        · exact Interpreter.parse_binary_operation_node_ne_out_of_fuel _ _ _
        · simp
      | FUNCTION_CALL => exact Interpreter.parse_function_call_node_ne_out_of_fuel _ _

theorem Outcome.ite_ne_out_of_fuel {α : Type} (c : Prop) [Decidable c] {a b : Outcome α}
    (ha : a ≠ .out_of_fuel) (hb : b ≠ .out_of_fuel) :
    (if c then a else b) ≠ .out_of_fuel := by
  split <;> assumption

theorem Interpreter.closing_brace_loop_ne_out_of_fuel :
    ∀ (rest : List Line) (i : Nat) (d : Int),
      Interpreter.closing_brace_loop rest i d ≠ .out_of_fuel
  | [], _, _ => by simp [Interpreter.closing_brace_loop]
  | line :: rest, i, d => by
    unfold Interpreter.closing_brace_loop
    split
    · simp
    · exact Outcome.ite_ne_out_of_fuel _ (by simp)
        (Interpreter.closing_brace_loop_ne_out_of_fuel rest (i + 1) _)

theorem Interpreter.get_next_statement_node_type_ne_out_of_fuel (interpreter : Interpreter)
    (start_line : Nat) :
    interpreter.get_next_statement_node_type start_line ≠ .out_of_fuel := by
  unfold Interpreter.get_next_statement_node_type
  repeat' split
  all_goals simp

theorem Interpreter.get_next_statement_node_type_line {interpreter : Interpreter}
    {start_line : Nat} {kind : StatementNodeType}
    (h : interpreter.get_next_statement_node_type start_line = .ok kind) :
    start_line < interpreter.lines.length := by
  unfold Interpreter.get_next_statement_node_type at h
  split at h
  · cases h
  · rename_i tokens hline
    by_contra hlt
    rw [List.getElem?_eq_none (by omega)] at hline
    cases hline

theorem Interpreter.parse_braces_block_ne_out_of_fuel {block : ParseBlock}
    (interpreter : Interpreter) (start_line : Nat)
    (hblock : ∀ end_line, block interpreter (start_line + 1) end_line ≠ .out_of_fuel) :
    Interpreter.parse_braces_block block interpreter start_line ≠ .out_of_fuel := by
  unfold Interpreter.parse_braces_block
  refine Outcome.bind_ne_out_of_fuel
    (Interpreter.closing_brace_loop_ne_out_of_fuel _ _ _) ?_
  intro end_line _
  exact Outcome.bind_ne_out_of_fuel (hblock _) (fun _ _ => by simp)

/-- With a block parser that is sound and never runs out of budget on the lines
after `start_line`, the statement parser does not run out of budget at
`start_line`. -/
theorem Interpreter.parse_single_statement_node_ne_out_of_fuel {block : ParseBlock}
    (hsound : ParseBlock.Sound block) (interpreter : Interpreter) (start_line : Nat)
    (hblock : ∀ (interpreter' : Interpreter) (start' : Nat) (end_line : Int),
      interpreter'.lines = interpreter.lines → start_line + 2 ≤ start' →
      block interpreter' start' end_line ≠ .out_of_fuel) :
    Interpreter.parse_single_statement_node block interpreter start_line ≠ .out_of_fuel := by
  unfold Interpreter.parse_single_statement_node
  refine Outcome.bind_ne_out_of_fuel
    (Interpreter.get_next_statement_node_type_ne_out_of_fuel _ _) ?_
  intro kind _
  have hbraces : Interpreter.parse_braces_block block interpreter (start_line + 1) ≠
      .out_of_fuel :=
    Interpreter.parse_braces_block_ne_out_of_fuel interpreter (start_line + 1)
      (fun end_line => hblock interpreter _ end_line rfl (by omega))
  cases kind with
  | ASSIGNMENT =>
    simp only
    unfold Interpreter.parse_assignment_node
    split
    · simp
    · split
      · simp
      · exact Outcome.bind_ne_out_of_fuel
          (Interpreter.parse_assignment_value_node_ne_out_of_fuel _ _ _ _)
          (fun _ _ => by simp)
  | RETURN =>
    simp only
    unfold Interpreter.parse_return_node
    split
    · simp
    · exact Outcome.bind_ne_out_of_fuel
        (Interpreter.parse_assignment_value_node_ne_out_of_fuel _ _ _ _)
        (fun _ _ => by simp)
  | IF_ELSE =>
    simp only
    unfold Interpreter.parse_if_else_node
    split
    · simp
    · split
      · refine Outcome.bind_ne_out_of_fuel
          (Interpreter.parse_binary_operation_node_ne_out_of_fuel _ _ _) ?_
        intro condition _
        refine Outcome.bind_ne_out_of_fuel hbraces ?_
        rintro ⟨if_node, if_interpreter, if_next⟩ hif
        obtain ⟨p1, p2⟩ := Interpreter.parse_braces_block_sound hsound hif
        simp only
        split
        · simp
        · split
          · simp
          · split
            · refine Outcome.bind_ne_out_of_fuel
                (Interpreter.parse_braces_block_ne_out_of_fuel if_interpreter (if_next + 1)
                  (fun end_line => hblock if_interpreter _ end_line p2.1 (by omega))) ?_
              intro _ _
              simp
            · simp
      · simp
  | LONE_FUNCTION_CALL =>
    simp only
    unfold Interpreter.parse_lone_function_call_node
    exact Outcome.bind_ne_out_of_fuel
      (Interpreter.parse_function_call_node_ne_out_of_fuel _ _) (fun _ _ => by simp)
  | FUNCTION_DEFINITION =>
    simp only
    unfold Interpreter.parse_function_definition
    split
    · simp
    · refine Outcome.bind_ne_out_of_fuel
        (Interpreter.get_function_signature_details_ne_out_of_fuel _ _ _) ?_
      intro _ _
      exact Outcome.bind_ne_out_of_fuel hbraces (fun _ _ => by simp)
  | PRINT =>
    simp only
    unfold Interpreter.parse_print_node
    split
    · simp
    · exact Outcome.bind_ne_out_of_fuel
        (Interpreter.parse_assignment_value_node_ne_out_of_fuel _ _ _ _)
        (fun _ _ => by simp)
  | WHILE =>
    simp only
    unfold Interpreter.parse_while_node
    split
    · simp
    · split
      · refine Outcome.bind_ne_out_of_fuel
          (Interpreter.parse_binary_operation_node_ne_out_of_fuel _ _ _) ?_
        intro condition _
        exact Outcome.bind_ne_out_of_fuel hbraces (fun _ _ => by simp)
      · simp

/-- The loop of `parse_block` with a budget above the number of lines left does
not run out of it. -/
theorem Interpreter.parse_block_loop_ne_out_of_fuel {statement : ParseStatement}
    (hsound : ParseStatement.Sound statement) (lines : List Line) (fuel : Nat)
    (hline : ∀ interpreter start_line parsed, statement interpreter start_line = .ok parsed →
      start_line < interpreter.lines.length)
    (hstatement : ∀ interpreter start_line, interpreter.lines = lines →
      lines.length - start_line ≤ fuel → statement interpreter start_line ≠ .out_of_fuel)
    (end_line : Int) :
    ∀ (n : Nat) (interpreter : Interpreter) (start_line : Nat) (nodes : List SyntaxTreeNode),
      interpreter.lines = lines → lines.length - start_line < n →
      lines.length - start_line ≤ fuel →
      Interpreter.parse_block_loop statement n interpreter start_line end_line nodes ≠
        .out_of_fuel := by
  intro n
  induction n with
  | zero => intro interpreter start_line nodes _ h; omega
  | succ n ih =>
    intro interpreter start_line nodes hlines hn hfuel
    rw [Interpreter.parse_block_loop_succ]
    by_cases hle : (start_line : Int) ≤ end_line
    · rw [if_pos hle]
      refine Outcome.bind_ne_out_of_fuel (hstatement interpreter start_line hlines hfuel) ?_
      rintro ⟨node1, interpreter1, next1⟩ h1
      obtain ⟨p1, p2⟩ := hsound interpreter start_line node1 interpreter1 next1 h1
      have hlt := hline interpreter start_line _ h1
      rw [hlines] at hlt
      exact ih interpreter1 next1 _ (p2.1.trans hlines) (by omega) (by omega)
    · rw [if_neg hle]
      simp

theorem Interpreter.parse_single_statement_node_line {block : ParseBlock}
    {interpreter : Interpreter} {start_line : Nat} {parsed : Parsed}
    (h : Interpreter.parse_single_statement_node block interpreter start_line = .ok parsed) :
    start_line < interpreter.lines.length := by
  unfold Interpreter.parse_single_statement_node at h
  obtain ⟨kind, hkind, _⟩ := Outcome.bind_eq_ok h
  exact Interpreter.get_next_statement_node_type_line hkind

/-- Parsing terminates: with a budget above the number of lines from
`start_line` on, `parse_block` does not run out of it. -/
theorem Interpreter.parse_block_ne_out_of_fuel :
    ∀ (fuel : Nat) (interpreter : Interpreter) (start_line : Nat) (end_line : Int),
      interpreter.lines.length - start_line < fuel →
      Interpreter.parse_block fuel interpreter start_line end_line ≠ .out_of_fuel := by
  intro fuel
  induction fuel with
  | zero => intro interpreter start_line end_line h; omega
  | succ fuel ih =>
    intro interpreter start_line end_line hfuel
    rw [Interpreter.parse_block_succ]
    refine Outcome.bind_ne_out_of_fuel ?_ (fun _ _ => by simp)
    refine Interpreter.parse_block_loop_ne_out_of_fuel
      (Interpreter.parse_single_statement_node_sound (Interpreter.parse_block_sound fuel))
      interpreter.lines fuel
      (fun _ _ _ h => Interpreter.parse_single_statement_node_line h) ?_ end_line
      (fuel + 1) interpreter start_line [] rfl hfuel (by omega)
    intro interpreter1 start1 hlines1 hfuel1
    by_cases hlt : start1 < interpreter.lines.length
    · refine Interpreter.parse_single_statement_node_ne_out_of_fuel
        (Interpreter.parse_block_sound fuel) interpreter1 start1 ?_
      intro interpreter2 start2 end2 hlines2 hstart2
      exact ih interpreter2 start2 end2 (by rw [hlines2, hlines1]; omega)
    · intro hout
      cases hresult : Interpreter.get_next_statement_node_type interpreter1 start1 with
      | ok kind =>
        have := Interpreter.get_next_statement_node_type_line hresult
        rw [hlines1] at this
        exact hlt this
      | out_of_fuel =>
        exact Interpreter.get_next_statement_node_type_ne_out_of_fuel _ _ hresult
      | undefined_behaviour =>
        simp [Interpreter.parse_single_statement_node, hresult, Outcome.bind] at hout
      | uncaught_exception =>
        simp [Interpreter.parse_single_statement_node, hresult, Outcome.bind] at hout

/-! ## Well-formed braced blocks -/

theorem brace_delta_of_head {line : Line} {first : Token} (h : line.head? = some first) :
    line ≠ [] ∧ brace_delta line =
      if first = "\x7b" then 1 else if first = "\x7d" then -1 else 0 := by
  refine ⟨fun hnil => ?_, ?_⟩
  · rw [hnil] at h
    cases h
  · simp only [brace_delta, h, Option.some.injEq]

theorem is_simple_line_delta {line : Line} (h : is_simple_line line) :
    line ≠ [] ∧ brace_delta line = 0 := by
  obtain ⟨first, rest, rfl, h1, h2, _⟩ := h
  obtain ⟨h3, h4⟩ := brace_delta_of_head (List.head?_cons (a := first) (l := rest))
  exact ⟨h3, by rw [h4, if_neg h1, if_neg h2]⟩

theorem is_header_line_delta {keyword : Token} {line : Line} (h : is_header_line keyword line)
    (h1 : keyword ≠ "\x7b") (h2 : keyword ≠ "\x7d") : line ≠ [] ∧ brace_delta line = 0 := by
  obtain ⟨rest, rfl, _⟩ := h
  obtain ⟨h3, h4⟩ := brace_delta_of_head (List.head?_cons (a := keyword) (l := rest))
  exact ⟨h3, by rw [h4, if_neg h1, if_neg h2]⟩

theorem closing_brace_loop_step {line : Line} {first : Token} (hhead : line.head? = some first)
    (rest : List Line) (i : Nat) (d : Int) :
    Interpreter.closing_brace_loop (line :: rest) i d =
      if d + (if first = "\x7b" then 1 else if first = "\x7d" then -1 else 0) = 0 then
        .ok (i : Int)
      else Interpreter.closing_brace_loop rest (i + 1)
        (d + (if first = "\x7b" then 1 else if first = "\x7d" then -1 else 0)) := by
  obtain ⟨h1, h2⟩ := brace_delta_of_head hhead
  rw [closing_brace_loop_cons line rest i d h1, h2]

theorem closing_brace_loop_neutral {line : Line} (hline : line ≠ [] ∧ brace_delta line = 0)
    (rest : List Line) (i : Nat) (d : Int) (hd : 1 ≤ d) :
    Interpreter.closing_brace_loop (line :: rest) i d =
      Interpreter.closing_brace_loop rest (i + 1) d := by
  rw [closing_brace_loop_cons line rest i d hline.1, hline.2, if_neg (by omega)]
  simp

theorem closing_brace_loop_open {line : Line} (hline : line.head? = some "\x7b")
    (rest : List Line) (i : Nat) (d : Int) (hd : 1 ≤ d) :
    Interpreter.closing_brace_loop (line :: rest) i d =
      Interpreter.closing_brace_loop rest (i + 1) (d + 1) := by
  rw [closing_brace_loop_step hline]
  simp only [if_true]
  rw [if_neg (by omega)]

theorem closing_brace_loop_close {line : Line} (hline : line.head? = some "\x7d")
    (rest : List Line) (i : Nat) (d : Int) :
    Interpreter.closing_brace_loop (line :: rest) i (d + 1) =
      if d = 0 then .ok (i : Int) else Interpreter.closing_brace_loop rest (i + 1) d := by
  rw [closing_brace_loop_step hline]
  have h1 : ¬("\x7d" = "\x7b") := by decide
  simp only [h1, if_false, if_true]
  have h2 : d + 1 + -1 = d := by ring
  rw [h2]

/-- The loop of `get_closing_brace_line` passes over well-formed lines without
a change of depth. -/
theorem closing_brace_loop_skip {body : List Line} (hwf : WellFormedLines body) :
    ∀ (rest : List Line) (i : Nat) (d : Int), 1 ≤ d →
      Interpreter.closing_brace_loop (body ++ rest) i d =
        Interpreter.closing_brace_loop rest (i + body.length) d := by
  induction hwf with
  | nil => intro rest i d _; simp
  | simple hline _ ih =>
    intro rest i d hd
    rw [List.cons_append, closing_brace_loop_neutral (is_simple_line_delta hline) _ i d hd,
      ih rest (i + 1) d hd]
    congr 1
    simp only [List.length_cons]
    omega
  | @block header open_line close_line body rest0 hheader hopen _ hclose _ ih_body ih_rest =>
    intro rest i d hd
    have hh : header ≠ [] ∧ brace_delta header = 0 := by
      rcases hheader with h | h
      · exact is_header_line_delta h (by decide) (by decide)
      · exact is_header_line_delta h (by decide) (by decide)
    simp only [List.cons_append, List.append_assoc]
    rw [closing_brace_loop_neutral hh _ i d hd, closing_brace_loop_open hopen _ _ d hd,
      ih_body _ _ (d + 1) (by omega), closing_brace_loop_close hclose, if_neg (by omega),
      ih_rest rest _ d hd]
    congr 1
    simp only [List.length_cons, List.length_append]
    omega
  | @if_only header open_line close_line body rest0 hheader hopen _ hclose _ _ ih_body
      ih_rest =>
    intro rest i d hd
    have hh := is_header_line_delta hheader (by decide) (by decide)
    simp only [List.cons_append, List.append_assoc]
    rw [closing_brace_loop_neutral hh _ i d hd, closing_brace_loop_open hopen _ _ d hd,
      ih_body _ _ (d + 1) (by omega), closing_brace_loop_close hclose, if_neg (by omega),
      ih_rest rest _ d hd]
    congr 1
    simp only [List.length_cons, List.length_append]
    omega
  | @if_else header open_line close_line else_line else_open else_close body else_body rest0
      hheader hopen _ hclose helse helse_open _ helse_close _ ih_body ih_else ih_rest =>
    intro rest i d hd
    have hh := is_header_line_delta hheader (by decide) (by decide)
    have he : else_line ≠ [] ∧ brace_delta else_line = 0 := by
      obtain ⟨h3, h4⟩ := brace_delta_of_head helse
      exact ⟨h3, by rw [h4]; decide⟩
    simp only [List.cons_append, List.append_assoc]
    rw [closing_brace_loop_neutral hh _ i d hd, closing_brace_loop_open hopen _ _ d hd,
      ih_body _ _ (d + 1) (by omega), closing_brace_loop_close hclose, if_neg (by omega),
      closing_brace_loop_neutral he _ _ d hd, closing_brace_loop_open helse_open _ _ d hd,
      ih_else _ _ (d + 1) (by omega), closing_brace_loop_close helse_close,
      if_neg (by omega), ih_rest rest _ d hd]
    congr 1
    simp only [List.length_cons, List.length_append]
    omega

/-! ## Parsing well-formed lines -/

theorem line_after_prefix (pre : List Line) (x : Line) (rest : List Line) :
    (pre ++ x :: rest)[pre.length]? = some x := by
  rw [List.getElem?_append_right (Nat.le_refl _)]
  simp

theorem Interpreter.get_closing_brace_line_well_formed {interpreter : Interpreter}
    {pre body post : List Line} {open_line close_line : Line}
    (hlines : interpreter.lines = pre ++ open_line :: (body ++ close_line :: post))
    (hwf : WellFormedLines body) (hclose : close_line.head? = some "\x7d") :
    interpreter.get_closing_brace_line pre.length =
      .ok ((pre.length + 1 + body.length : Nat) : Int) := by
  unfold Interpreter.get_closing_brace_line
  have hdrop : interpreter.lines.drop (pre.length + 1) = body ++ close_line :: post := by
    rw [hlines, ← List.drop_drop, List.drop_left]
    rfl
  rw [hdrop, closing_brace_loop_skip hwf _ _ 1 (by omega)]
  have h := closing_brace_loop_close hclose post (pre.length + 1 + body.length) 0
  simp only [zero_add, if_true] at h
  exact h

theorem Interpreter.parse_block_next_of_loop {interpreter : Interpreter}
    {start_line target : Nat} {end_line : Int}
    (hloop : ∀ (fuel n : Nat) (nodes nodes' : List SyntaxTreeNode)
      (interpreter' : Interpreter) (next : Nat),
      Interpreter.parse_block_loop
        (Interpreter.parse_single_statement_node (Interpreter.parse_block fuel)) n
        interpreter start_line end_line nodes = .ok (nodes', interpreter', next) →
      next = target)
    {fuel : Nat} {node : SyntaxTreeNode} {interpreter' : Interpreter} {next : Nat}
    (h : Interpreter.parse_block fuel interpreter start_line end_line =
      .ok (node, interpreter', next)) : next = target := by
  cases fuel with
  | zero => cases h
  | succ fuel =>
    rw [Interpreter.parse_block_succ] at h
    obtain ⟨⟨nodes1, interpreter1, next1⟩, h1, h2⟩ := Outcome.bind_eq_ok h
    have h3 := Outcome.ok.inj h2
    simp only [Prod.mk.injEq] at h3
    obtain ⟨_, _, h5⟩ := h3
    rw [← h5]
    exact hloop fuel _ _ _ _ _ h1

/-- A braced block of well-formed lines: when the lines inside are parsed up to
the closing brace, the cursor is left just after the closing brace. -/
theorem Interpreter.parse_braces_block_next {interpreter : Interpreter}
    {pre body post : List Line} {open_line close_line : Line}
    (hlines : interpreter.lines = pre ++ open_line :: (body ++ close_line :: post))
    (hwf : WellFormedLines body) (hclose : close_line.head? = some "\x7d")
    (hinner : ∀ (fuel n : Nat) (nodes nodes' : List SyntaxTreeNode)
      (interpreter' : Interpreter) (next : Nat),
      Interpreter.parse_block_loop
        (Interpreter.parse_single_statement_node (Interpreter.parse_block fuel)) n
        interpreter (pre.length + 1) (((pre.length + 1 + body.length : Nat) : Int) - 1)
        nodes = .ok (nodes', interpreter', next) →
      next = pre.length + 1 + body.length)
    {fuel : Nat} {node : SyntaxTreeNode} {interpreter' : Interpreter} {next : Nat}
    (h : Interpreter.parse_braces_block (Interpreter.parse_block fuel) interpreter
      pre.length = .ok (node, interpreter', next)) :
    next = pre.length + body.length + 2 := by
  unfold Interpreter.parse_braces_block at h
  rw [Interpreter.get_closing_brace_line_well_formed hlines hwf hclose, Outcome.bind_ok] at h
  obtain ⟨⟨node1, interpreter1, next1⟩, h1, h2⟩ := Outcome.bind_eq_ok h
  have h3 := Interpreter.parse_block_next_of_loop hinner h1
  have h4 := Outcome.ok.inj h2
  simp only [Prod.mk.injEq] at h4
  obtain ⟨_, _, h5⟩ := h4
  omega

/-- A line classified as If/Else, While or Function Definition begins with the
keyword, and its second token is not `=`. -/
theorem Interpreter.get_next_statement_node_type_compound {interpreter : Interpreter}
    {start_line : Nat} {kind : StatementNodeType}
    (h : interpreter.get_next_statement_node_type start_line = .ok kind)
    (hkind : kind = .IF_ELSE ∨ kind = .WHILE ∨ kind = .FUNCTION_DEFINITION) :
    ∃ first tokens, interpreter.lines[start_line]? = some (first :: tokens) ∧
      tokens.head? ≠ some "=" ∧
      (first = "if" ∨ first = "while" ∨ first = "function") := by
  unfold Interpreter.get_next_statement_node_type at h
  split at h
  · cases h
  · rename_i tokens hline
    split at h
    · rename_i hassign
      have := Outcome.ok.inj h
      subst this
      rcases hkind with hk | hk | hk <;> cases hk
    · rename_i hassign
      cases tokens with
      | nil => simp at h
      | cons first rest =>
        refine ⟨first, rest, hline, ?_, ?_⟩
        · intro hsecond
          apply hassign
          cases rest with
          | nil => simp at hsecond
          | cons second rest => simpa using hsecond
        · simp only [List.head?_cons] at h
          by_cases h1 : first = "if"
          · exact Or.inl h1
          · by_cases h5 : first = "while"
            · exact Or.inr (Or.inl h5)
            · by_cases h4 : first = "function"
              · exact Or.inr (Or.inr h4)
              · exfalso
                by_cases h2 : first = "return"
                · simp [h2] at h
                  subst h
                  rcases hkind with hk | hk | hk <;> cases hk
                · by_cases h3 : first = "print"
                  · simp [h3] at h
                    subst h
                    rcases hkind with hk | hk | hk <;> cases hk
                  · by_cases h6 : interpreter.token_is_function_name first = true
                    · simp [h1, h2, h3, h4, h5, h6] at h
                      subst h
                      rcases hkind with hk | hk | hk <;> cases hk
                    · simp [h1, h2, h3, h4, h5, h6] at h
                      subst h
                      rcases hkind with hk | hk | hk <;> cases hk

theorem Interpreter.get_next_statement_node_type_header {interpreter : Interpreter}
    {start_line : Nat} {keyword : Token} {header : Line}
    (hline : interpreter.lines[start_line]? = some header)
    (hheader : is_header_line keyword header) :
    interpreter.get_next_statement_node_type start_line =
      .ok (if keyword = "if" then .IF_ELSE
        else if keyword = "return" then .RETURN
        else if keyword = "print" then .PRINT
        else if keyword = "function" then .FUNCTION_DEFINITION
        else if keyword = "while" then .WHILE
        else if interpreter.token_is_function_name keyword then .LONE_FUNCTION_CALL
        else .ASSIGNMENT) := by
  obtain ⟨rest, rfl, hsecond⟩ := hheader
  have hassign : ¬(1 < (keyword :: rest).length ∧ (keyword :: rest).get? 1 = some "=") := by
    rintro ⟨_, h2⟩
    cases rest with
    | nil => simp at h2
    | cons second rest => exact hsecond (by simpa using h2)
  unfold Interpreter.get_next_statement_node_type
  rw [hline]
  simp only [hassign, if_false, List.head?_cons]
  repeat' split
  all_goals rfl

/-- A simple line is parsed as one statement: the cursor moves to the next line
and the interpreter is unchanged. -/
theorem Interpreter.parse_simple_line {block : ParseBlock} {interpreter interpreter' :
    Interpreter} {start_line next : Nat} {node : SyntaxTreeNode} {line : Line}
    (hline : interpreter.lines[start_line]? = some line) (hsimple : is_simple_line line)
    (h : Interpreter.parse_single_statement_node block interpreter start_line =
      .ok (node, interpreter', next)) :
    interpreter' = interpreter ∧ next = start_line + 1 := by
  unfold Interpreter.parse_single_statement_node at h
  obtain ⟨kind, hkind, h1⟩ := Outcome.bind_eq_ok h
  have hsingle : ¬(kind = .IF_ELSE ∨ kind = .WHILE ∨ kind = .FUNCTION_DEFINITION) := by
    intro hk
    obtain ⟨first, tokens, hline', hsecond, hfirst⟩ :=
      Interpreter.get_next_statement_node_type_compound hkind hk
    rw [hline] at hline'
    obtain ⟨first', rest', hl, _, _, hor⟩ := hsimple
    rw [hl] at hline'
    have hinj := Option.some.inj hline'
    simp only [List.cons.injEq] at hinj
    obtain ⟨e1, e2⟩ := hinj
    subst e1 e2
    rcases hor with hor | ⟨n1, n2, n3⟩
    · exact hsecond hor
    · rcases hfirst with hf | hf | hf
      · exact n1 hf
      · exact n2 hf
      · exact n3 hf
  cases kind with
  | ASSIGNMENT => exact Interpreter.parse_assignment_node_next h1
  | RETURN => exact Interpreter.parse_return_node_next h1
  | IF_ELSE => exact absurd (Or.inl rfl) hsingle
  | LONE_FUNCTION_CALL => exact Interpreter.parse_lone_function_call_node_next h1
  | FUNCTION_DEFINITION => exact absurd (Or.inr (Or.inr rfl)) hsingle
  | PRINT => exact Interpreter.parse_print_node_next h1
  | WHILE => exact absurd (Or.inr (Or.inl rfl)) hsingle

theorem Interpreter.parse_while_node_braces {block : ParseBlock}
    {interpreter interpreter' : Interpreter} {start_line next : Nat} {node : SyntaxTreeNode}
    (h : Interpreter.parse_while_node block interpreter start_line =
      .ok (node, interpreter', next)) :
    ∃ body, Interpreter.parse_braces_block block interpreter (start_line + 1) =
      .ok (body, interpreter', next) := by
  unfold Interpreter.parse_while_node at h
  split at h
  · cases h
  · split at h
    · obtain ⟨condition, _, h1⟩ := Outcome.bind_eq_ok h
      obtain ⟨⟨body, body_interpreter, body_next⟩, hbody, h2⟩ := Outcome.bind_eq_ok h1
      have h3 := Outcome.ok.inj h2
      simp only [Prod.mk.injEq] at h3
      obtain ⟨_, h4, h5⟩ := h3
      subst h4 h5
      exact ⟨body, hbody⟩
    · cases h

theorem Interpreter.parse_function_definition_braces {block : ParseBlock}
    {interpreter interpreter' : Interpreter} {start_line next : Nat} {node : SyntaxTreeNode}
    (h : Interpreter.parse_function_definition block interpreter start_line =
      .ok (node, interpreter', next)) :
    ∃ body body_interpreter,
      Interpreter.parse_braces_block block interpreter (start_line + 1) =
        .ok (body, body_interpreter, next) := by
  unfold Interpreter.parse_function_definition at h
  split at h
  · cases h
  · obtain ⟨details, _, h1⟩ := Outcome.bind_eq_ok h
    obtain ⟨⟨body, body_interpreter, body_next⟩, hbody, h2⟩ := Outcome.bind_eq_ok h1
    have h3 := Outcome.ok.inj h2
    simp only [Prod.mk.injEq] at h3
    obtain ⟨_, _, h5⟩ := h3
    subst h5
    exact ⟨body, body_interpreter, hbody⟩

theorem Interpreter.parse_if_else_node_braces {block : ParseBlock}
    {interpreter interpreter' : Interpreter} {start_line next : Nat} {node : SyntaxTreeNode}
    (h : Interpreter.parse_if_else_node block interpreter start_line =
      .ok (node, interpreter', next)) :
    ∃ if_node if_interpreter if_next,
      Interpreter.parse_braces_block block interpreter (start_line + 1) =
        .ok (if_node, if_interpreter, if_next) ∧
      ((next = if_next ∧
          ∀ line, if_interpreter.lines[if_next]? = some line → line.head? ≠ some "else") ∨
        ((∃ line, if_interpreter.lines[if_next]? = some line ∧ line.head? = some "else") ∧
          ∃ else_node, Interpreter.parse_braces_block block if_interpreter (if_next + 1) =
            .ok (else_node, interpreter', next))) := by
  unfold Interpreter.parse_if_else_node at h
  split at h
  · cases h
  · split at h
    · obtain ⟨condition, _, h1⟩ := Outcome.bind_eq_ok h
      obtain ⟨⟨if_node, if_interpreter, if_next⟩, hif, h2⟩ := Outcome.bind_eq_ok h1
      refine ⟨if_node, if_interpreter, if_next, hif, ?_⟩
      simp only at h2
      split at h2
      · rename_i hnone
        have h3 := Outcome.ok.inj h2
        simp only [Prod.mk.injEq] at h3
        obtain ⟨_, _, h5⟩ := h3
        refine Or.inl ⟨h5.symm, fun line hl => ?_⟩
        rw [hnone] at hl
        cases hl
      · rename_i next_line hsome
        split at h2
        · cases h2
        · rename_i first hfirst
          split at h2
          · rename_i helse
            obtain ⟨⟨else_node, else_interpreter, else_next⟩, helse_block, h3⟩ :=
              Outcome.bind_eq_ok h2
            have h4 := Outcome.ok.inj h3
            simp only [Prod.mk.injEq] at h4
            obtain ⟨_, h5, h6⟩ := h4
            subst h5 h6
            exact Or.inr ⟨⟨next_line, hsome, by rw [hfirst, helse]⟩, else_node, helse_block⟩
          · rename_i helse
            have h3 := Outcome.ok.inj h2
            simp only [Prod.mk.injEq] at h3
            obtain ⟨_, _, h5⟩ := h3
            refine Or.inl ⟨h5.symm, fun line hl => ?_⟩
            rw [hsome] at hl
            have := Option.some.inj hl
            subst this
            rw [hfirst]
            intro hh
            exact helse (Option.some.inj hh)
    · cases h

theorem Interpreter.line_at {interpreter : Interpreter} {pre rest : List Line} {x : Line}
    {k : Nat} (hlines : interpreter.lines = pre ++ x :: rest) (hk : k = pre.length) :
    interpreter.lines[k]? = some x := by
  rw [hlines, hk]
  exact line_after_prefix pre x rest

theorem Interpreter.parse_block_loop_iterate {statement : ParseStatement} {n : Nat}
    {interpreter interpreter' : Interpreter} {start_line next : Nat} {end_line : Int}
    {nodes nodes' : List SyntaxTreeNode}
    (h : Interpreter.parse_block_loop statement n interpreter start_line end_line nodes =
      .ok (nodes', interpreter', next))
    (hle : (start_line : Int) ≤ end_line) :
    ∃ m node1 interpreter1 next1,
      statement interpreter start_line = .ok (node1, interpreter1, next1) ∧
      Interpreter.parse_block_loop statement m interpreter1 next1 end_line
        (nodes ++ [node1]) = .ok (nodes', interpreter', next) := by
  cases n with
  | zero => cases h
  | succ m =>
    rw [Interpreter.parse_block_loop_succ, if_pos hle] at h
    obtain ⟨⟨node1, interpreter1, next1⟩, h1, h2⟩ := Outcome.bind_eq_ok h
    exact ⟨m, node1, interpreter1, next1, h1, h2⟩

theorem Interpreter.parse_block_loop_stop {statement : ParseStatement} {n : Nat}
    {interpreter interpreter' : Interpreter} {start_line next : Nat} {end_line : Int}
    {nodes nodes' : List SyntaxTreeNode}
    (h : Interpreter.parse_block_loop statement n interpreter start_line end_line nodes =
      .ok (nodes', interpreter', next))
    (hgt : ¬(start_line : Int) ≤ end_line) : next = start_line := by
  cases n with
  | zero => cases h
  | succ m =>
    rw [Interpreter.parse_block_loop_succ, if_neg hgt] at h
    have h3 := Outcome.ok.inj h
    simp only [Prod.mk.injEq] at h3
    exact h3.2.2.symm

/-- The statement at a header line followed by a `{` line, well-formed lines
and a `}` line: the block after the header is parsed up to just after the
`}` line. -/
theorem Interpreter.parse_braces_block_after_header {interpreter : Interpreter}
    {pre body post : List Line} {header open_line close_line : Line} {a : Nat}
    (hlines : interpreter.lines =
      pre ++ (header :: open_line :: (body ++ close_line :: post)))
    (ha : a = pre.length) (hwf : WellFormedLines body)
    (hclose : close_line.head? = some "\x7d")
    (ih : ∀ (fuel n : Nat) (pre post : List Line) (interpreter : Interpreter) (a : Nat)
      (e : Int) (nodes nodes' : List SyntaxTreeNode) (interpreter' : Interpreter)
      (next : Nat), interpreter.lines = pre ++ (body ++ post) → a = pre.length →
      e = ((a + body.length : Nat) : Int) - 1 →
      (∀ line ∈ post.head?, line.head? ≠ some "else") →
      Interpreter.parse_block_loop
        (Interpreter.parse_single_statement_node (Interpreter.parse_block fuel)) n
        interpreter a e nodes = .ok (nodes', interpreter', next) →
      next = a + body.length)
    {fuel : Nat} {node : SyntaxTreeNode} {interpreter' : Interpreter} {next : Nat}
    (h : Interpreter.parse_braces_block (Interpreter.parse_block fuel) interpreter (a + 1) =
      .ok (node, interpreter', next)) :
    next = a + body.length + 3 := by
  have e1 : a + 1 = (pre ++ [header]).length := by simp [ha]
  rw [e1] at h
  have hlines1 : interpreter.lines =
      (pre ++ [header]) ++ open_line :: (body ++ close_line :: post) := by
    simp [hlines]
  have h2 := Interpreter.parse_braces_block_next hlines1 hwf hclose
    (fun fuel n nodes nodes' interpreter' next hloop =>
      ih fuel n (pre ++ [header, open_line]) (close_line :: post) interpreter _ _ nodes nodes'
        interpreter' next (by simp [hlines]) (by simp) rfl
        (by
          intro line hl
          simp only [List.head?_cons, Option.mem_def, Option.some.injEq] at hl
          subst hl
          rw [hclose]
          decide) hloop) h
  rw [h2]
  simp
  omega

/-- Parsing well-formed lines as the statements of a block ends exactly after
the last of them, whatever the budgets and the function table. -/
theorem Interpreter.parse_block_loop_well_formed {body : List Line}
    (hwf : WellFormedLines body) :
    ∀ (fuel n : Nat) (pre post : List Line) (interpreter : Interpreter) (a : Nat)
      (e : Int) (nodes nodes' : List SyntaxTreeNode) (interpreter' : Interpreter)
      (next : Nat), interpreter.lines = pre ++ (body ++ post) → a = pre.length →
      e = ((a + body.length : Nat) : Int) - 1 →
      (∀ line ∈ post.head?, line.head? ≠ some "else") →
      Interpreter.parse_block_loop
        (Interpreter.parse_single_statement_node (Interpreter.parse_block fuel)) n
        interpreter a e nodes = .ok (nodes', interpreter', next) →
      next = a + body.length := by
  induction hwf with
  | nil =>
    intro fuel n pre post interpreter a e nodes nodes' interpreter' next _ _ he _ h
    have := Interpreter.parse_block_loop_stop h (by rw [he]; simp)
    simpa using this
  | @simple line rest hline _ ih =>
    intro fuel n pre post interpreter a e nodes nodes' interpreter' next hlines ha he hpost h
    obtain ⟨m, node1, interpreter1, next1, h1, h2⟩ :=
      Interpreter.parse_block_loop_iterate h (by rw [he]; simp; omega)
    have hat : interpreter.lines[a]? = some line :=
      Interpreter.line_at (by simpa using hlines) ha
    obtain ⟨e1, e2⟩ := Interpreter.parse_simple_line hat hline h1
    rw [e1, e2] at h2
    have h3 := ih fuel m (pre ++ [line]) post interpreter (a + 1) e _ nodes' interpreter'
      next (by simp [hlines]) (by simp [ha]) (by rw [he]; simp; omega) hpost h2
    rw [h3]
    simp
    omega
  | @block header open_line close_line body rest hheader hopen hbody hclose _ ih_body
      ih_rest =>
    intro fuel n pre post interpreter a e nodes nodes' interpreter' next hlines ha he hpost h
    obtain ⟨m, node1, interpreter1, next1, h1, h2⟩ :=
      Interpreter.parse_block_loop_iterate h (by rw [he]; simp; omega)
    have hat : interpreter.lines[a]? = some header :=
      Interpreter.line_at (by simpa using hlines) ha
    have hsound := Interpreter.parse_single_statement_node_sound
      (Interpreter.parse_block_sound fuel) interpreter a node1 interpreter1 next1 h1
    have hlines' : interpreter.lines =
        pre ++ (header :: open_line :: (body ++ close_line :: (rest ++ post))) := by
      simp [hlines]
    have hnext1 : next1 = a + body.length + 3 := by
      unfold Interpreter.parse_single_statement_node at h1
      rcases hheader with hw | hf
      · rw [Interpreter.get_next_statement_node_type_header hat hw, Outcome.bind_ok] at h1
        simp only [String.reduceEq, if_false, if_true] at h1
        obtain ⟨b, hb⟩ := Interpreter.parse_while_node_braces h1
        exact Interpreter.parse_braces_block_after_header hlines' ha hbody hclose ih_body hb
      · rw [Interpreter.get_next_statement_node_type_header hat hf, Outcome.bind_ok] at h1
        simp only [String.reduceEq, if_false, if_true] at h1
        obtain ⟨b, bi, hb⟩ := Interpreter.parse_function_definition_braces h1
        exact Interpreter.parse_braces_block_after_header hlines' ha hbody hclose ih_body hb
    have h3 := ih_rest fuel m (pre ++ header :: open_line :: (body ++ [close_line])) post
      interpreter1 next1 e _ nodes' interpreter' next
      (by rw [hsound.2.1, hlines]; simp) (by rw [hnext1, ha]; simp; omega)
      (by rw [he, hnext1]; simp; omega) hpost h2
    rw [h3, hnext1]
    simp
    omega
  | @if_only header open_line close_line body rest hheader hopen hbody hclose _ hnext ih_body
      ih_rest =>
    intro fuel n pre post interpreter a e nodes nodes' interpreter' next hlines ha he hpost h
    obtain ⟨m, node1, interpreter1, next1, h1, h2⟩ :=
      Interpreter.parse_block_loop_iterate h (by rw [he]; simp; omega)
    have hat : interpreter.lines[a]? = some header :=
      Interpreter.line_at (by simpa using hlines) ha
    have hsound := Interpreter.parse_single_statement_node_sound
      (Interpreter.parse_block_sound fuel) interpreter a node1 interpreter1 next1 h1
    have hlines' : interpreter.lines =
        pre ++ (header :: open_line :: (body ++ close_line :: (rest ++ post))) := by
      simp [hlines]
    have hnext1 : next1 = a + body.length + 3 := by
      unfold Interpreter.parse_single_statement_node at h1
      rw [Interpreter.get_next_statement_node_type_header hat hheader, Outcome.bind_ok] at h1
      simp only [if_true] at h1
      obtain ⟨if_node, if_interpreter, if_next, hif, hor⟩ :=
        Interpreter.parse_if_else_node_braces h1
      have hif_next :=
        Interpreter.parse_braces_block_after_header hlines' ha hbody hclose ih_body hif
      have hif_lines := (Interpreter.parse_braces_block_sound
        (Interpreter.parse_block_sound fuel) hif).2.1
      rcases hor with ⟨hn, _⟩ | ⟨⟨line, hl, helse⟩, _⟩
      · rw [hn, hif_next]
      · exfalso
        rw [hif_lines, hlines] at hl
        have hk : if_next = (pre ++ header :: open_line :: (body ++ [close_line])).length := by
          rw [hif_next, ha]
          simp
          omega
        cases rest with
        | nil =>
          cases post with
          | nil =>
            rw [hk] at hl
            have hnone : (pre ++ (header :: open_line :: (body ++ close_line :: []) ++ []))[
                (pre ++ header :: open_line :: (body ++ [close_line])).length]? = none := by
              apply List.getElem?_eq_none
              simp
            rw [hnone] at hl
            cases hl
          | cons p post =>
            have hp : (pre ++ (header :: open_line :: (body ++ close_line :: []) ++ p :: post))[
                if_next]? = some p := by
              have : pre ++ (header :: open_line :: (body ++ close_line :: []) ++ p :: post) =
                  (pre ++ header :: open_line :: (body ++ [close_line])) ++ p :: post := by
                simp
              rw [this, hk]
              exact line_after_prefix _ p post
            rw [hp] at hl
            have := Option.some.inj hl
            subst this
            exact hpost _ rfl helse
        | cons r rest =>
          have hr : (pre ++ (header :: open_line :: (body ++ close_line :: r :: rest) ++
              post))[if_next]? = some r := by
            have : pre ++ (header :: open_line :: (body ++ close_line :: r :: rest) ++ post) =
                (pre ++ header :: open_line :: (body ++ [close_line])) ++ r :: (rest ++ post) := by
              simp
            rw [this, hk]
            exact line_after_prefix _ r _
          rw [hr] at hl
          have := Option.some.inj hl
          subst this
          exact hnext _ rfl helse
    have h3 := ih_rest fuel m (pre ++ header :: open_line :: (body ++ [close_line])) post
      interpreter1 next1 e _ nodes' interpreter' next
      (by rw [hsound.2.1, hlines]; simp) (by rw [hnext1, ha]; simp; omega)
      (by rw [he, hnext1]; simp; omega) hpost h2
    rw [h3, hnext1]
    simp
    omega
  | @if_else header open_line close_line else_line else_open else_close body else_body rest
      hheader hopen hbody hclose helse helse_open helse_body helse_close _ ih_body ih_else
      ih_rest =>
    intro fuel n pre post interpreter a e nodes nodes' interpreter' next hlines ha he hpost h
    obtain ⟨m, node1, interpreter1, next1, h1, h2⟩ :=
      Interpreter.parse_block_loop_iterate h (by rw [he]; simp; omega)
    have hat : interpreter.lines[a]? = some header :=
      Interpreter.line_at (by simpa using hlines) ha
    have hsound := Interpreter.parse_single_statement_node_sound
      (Interpreter.parse_block_sound fuel) interpreter a node1 interpreter1 next1 h1
    have hlines' : interpreter.lines =
        pre ++ (header :: open_line :: (body ++ close_line :: (else_line :: else_open ::
          (else_body ++ else_close :: (rest ++ post))))) := by
      simp [hlines]
    have hnext1 : next1 = a + body.length + else_body.length + 6 := by
      unfold Interpreter.parse_single_statement_node at h1
      rw [Interpreter.get_next_statement_node_type_header hat hheader, Outcome.bind_ok] at h1
      simp only [if_true] at h1
      obtain ⟨if_node, if_interpreter, if_next, hif, hor⟩ :=
        Interpreter.parse_if_else_node_braces h1
      have hif_next :=
        Interpreter.parse_braces_block_after_header hlines' ha hbody hclose ih_body hif
      have hif_lines := (Interpreter.parse_braces_block_sound
        (Interpreter.parse_block_sound fuel) hif).2.1
      have hlines2 : if_interpreter.lines =
          (pre ++ header :: open_line :: (body ++ [close_line])) ++
            (else_line :: else_open :: (else_body ++ else_close :: (rest ++ post))) := by
        rw [hif_lines, hlines]
        simp
      have hk : if_next = (pre ++ header :: open_line :: (body ++ [close_line])).length := by
        rw [hif_next, ha]
        simp
        omega
      rcases hor with ⟨_, hno⟩ | ⟨_, else_node, helse_block⟩
      · exact absurd helse (hno else_line (Interpreter.line_at hlines2 hk))
      · have := Interpreter.parse_braces_block_after_header hlines2 hk helse_body helse_close
          ih_else helse_block
        rw [this, hif_next]
        omega
    have h3 := ih_rest fuel m
      (pre ++ header :: open_line :: (body ++ close_line :: else_line :: else_open ::
        (else_body ++ [else_close]))) post
      interpreter1 next1 e _ nodes' interpreter' next
      (by rw [hsound.2.1, hlines]; simp) (by rw [hnext1, ha]; simp; omega)
      (by rw [he, hnext1]; simp; omega) hpost h2
    rw [h3, hnext1]
    simp
    omega

theorem Interpreter.parse_single_statement_node_terminates (fuel : Nat)
    (interpreter : Interpreter) (start_line : Nat)
    (hfuel : interpreter.lines.length - start_line ≤ fuel) :
    Interpreter.parse_single_statement_node (Interpreter.parse_block fuel) interpreter
      start_line ≠ .out_of_fuel := by
  by_cases hlt : start_line < interpreter.lines.length
  · refine Interpreter.parse_single_statement_node_ne_out_of_fuel
      (Interpreter.parse_block_sound fuel) interpreter start_line ?_
    intro interpreter2 start2 end2 hlines2 hstart2
    exact Interpreter.parse_block_ne_out_of_fuel fuel interpreter2 start2 end2
      (by rw [hlines2]; omega)
  · intro hout
    cases hresult : Interpreter.get_next_statement_node_type interpreter start_line with
    | ok kind => exact hlt (Interpreter.get_next_statement_node_type_line hresult)
    | out_of_fuel =>
      exact Interpreter.get_next_statement_node_type_ne_out_of_fuel _ _ hresult
    | undefined_behaviour =>
      simp [Interpreter.parse_single_statement_node, hresult, Outcome.bind] at hout
    | uncaught_exception =>
      simp [Interpreter.parse_single_statement_node, hresult, Outcome.bind] at hout

/-- The loop of `parse_block(start, end)` makes at most `end - start + 1`
iterations: a budget above that is not used up. -/
theorem Interpreter.parse_block_loop_iterations (fuel : Nat) (lines : List Line)
    (end_line : Int) :
    ∀ (n : Nat) (interpreter : Interpreter) (start_line : Nat) (nodes : List SyntaxTreeNode),
      interpreter.lines = lines → lines.length - start_line ≤ fuel → 0 < n →
      end_line - (start_line : Int) + 1 < (n : Int) →
      Interpreter.parse_block_loop
        (Interpreter.parse_single_statement_node (Interpreter.parse_block fuel)) n
        interpreter start_line end_line nodes ≠ .out_of_fuel := by
  intro n
  induction n with
  | zero => intro interpreter start_line nodes _ _ h; omega
  | succ n ih =>
    intro interpreter start_line nodes hlines hfuel _ hn
    rw [Interpreter.parse_block_loop_succ]
    by_cases hle : (start_line : Int) ≤ end_line
    · rw [if_pos hle]
      refine Outcome.bind_ne_out_of_fuel (Interpreter.parse_single_statement_node_terminates
        fuel interpreter start_line (by rw [hlines]; exact hfuel)) ?_
      rintro ⟨node1, interpreter1, next1⟩ h1
      obtain ⟨p1, p2⟩ := Interpreter.parse_single_statement_node_sound
        (Interpreter.parse_block_sound fuel) interpreter start_line node1 interpreter1 next1 h1
      exact ih interpreter1 next1 _ (p2.1.trans hlines) (by omega) (by omega) (by omega)
    · rw [if_neg hle]
      simp
/-! ## Argument tokens that are operands -/

theorem Interpreter.parse_argument_tokens_operands (tokens : List Token)
    (h : ∀ token ∈ tokens, starts_with_digit token = true →
      leading_digits_value token ≤ 2147483647) :
    ∃ argument_nodes, Interpreter.parse_argument_tokens tokens = .ok argument_nodes := by
  induction tokens with
  | nil => exact ⟨[], rfl⟩
  | cons token rest ih =>
    obtain ⟨nodes, hnodes⟩ := ih (fun t ht => h t (List.mem_cons_of_mem _ ht))
    have hnode : ∃ node, Interpreter.parse_operand_token token = .ok node := by
      by_cases hd : starts_with_digit token = true
      · refine ⟨literal (leading_digits_value token), ?_⟩
        rw [Interpreter.parse_operand_token_digit hd,
          if_pos (h token (List.mem_cons_self _ _) hd)]
      · exact ⟨identifier token,
          Interpreter.parse_operand_token_identifier (by simpa using hd)⟩
    obtain ⟨node, hnode⟩ := hnode
    refine ⟨node :: nodes, ?_⟩
    unfold Interpreter.parse_argument_tokens
    rw [hnode, Outcome.bind_ok, hnodes, Outcome.bind_ok]


/-! ## Operands do not change the state -/

theorem SyntaxTreeNode.evaluate_operand_state {fuel : Nat} {node : SyntaxTreeNode}
    {state state' : ProgramState} {r : EvaluationResult}
    (hnode : node.node_type = .OPERAND)
    (h : SyntaxTreeNode.evaluate fuel node state = .ok (r, state')) : state' = state := by
  cases fuel with
  | zero => simp [SyntaxTreeNode.evaluate] at h
  | succ fuel =>
    cases node with
    | OperandNode operand_type identifier_value literal_value =>
      cases operand_type with
      | IDENTIFIER =>
        rw [SyntaxTreeNode.evaluate_identifier] at h
        obtain ⟨v, _, hf⟩ := Outcome.bind_eq_ok h
        exact ((Prod.mk.inj (Outcome.ok.inj hf)).2).symm
      | LITERAL =>
        rw [SyntaxTreeNode.evaluate_literal] at h
        exact ((Prod.mk.inj (Outcome.ok.inj h)).2).symm
    | _ => simp [SyntaxTreeNode.node_type] at hnode

theorem evaluate_arguments_operands_state {fuel : Nat} :
    ∀ (arguments : List (String × SyntaxTreeNode)) (argument_values values : StdMap Int)
      (state state' : ProgramState),
      (∀ argument ∈ arguments, argument.2.node_type = .OPERAND) →
      evaluate_arguments (SyntaxTreeNode.evaluate fuel) arguments argument_values state =
        .ok (values, state') → state' = state := by
  intro arguments
  induction arguments with
  | nil =>
    intro argument_values values state state' _ h
    simp only [evaluate_arguments] at h
    exact ((Prod.mk.inj (Outcome.ok.inj h)).2).symm
  | cons argument rest ih =>
    intro argument_values values state state' hargs h
    simp only [evaluate_arguments] at h
    obtain ⟨a, ha, hf⟩ := Outcome.bind_eq_ok h
    have h1 : a.2 = state :=
      SyntaxTreeNode.evaluate_operand_state (hargs argument (List.mem_cons_self _ _)) ha
    have h2 := ih _ values a.2 state' (fun x hx => hargs x (List.mem_cons_of_mem _ hx)) hf
    rw [h2, h1]

/-! ## The claims -/

/-- C1: a Function-Call evaluation that terminates, started with `d` frames,
leaves the first `d` frames of the Scope Stack exactly as they were, whatever
the body does (blocks, loops, nested calls, early returns). The arguments are
Operand nodes, as `parse_function_call_node` builds them. -/
theorem function_call_keeps_caller_frames (fuel : Nat) (body : SyntaxTreeNode)
    (arguments : List (String × SyntaxTreeNode)) (state state' : ProgramState)
    (r : EvaluationResult)
    (hargs : ∀ argument ∈ arguments, argument.2.node_type = .OPERAND)
    (h : SyntaxTreeNode.evaluate fuel (.FunctionNode body arguments) state = .ok (r, state')) :
    state.vars.scoped_variables.length ≤ state'.vars.scoped_variables.length ∧
      state'.vars.scoped_variables.take state.vars.scoped_variables.length =
        state.vars.scoped_variables ∧
      ∀ i, i < state.vars.scoped_variables.length →
        state'.vars.scoped_variables[i]? = state.vars.scoped_variables[i]? := by
  cases fuel with
  | zero => simp [SyntaxTreeNode.evaluate] at h
  | succ fuel =>
    rw [SyntaxTreeNode.evaluate_function] at h
    obtain ⟨s1, hs1, hf⟩ := Outcome.bind_eq_ok h
    obtain ⟨res, hres, hg⟩ := Outcome.bind_eq_ok hf
    obtain ⟨v, hv, hk⟩ := Outcome.bind_eq_ok hg
    unfold function_call_entry at hs1
    obtain ⟨a, ha, hs2⟩ := Outcome.bind_eq_ok hs1
    obtain ⟨w, hw, hs3⟩ := Outcome.bind_eq_ok hs2
    have ha2 : a.2 = state := evaluate_arguments_operands_state arguments [] a.1 state a.2 hargs ha
    rw [ha2] at hw hs3
    have hs1vars : s1.vars = w := by rw [← Outcome.ok.inj hs3]
    have h2 := assign_argument_values_extends a.1 _ w
      (Variables.enter_function_scope_wellFormed state.vars) hw
    have h3 := SyntaxTreeNode.evaluate_sound fuel body s1 res.1 res.2 hres
      (by rw [hs1vars]; exact h2.wellFormed (Variables.enter_function_scope_wellFormed _))
    rw [hs1vars] at h3
    obtain ⟨-, k2, k3⟩ := Variables.function_scope_frames (h2.trans h3) hv
    have hstate' : state'.vars = v := by rw [← (Prod.mk.inj (Outcome.ok.inj hk)).2]
    rw [hstate']
    refine ⟨k2, k3, ?_⟩
    intro i hi
    have h4 := congrArg (fun frames => frames[i]?) k3
    simp only [List.getElem?_take, if_pos hi] at h4
    exact h4

/-- The witness of C1: a call whose body returns from inside a `while`, with a
caller variable `x`. -/
theorem function_call_keeps_caller_frames_witness :
    SyntaxTreeNode.evaluate 10 (.FunctionNode returning_while_body [("a", literal 1)])
        { vars := { scoped_variables := [[("x", 7)]], function_scope_indices := [0] },
          cout := [] } =
      .ok ({ return_value := 1 },
        { vars := { scoped_variables := [[("x", 7)], [("a", 1)]],
                    function_scope_indices := [0] }, cout := [] }) ∧
    (1 ≤ 2 ∧ List.take 1 [[("x", (7 : Int))], [("a", 1)]] = [[("x", 7)]] ∧
      ∀ i, i < 1 →
        [[("x", (7 : Int))], [("a", 1)]][i]? = [[("x", (7 : Int))]][i]?) :=
  ⟨by decide,
   function_call_keeps_caller_frames 10 returning_while_body [("a", literal 1)]
    { vars := { scoped_variables := [[("x", 7)]], function_scope_indices := [0] }, cout := [] }
    { vars := { scoped_variables := [[("x", 7)], [("a", 1)]], function_scope_indices := [0] },
      cout := [] }
    { return_value := 1 } (by decide) (by decide)⟩

/-- C2, the failing input: after the call `f ( 1 )` of
`function f ( a ) { while ( a == a ) { return a } }` from the initial
environment the boundary stack is restored but the Scope Stack has two frames
instead of one: the frame popped by `exit_function_scope` is the one the
`while` left behind, and the parameter frame stays. The caller then reads the
parameter: `print ( a )` prints 1. -/
theorem function_call_leaves_frame_after_while_return :
    SyntaxTreeNode.evaluate 10 (.FunctionNode returning_while_body [("a", literal 1)])
        ProgramState.initial =
      .ok ({ return_value := 1 },
        { vars := { scoped_variables := [[], [("a", 1)]], function_scope_indices := [0] },
          cout := [] }) ∧
    SyntaxTreeNode.evaluate 10 leaking_call_program ProgramState.initial =
      .ok ({},
        { vars := { scoped_variables := [[], [("a", 1), ("x", 1)]],
                    function_scope_indices := [0] },
          cout := [1] }) := by
  constructor <;> decide

/-- C3: with a top boundary `b` that is a valid frame index, the write
`assign_variable_and_initialize_if_necessary` changes one binding, in one frame
`j` with `b <= j`: the innermost visible frame that binds the name (no binding
is created, the other names of the frame keep their values), or the innermost
frame when no visible frame binds it. Every other frame (all frames below `b`
among them), the depth and the boundary stack are unchanged. -/
theorem assign_changes_exactly_one_binding (vars : Variables) (name : String) (value : Int)
    (b : Nat) (rest : List Nat) (hb : vars.function_scope_indices = b :: rest)
    (hlt : b < vars.scoped_variables.length) :
    ∃ (vars' : Variables) (j : Nat),
      vars.assign_variable_and_initialize_if_necessary name value = .ok vars' ∧
      b ≤ j ∧ j < vars.scoped_variables.length ∧
      (((vars.binding j name).isSome = true ∧
          ∀ i, j < i → i < vars.scoped_variables.length → vars.binding i name = none) ∨
        (j = vars.scoped_variables.length - 1 ∧
          ∀ i, b ≤ i → i < vars.scoped_variables.length → vars.binding i name = none)) ∧
      vars'.binding j name = some value ∧
      (∀ other, other ≠ name → vars'.binding j other = vars.binding j other) ∧
      (∀ i, i ≠ j → vars'.scoped_variables[i]? = vars.scoped_variables[i]?) ∧
      vars'.scoped_variables.take b = vars.scoped_variables.take b ∧
      vars'.scoped_variables.length = vars.scoped_variables.length ∧
      vars'.function_scope_indices = vars.function_scope_indices := by
  obtain ⟨j, h1, h2, h3, h4⟩ := Variables.assign_variable_eq vars name value b rest hb hlt
  have hext := Variables.assign_extends ⟨b, rest, hb, hlt⟩ h4
  refine ⟨_, j, h4, h1, h2, h3, ?_, ?_, ?_, ?_, hext.2, hext.1.1⟩
  · simp only [Variables.binding, List.getD_eq_getElem?_getD, List.getElem?_set_self h2,
      Option.getD_some]
    exact StdMap.find_assign_self _ _ _
  · intro other hne
    simp only [Variables.binding, List.getD_eq_getElem?_getD, List.getElem?_set_self h2,
      Option.getD_some]
    exact StdMap.find_assign_of_ne _ _ _ _ hne
  · intro i hi
    exact List.getElem?_set_ne (Ne.symm hi)
  · exact hext.1.2.2 b (by rw [hb]; rfl)

/-- The witness of C3: inside a function scope with boundary 1 the name `x`,
bound only in the caller's frame 0, is created in the innermost frame. -/
theorem assign_changes_exactly_one_binding_witness :
    ∃ (vars' : Variables) (j : Nat),
      callee_variables.assign_variable_and_initialize_if_necessary "x" 5 = .ok vars' ∧
      1 ≤ j ∧ j < callee_variables.scoped_variables.length ∧
      (((callee_variables.binding j "x").isSome = true ∧
          ∀ i, j < i → i < callee_variables.scoped_variables.length →
            callee_variables.binding i "x" = none) ∨
        (j = callee_variables.scoped_variables.length - 1 ∧
          ∀ i, 1 ≤ i → i < callee_variables.scoped_variables.length →
            callee_variables.binding i "x" = none)) ∧
      vars'.binding j "x" = some 5 ∧
      (∀ other, other ≠ "x" → vars'.binding j other = callee_variables.binding j other) ∧
      (∀ i, i ≠ j → vars'.scoped_variables[i]? = callee_variables.scoped_variables[i]?) ∧
      vars'.scoped_variables.take 1 = callee_variables.scoped_variables.take 1 ∧
      vars'.scoped_variables.length = callee_variables.scoped_variables.length ∧
      vars'.function_scope_indices = callee_variables.function_scope_indices :=
  assign_changes_exactly_one_binding callee_variables "x" 5 1 [0] rfl (by decide)

/-- C4: the result of a Function-Call has `should_return = false`, whatever the
body did; so when the call, an assignment of the call or a print of the call
is a child of a Statement-Sequence, the sequence goes on with the children
after it, from the state the child left. -/
theorem function_call_absorbs_return (fuel : Nat) (body : SyntaxTreeNode)
    (arguments : List (String × SyntaxTreeNode)) (variable_name : String)
    (node : SyntaxTreeNode) (rest : List SyntaxTreeNode) (state state' : ProgramState)
    (r : EvaluationResult)
    (hnode : node = .FunctionNode body arguments ∨
      node = .AssignmentNode variable_name (.FunctionNode body arguments) ∨
      node = .PrintNode (.FunctionNode body arguments))
    (h : SyntaxTreeNode.evaluate fuel node state = .ok (r, state')) :
    r.should_return = false ∧
      SyntaxTreeNode.evaluate (fuel + 1) (.StatementSequenceNode (node :: rest)) state =
        SyntaxTreeNode.evaluate (fuel + 1) (.StatementSequenceNode rest) state' := by
  have hr : r.should_return = false := by
    cases fuel with
    | zero => simp [SyntaxTreeNode.evaluate] at h
    | succ fuel =>
      rcases hnode with hn | hn | hn
      · rw [hn, SyntaxTreeNode.evaluate_function] at h
        obtain ⟨s1, _, hf⟩ := Outcome.bind_eq_ok h
        obtain ⟨res, _, hg⟩ := Outcome.bind_eq_ok hf
        obtain ⟨v, _, hk⟩ := Outcome.bind_eq_ok hg
        rw [← (Prod.mk.inj (Outcome.ok.inj hk)).1]
      · rw [hn, SyntaxTreeNode.evaluate_assignment] at h
        obtain ⟨a, _, hf⟩ := Outcome.bind_eq_ok h
        obtain ⟨v, _, hk⟩ := Outcome.bind_eq_ok hf
        rw [← (Prod.mk.inj (Outcome.ok.inj hk)).1]
      · rw [hn, SyntaxTreeNode.evaluate_print] at h
        obtain ⟨a, _, hf⟩ := Outcome.bind_eq_ok h
        rw [← (Prod.mk.inj (Outcome.ok.inj hf)).1]
  refine ⟨hr, ?_⟩
  rw [SyntaxTreeNode.evaluate_sequence, SyntaxTreeNode.evaluate_sequence,
    evaluate_statements_cons, h, Outcome.bind_ok]
  simp [hr]

/-- The witness of C4: after the call of a function whose body is `return 5`,
the `print ( 7 )` that follows it in the sequence is evaluated. -/
theorem function_call_absorbs_return_witness :
    ({ return_value := 5 } : EvaluationResult).should_return = false ∧
      SyntaxTreeNode.evaluate (3 + 1) (.StatementSequenceNode
          (.FunctionNode (.ReturnNode (literal 5)) [] :: [.PrintNode (literal 7)]))
          ProgramState.initial =
        SyntaxTreeNode.evaluate (3 + 1) (.StatementSequenceNode [.PrintNode (literal 7)])
          ProgramState.initial :=
  function_call_absorbs_return 3 (.ReturnNode (literal 5)) [] "x"
    (.FunctionNode (.ReturnNode (literal 5)) []) [.PrintNode (literal 7)]
    ProgramState.initial ProgramState.initial { return_value := 5 }
    (Or.inl rfl) (by decide)

theorem evaluate_statements_append {ev : Evaluator} {before : List SyntaxTreeNode}
    {state state1 : ProgramState} (hbefore : RunsWithoutReturn ev before state state1)
    (tail : List SyntaxTreeNode) :
    evaluate_statements ev (before ++ tail) state = evaluate_statements ev tail state1 := by
  induction hbefore with
  | nil state => rfl
  | cons hnode hr _ ih =>
    rw [List.cons_append, evaluate_statements_cons, hnode, Outcome.bind_ok]
    simp only [hr]
    exact ih

/-- C5: a Statement-Sequence evaluates its children in order. When the
children `before` have run without signalling a return and the next child
does signal one, the result is `should_return = true` with that child's
`return_value`, in the state that child left, whatever the children `after` it
are (they are not evaluated). When no child signals a return, all are
evaluated once and the result is the default result (0, 0, false). -/
theorem statement_sequence_stops_at_first_return (fuel : Nat)
    (before after : List SyntaxTreeNode) (node : SyntaxTreeNode)
    (state state1 state2 : ProgramState) (r : EvaluationResult)
    (hbefore : RunsWithoutReturn (SyntaxTreeNode.evaluate fuel) before state state1) :
    (SyntaxTreeNode.evaluate fuel node state1 = .ok (r, state2) → r.should_return = true →
      SyntaxTreeNode.evaluate (fuel + 1) (.StatementSequenceNode (before ++ node :: after))
          state =
        .ok ({ expression_value := 0, return_value := r.return_value, should_return := true },
             state2)) ∧
    SyntaxTreeNode.evaluate (fuel + 1) (.StatementSequenceNode before) state =
      .ok ({ expression_value := 0, return_value := 0, should_return := false }, state1) := by
  constructor
  · intro hnode hr
    rw [SyntaxTreeNode.evaluate_sequence, evaluate_statements_append hbefore,
      evaluate_statements_cons, hnode, Outcome.bind_ok]
    simp only [hr, if_true]
  · have h := evaluate_statements_append hbefore []
    rw [List.append_nil] at h
    rw [SyntaxTreeNode.evaluate_sequence, h]
    rfl

/-- The witness of C5: in `print ( 1 )`, `return 5`, `print ( 2 )` the sequence
stops at the return: only 1 is printed and the result carries 5. -/
theorem statement_sequence_stops_at_first_return_witness :
    SyntaxTreeNode.evaluate (3 + 1) (.StatementSequenceNode
        ([.PrintNode (literal 1)] ++ .ReturnNode (literal 5) :: [.PrintNode (literal 2)]))
        ProgramState.initial =
      .ok ({ expression_value := 0, return_value := 5, should_return := true }, printed_one) ∧
    SyntaxTreeNode.evaluate (3 + 1) (.StatementSequenceNode [.PrintNode (literal 1)])
        ProgramState.initial =
      .ok ({ expression_value := 0, return_value := 0, should_return := false },
        printed_one) :=
  ⟨(statement_sequence_stops_at_first_return 3 [.PrintNode (literal 1)]
      [.PrintNode (literal 2)] (.ReturnNode (literal 5)) ProgramState.initial printed_one
      printed_one { return_value := 5, should_return := true }
      (RunsWithoutReturn.cons (r := {}) (by decide) rfl (RunsWithoutReturn.nil _))).1
      (by decide) rfl,
   (statement_sequence_stops_at_first_return 3 [.PrintNode (literal 1)]
      [.PrintNode (literal 2)] (.ReturnNode (literal 5)) ProgramState.initial printed_one
      printed_one { return_value := 5, should_return := true }
      (RunsWithoutReturn.cons (r := {}) (by decide) rfl (RunsWithoutReturn.nil _))).2⟩

/-- C6, the failing input: in a frame where `a` is 2 the call `add ( a , 1 )`
has `return_value` 3, but `return add ( a , 1 )` yields `return_value` 0, the
`expression_value` of the call; so `print ( inc ( 2 ) )` prints 0, not 3. -/
theorem return_of_call_drops_return_value :
    SyntaxTreeNode.evaluate 10
        (.FunctionNode add_body [("a", identifier "a"), ("b", literal 1)]) inc_frame_state =
      .ok ({ expression_value := 0, return_value := 3, should_return := false },
        inc_frame_state) ∧
    SyntaxTreeNode.evaluate 10 inc_body inc_frame_state =
      .ok ({ expression_value := 0, return_value := 0, should_return := true },
        inc_frame_state) ∧
    SyntaxTreeNode.evaluate 10 return_of_call_program ProgramState.initial =
      .ok ({}, { vars := Variables.initial, cout := [0] }) := by
  refine ⟨?_, ?_, ?_⟩ <;> decide

theorem while_loop_after_iterations {ev : Evaluator} {condition body : SyntaxTreeNode}
    {k : Nat} {state state' : ProgramState}
    (hiter : WhileIterations ev condition body k state state') (n : Nat) :
    while_loop ev condition body (k + n) state = while_loop ev condition body n state' := by
  induction hiter with
  | zero state => rw [Nat.zero_add]
  | @succ j _ _ _ _ _ _ _ hcondition hone hbody hr hexit _ ih =>
    rw [show j + 1 + n = (j + n) + 1 by omega, while_loop_succ, hcondition, Outcome.bind_ok]
    simp only [hone, if_true]
    rw [hbody, Outcome.bind_ok]
    simp only [hr]
    rw [hexit, Outcome.bind_ok]
    exact ih

/-- C7: when, after `k` complete iterations, the condition is 1 and the body's
result has `should_return = true` with `return_value` r, the While stops
there: its result is `should_return = true` with `return_value` r, in the
state the body left (the condition is not evaluated again, the body is not run
again), for every budget that covers the `k + 1` iterations. -/
theorem while_stops_at_return (fuel k : Nat) (condition body : SyntaxTreeNode)
    (state state_k condition_state body_state : ProgramState)
    (condition_result body_result : EvaluationResult)
    (hiter : WhileIterations (SyntaxTreeNode.evaluate fuel) condition body k state state_k)
    (hcondition : SyntaxTreeNode.evaluate fuel condition state_k =
      .ok (condition_result, condition_state))
    (hone : condition_result.expression_value = 1)
    (hbody : SyntaxTreeNode.evaluate fuel body
      { condition_state with vars := condition_state.vars.enter_block_scope } =
        .ok (body_result, body_state))
    (hr : body_result.should_return = true) :
    ∀ fuel', fuel ≤ fuel' → k + 1 ≤ fuel' →
      SyntaxTreeNode.evaluate (fuel' + 1) (.WhileNode condition body) state =
        .ok ({ expression_value := 0, return_value := body_result.return_value,
               should_return := true }, body_state) := by
  intro fuel' hle hk
  have h1 : while_loop (SyntaxTreeNode.evaluate fuel) condition body (k + 1) state =
      .ok ({ expression_value := 0, return_value := body_result.return_value,
             should_return := true }, body_state) := by
    rw [while_loop_after_iterations hiter 1, while_loop_succ, hcondition, Outcome.bind_ok]
    simp only [hone, if_true]
    rw [hbody, Outcome.bind_ok]
    simp only [hr, if_true]
  rw [SyntaxTreeNode.evaluate_while]
  exact while_loop_mono (SyntaxTreeNode.evaluate_mono hle) condition body (k + 1) fuel' state _
    hk h1

/-- The witness of C7: `while ( 1 == 1 ) { return 5 }` runs its body once and
yields the return value 5; the frame of the iteration is still on the stack. -/
theorem while_stops_at_return_witness :
    SyntaxTreeNode.evaluate (3 + 1) while_returning_five ProgramState.initial =
      .ok ({ expression_value := 0, return_value := 5, should_return := true },
        { vars := { scoped_variables := [[], []], function_scope_indices := [0] },
          cout := [] }) :=
  while_stops_at_return 2 0 (.BinaryOperationNode .EQUAL (literal 1) (literal 1))
    (.ReturnNode (literal 5)) ProgramState.initial ProgramState.initial ProgramState.initial
    { vars := { scoped_variables := [[], []], function_scope_indices := [0] }, cout := [] }
    { expression_value := 1 } { return_value := 5, should_return := true }
    (WhileIterations.zero _) (by decide) rfl (by decide) rfl 3 (by decide) (by decide)

theorem SyntaxTreeNode.evaluate_condition_state {fuel : Nat} {operation : BinaryOperation}
    {left_operand right_operand : SyntaxTreeNode} {state state' : ProgramState}
    {r : EvaluationResult} (hleft : left_operand.node_type = .OPERAND)
    (hright : right_operand.node_type = .OPERAND)
    (h : SyntaxTreeNode.evaluate fuel
      (.BinaryOperationNode operation left_operand right_operand) state = .ok (r, state')) :
    state' = state := by
  cases fuel with
  | zero => simp [SyntaxTreeNode.evaluate] at h
  | succ fuel =>
    rw [SyntaxTreeNode.evaluate_binary] at h
    obtain ⟨a, ha, hf⟩ := Outcome.bind_eq_ok h
    obtain ⟨b, hb, hg⟩ := Outcome.bind_eq_ok hf
    obtain ⟨v, _, hk⟩ := Outcome.bind_eq_ok hg
    have h1 : a.2 = state := SyntaxTreeNode.evaluate_operand_state hleft ha
    have h2 : b.2 = a.2 := SyntaxTreeNode.evaluate_operand_state hright hb
    rw [← (Prod.mk.inj (Outcome.ok.inj hk)).2, h2, h1]

/-- C8: when the condition's `expression_value` at entry is not exactly 1, the
While terminates after zero iterations, for every budget that covers the
condition: the result is the default result whatever the body is (it is not
evaluated), in the state the condition left; and that state is the state at
entry, variables and printed output, for a condition built by
`parse_binary_operation_node` (an operation on two operands). -/
theorem while_zero_iterations (fuel : Nat) (condition body : SyntaxTreeNode)
    (state condition_state : ProgramState) (condition_result : EvaluationResult)
    (hcondition : SyntaxTreeNode.evaluate fuel condition state =
      .ok (condition_result, condition_state))
    (hne : condition_result.expression_value ≠ 1) :
    (∀ fuel', fuel ≤ fuel' →
      SyntaxTreeNode.evaluate (fuel' + 1) (.WhileNode condition body) state =
        .ok ({ expression_value := 0, return_value := 0, should_return := false },
             condition_state)) ∧
    (∀ operation left_operand right_operand,
      condition = .BinaryOperationNode operation left_operand right_operand →
      left_operand.node_type = .OPERAND → right_operand.node_type = .OPERAND →
      condition_state = state) := by
  constructor
  · intro fuel' hle
    have hpos : 1 ≤ fuel := by
      cases fuel with
      | zero => simp [SyntaxTreeNode.evaluate] at hcondition
      | succ n => omega
    have h1 : while_loop (SyntaxTreeNode.evaluate fuel) condition body 1 state =
        .ok ({ expression_value := 0, return_value := 0, should_return := false },
             condition_state) := by
      rw [while_loop_succ, hcondition, Outcome.bind_ok]
      simp only [hne, if_false]
    rw [SyntaxTreeNode.evaluate_while]
    exact while_loop_mono (SyntaxTreeNode.evaluate_mono hle) condition body 1 fuel' state _
      (by omega) h1
  · intro operation left_operand right_operand hc hleft hright
    rw [hc] at hcondition
    exact SyntaxTreeNode.evaluate_condition_state hleft hright hcondition

/-- The witness of C8: in `while ( 1 + 1 ) { print ( 9 ) }` the condition is 2,
not 1, and nothing is printed. -/
theorem while_zero_iterations_witness :
    SyntaxTreeNode.evaluate (2 + 1)
        (.WhileNode (.BinaryOperationNode .ADD (literal 1) (literal 1))
          (.PrintNode (literal 9))) ProgramState.initial =
      .ok ({ expression_value := 0, return_value := 0, should_return := false },
        ProgramState.initial) :=
  (while_zero_iterations 2 (.BinaryOperationNode .ADD (literal 1) (literal 1))
    (.PrintNode (literal 9)) ProgramState.initial ProgramState.initial
    { expression_value := 2 } (by decide) (by decide)).1 2 (by decide)

/-- C9, the failing input: `if ( 1 == 1 ) { y = 1 }` from the initial
environment completes without signalling a return, and `y`, unbound before,
is still bound afterwards, in frame 0, where a read finds it.
`IfElseNode::evaluate` evaluates the chosen branch without the
`enter_block_scope` and `exit_block_scope` that `WhileNode::evaluate` puts
around its body, so the binding does not live in a frame of the branch. -/
theorem if_else_binding_outlives_branch :
    Variables.initial.binding 0 "y" = none ∧
    SyntaxTreeNode.evaluate 5 if_assigning_y ProgramState.initial =
      .ok ({ expression_value := 1, return_value := 0, should_return := false },
        y_bound_state) ∧
    y_bound_state.vars.scoped_variables.length = 1 ∧
    y_bound_state.vars.binding 0 "y" = some 1 ∧
    y_bound_state.vars.get_variable_value "y" = .ok 1 := by
  refine ⟨?_, ?_, ?_, ?_, ?_⟩ <;> decide

/-- C10 (as amended): a call line `... f ( a1 , ... , an )` of a function with
`n` pairwise distinct parameters, where no token before `f` on the line is the
name of a defined function and every argument is one token, an identifier or
an integer literal of at most 2147483647, parses to a Function-Call node whose
body starts in this state: every argument has been evaluated in the caller's
state (which it leaves as it is), one frame has been pushed, the boundary is
the index of that frame, and the frame binds each parameter to the value of
the argument at the same position and binds nothing else; a name that is not
a parameter reads as unbound (-1) there. -/
theorem function_call_binds_parameters (interpreter : Interpreter) (start_line : Nat)
    (before after : List Token) (function_name : Token) (argument_tokens : List Token)
    (function_data : FunctionData) (fuel : Nat) (state : ProgramState)
    (hline : interpreter.lines[start_line]? =
      some (before ++ call_tokens function_name argument_tokens ++ after))
    (hbefore : ∀ token ∈ before, interpreter.token_is_function_name token = false)
    (hfunction : StdMap.find interpreter.function_map function_name = some function_data)
    (hdistinct : function_data.parameters.Nodup)
    (hcount : function_data.parameters.length = argument_tokens.length)
    (htokens : ∀ token ∈ argument_tokens, token ≠ "," ∧ token ≠ ")")
    (hliterals : ∀ token ∈ argument_tokens, starts_with_digit token = true →
      leading_digits_value token ≤ 2147483647)
    (hstack : state.vars.function_scope_indices ≠ []) :
    ∃ (arguments : List (String × SyntaxTreeNode)) (frame : VariableMap),
      interpreter.parse_function_call_node start_line =
        .ok (.FunctionNode function_data.body arguments) ∧
      function_call_entry (SyntaxTreeNode.evaluate (fuel + 1)) arguments state =
        .ok { vars := { scoped_variables := state.vars.scoped_variables ++ [frame],
                        function_scope_indices :=
                          state.vars.scoped_variables.length ::
                            state.vars.function_scope_indices },
              cout := state.cout } ∧
      (∀ pair ∈ List.zip function_data.parameters argument_tokens,
        ∃ argument_node r, Interpreter.parse_operand_token pair.2 = .ok argument_node ∧
          SyntaxTreeNode.evaluate (fuel + 1) argument_node state = .ok (r, state) ∧
          StdMap.find frame pair.1 = some r.expression_value) ∧
      (∀ name, name ∉ function_data.parameters →
        StdMap.find frame name = none ∧
        Variables.get_variable_value
          { scoped_variables := state.vars.scoped_variables ++ [frame],
            function_scope_indices :=
              state.vars.scoped_variables.length :: state.vars.function_scope_indices }
          name = .ok (-1)) := by
  have hname : interpreter.token_is_function_name function_name = true := by
    simp [Interpreter.token_is_function_name, hfunction]
  obtain ⟨argument_nodes, hnodes⟩ :=
    Interpreter.parse_argument_tokens_operands argument_tokens hliterals
  have hall := Interpreter.parse_argument_tokens_forall hnodes
  have hlen : function_data.parameters.length = argument_nodes.length :=
    hcount.trans hall.length_eq
  obtain ⟨arguments, h1, h2, h3, h4⟩ := Interpreter.build_argument_map_spec
    function_data.parameters argument_nodes [] hdistinct hlen StdMap.sorted_nil
  have hnode : interpreter.parse_function_call_node start_line =
      .ok (.FunctionNode function_data.body arguments) := by
    unfold Interpreter.parse_function_call_node
    rw [hline]
    simp only []
    rw [Interpreter.get_function_signature_details_call interpreter before after
      function_name argument_tokens hbefore hname htokens, Outcome.bind_ok]
    simp only [hnodes, Outcome.bind_ok, hfunction, h1]
  have hoperand : ∀ n ∈ argument_nodes, n.node_type = .OPERAND := by
    intro n hn
    obtain ⟨i, hi, hin⟩ := List.getElem_of_mem hn
    have hi' : i < argument_tokens.length := by rw [hall.length_eq]; exact hi
    have := List.Forall₂.get hall hi' hi
    simp only [List.get_eq_getElem, hin] at this
    exact Interpreter.parse_operand_token_operand this
  have hentries : ∀ argument ∈ arguments,
      ∃ r, SyntaxTreeNode.evaluate (fuel + 1) argument.2 state = .ok (r, state) := by
    intro argument ha
    have hfind : StdMap.find arguments argument.1 = some argument.2 :=
      StdMap.find_of_mem h2 ha
    have hmem : argument.1 ∈ function_data.parameters := by
      by_contra hnot
      rw [h4 argument.1 hnot] at hfind
      simp [StdMap.find] at hfind
    obtain ⟨i, hi, hin⟩ := List.getElem_of_mem hmem
    have hi' : i < argument_nodes.length := by rw [← hlen]; exact hi
    have hzip : (argument.1, argument_nodes[i]) ∈
        List.zip function_data.parameters argument_nodes := by
      rw [List.mem_iff_getElem]
      refine ⟨i, by simp [List.length_zip]; omega, ?_⟩
      simp [List.getElem_zip, hin]
    have h5 := h3 _ hzip
    simp only [hfind] at h5
    rw [Option.some.inj h5]
    exact SyntaxTreeNode.evaluate_operand_ok fuel (hoperand _ (List.getElem_mem _)) state hstack
  obtain ⟨values, k1, k2, k3, k4⟩ := evaluate_arguments_spec (SyntaxTreeNode.evaluate (fuel + 1))
    state arguments [] h2 StdMap.sorted_nil hentries
  obtain ⟨frame, m1, m2⟩ := assign_argument_values_spec state.vars.scoped_variables
    state.vars.function_scope_indices values [] k2
  refine ⟨arguments, frame, hnode, ?_, ?_, ?_⟩
  · unfold function_call_entry
    rw [k1, Outcome.bind_ok]
    simp only [Variables.enter_function_scope]
    rw [m1, Outcome.bind_ok]
  · intro pair hp
    obtain ⟨n, hn1, hn2⟩ := zip_of_forall₂ function_data.parameters argument_tokens
      argument_nodes hall pair hp
    have hfind := h3 _ hn2
    obtain ⟨r, hr⟩ := SyntaxTreeNode.evaluate_operand_ok fuel
      (Interpreter.parse_operand_token_operand hn1) state hstack
    refine ⟨n, r, hn1, hr, ?_⟩
    rw [m2 pair.1, k3 pair.1 n r hfind hr]
  · intro name hname'
    have hnone : StdMap.find frame name = none := by
      have h5 : StdMap.find arguments name = none := by
        rw [h4 name hname']; rfl
      rw [m2 name, k4 name h5]
      rfl
    exact ⟨hnone, Variables.get_variable_value_unbound _ _ _ _ hnone⟩

/-- The witness of C10 amended: `x = add ( b , 3 )` for `function add ( b , a )`,
called where `b` is 10 and `a` is 20: in the new frame `b` is 10 (read from the
caller) and `a` is 3, and `x` reads as unbound. -/
theorem function_call_binds_parameters_witness :
    ∃ (arguments : List (String × SyntaxTreeNode)) (frame : VariableMap),
      call_line_interpreter.parse_function_call_node 0 =
        .ok (.FunctionNode add_body arguments) ∧
      function_call_entry (SyntaxTreeNode.evaluate (1 + 1)) arguments caller_state =
        .ok { vars := { scoped_variables := caller_state.vars.scoped_variables ++ [frame],
                        function_scope_indices :=
                          caller_state.vars.scoped_variables.length ::
                            caller_state.vars.function_scope_indices },
              cout := caller_state.cout } ∧
      (∀ pair ∈ List.zip ["b", "a"] ["b", "3"],
        ∃ argument_node r, Interpreter.parse_operand_token pair.2 = .ok argument_node ∧
          SyntaxTreeNode.evaluate (1 + 1) argument_node caller_state = .ok (r, caller_state) ∧
          StdMap.find frame pair.1 = some r.expression_value) ∧
      (∀ name, name ∉ ["b", "a"] →
        StdMap.find frame name = none ∧
        Variables.get_variable_value
          { scoped_variables := caller_state.vars.scoped_variables ++ [frame],
            function_scope_indices :=
              caller_state.vars.scoped_variables.length ::
                caller_state.vars.function_scope_indices }
          name = .ok (-1)) :=
  function_call_binds_parameters call_line_interpreter 0 ["x", "="] [] "add" ["b", "3"]
    { body := add_body, parameters := ["b", "a"] } 1 caller_state
    (by decide) (by decide) (by rfl) (by decide) (by decide) (by decide) (by decide)
    (by decide)

/-- C10 as stated fails: `add = add ( 5 , 3 )` is a call of `function add ( a ,
b )` with the arguments 5 and 3, but the scan for the function name stops at
the first token of the line, the variable `add`, so the argument tokens read
are `add`, `(`, `5`, `3`: the parameters are bound to the identifiers `add`
and `(`, the body starts in the frame {a = -1, b = -1} and not {a = 5, b = 3},
and the program prints -2. In `x = add ( 2147483648 , 3 )` no node is built:
the conversion of the first argument throws. -/
theorem function_call_after_function_name_misbinds :
    misbound_call_interpreter.lines[0]? =
      some (["add", "="] ++ call_tokens "add" ["5", "3"] ++ []) ∧
    StdMap.find misbound_call_interpreter.function_map "add" =
      some { body := add_body, parameters := ["a", "b"] } ∧
    misbound_call_interpreter.parse_function_call_node 0 =
      .ok (.FunctionNode add_body misbound_arguments) ∧
    function_call_entry (SyntaxTreeNode.evaluate 2) misbound_arguments ProgramState.initial =
      .ok misbound_body_state ∧
    misbound_body_state.vars.binding 1 "a" = some (-1) ∧
    misbound_body_state.vars.binding 1 "b" = some (-1) ∧
    SyntaxTreeNode.evaluate 2 (literal 5) ProgramState.initial =
      .ok ({ expression_value := 5 }, ProgramState.initial) ∧
    SyntaxTreeNode.evaluate 2 (literal 3) ProgramState.initial =
      .ok ({ expression_value := 3 }, ProgramState.initial) ∧
    Interpreter.run 5 20 misbound_call_source = .ok [-2] ∧
    large_argument_interpreter.lines[0]? =
      some (["x", "="] ++ call_tokens "add" ["2147483648", "3"] ++ []) ∧
    large_argument_interpreter.parse_function_call_node 0 = .uncaught_exception := by
  refine ⟨by decide, by rfl, by rfl, by decide, by decide, by decide, by decide, by decide,
    by decide, by decide, by rfl⟩


/-- C20: with top boundary `b`, `get_variable_value` returns the value bound to
the name in the innermost frame with index at least `b` that binds it,
whatever the frames below `b` bind, and the sentinel -1 when no frame with
index at least `b` binds it; reading through an identifier operand leaves the
state (all frames, the boundary stack and the output) as it was. -/
theorem get_variable_value_reads_innermost_visible (vars : Variables) (name : String)
    (b : Nat) (rest : List Nat) (hb : vars.function_scope_indices = b :: rest) :
    (∀ j value, b ≤ j → j < vars.scoped_variables.length →
      vars.binding j name = some value →
      (∀ i, j < i → i < vars.scoped_variables.length → vars.binding i name = none) →
      vars.get_variable_value name = .ok value) ∧
    ((∀ i, b ≤ i → i < vars.scoped_variables.length → vars.binding i name = none) →
      vars.get_variable_value name = .ok (-1)) ∧
    (∀ (fuel : Nat) (literal_value : Int) (cout : List Int),
      ∃ value, vars.get_variable_value name = .ok value ∧
        SyntaxTreeNode.evaluate (fuel + 1) (.OperandNode .IDENTIFIER name literal_value)
            { vars := vars, cout := cout } =
          .ok ({ expression_value := value, return_value := 0, should_return := false },
               { vars := vars, cout := cout })) := by
  refine ⟨?_, ?_, ?_⟩
  · intro j value hbj hj hbind habove
    unfold Variables.get_variable_value
    rw [hb]
    simp only []
    rw [Variables.get_variable_value_loop_eq_some vars.scoped_variables name b value _ j hbj hj
      hbind habove]
  · intro hnone
    unfold Variables.get_variable_value
    rw [hb]
    simp only []
    rw [Variables.get_variable_value_loop_eq_none vars.scoped_variables name b _ hnone]
  · intro fuel literal_value cout
    have hval : ∃ value, vars.get_variable_value name = .ok value := by
      unfold Variables.get_variable_value
      rw [hb]
      simp only []
      cases Variables.get_variable_value_loop vars.scoped_variables name b
          vars.scoped_variables.length with
      | none => exact ⟨_, rfl⟩
      | some value => exact ⟨_, rfl⟩
    obtain ⟨value, hvalue⟩ := hval
    refine ⟨value, hvalue, ?_⟩
    rw [SyntaxTreeNode.evaluate_identifier]
    simp only [hvalue, Outcome.bind_ok]

/-- The witness of C20: inside a function scope with boundary 1, `a` is read
from frame 1 and `x`, bound only in the caller's frame 0, reads as -1. -/
theorem get_variable_value_reads_innermost_visible_witness :
    callee_variables.get_variable_value "a" = .ok 2 ∧
    callee_variables.get_variable_value "x" = .ok (-1) ∧
    (∃ value, callee_variables.get_variable_value "x" = .ok value ∧
      SyntaxTreeNode.evaluate (0 + 1) (.OperandNode .IDENTIFIER "x" 0)
          { vars := callee_variables, cout := [] } =
        .ok ({ expression_value := value, return_value := 0, should_return := false },
             { vars := callee_variables, cout := [] })) :=
  ⟨(get_variable_value_reads_innermost_visible callee_variables "a" 1 [0] rfl).1 1 2
      (by decide) (by decide) (by decide)
      (by
        intro i h1 h2
        have hi : i = 2 := by simp [callee_variables] at h2; omega
        subst hi
        decide),
   (get_variable_value_reads_innermost_visible callee_variables "x" 1 [0] rfl).2.1
      (by decide),
   (get_variable_value_reads_innermost_visible callee_variables "x" 1 [0] rfl).2.2 0 0 []⟩

/-- C15: for the operators `<`, `<=`, `>`, `>=`, `==`, `!=`, `&&` and `||` and
any two operand values, the `expression_value` of the Binary-Operation is 0 or
1, and it is 1 exactly when the comparison holds, for `&&` when both operands
are nonzero and for `||` when at least one is. -/
theorem comparison_yields_zero_or_one (fuel : Nat) (operation : BinaryOperation)
    (left_operand right_operand : SyntaxTreeNode) (state state1 state2 : ProgramState)
    (left_result right_result : EvaluationResult)
    (hoperation : operation ∈ [BinaryOperation.LESS, .LESS_EQUAL, .GREATER, .GREATER_EQUAL,
      .EQUAL, .NOT_EQUAL, .AND, .OR])
    (hleft : SyntaxTreeNode.evaluate fuel left_operand state = .ok (left_result, state1))
    (hright : SyntaxTreeNode.evaluate fuel right_operand state1 = .ok (right_result, state2)) :
    ∃ value : Int,
      SyntaxTreeNode.evaluate (fuel + 1)
          (.BinaryOperationNode operation left_operand right_operand) state =
        .ok ({ expression_value := value, return_value := 0, should_return := false },
             state2) ∧
      (value = 0 ∨ value = 1) ∧
      (value = 1 ↔
        operation.holds left_result.expression_value right_result.expression_value) := by
  rw [SyntaxTreeNode.evaluate_binary, hleft, Outcome.bind_ok]
  simp only []
  rw [hright, Outcome.bind_ok]
  simp only [List.mem_cons, List.mem_singleton, List.not_mem_nil, or_false] at hoperation
  rcases hoperation with h | h | h | h | h | h | h | h <;> subst h <;>
    simp only [apply_binary_operation, Outcome.bind_ok, BinaryOperation.holds] <;>
    refine ⟨_, rfl, (bool_to_int_cases _).1, ?_⟩ <;>
    rw [(bool_to_int_cases _).2] <;> simp

/-- The witness of C15: `3 < 5` is 1. -/
theorem comparison_yields_zero_or_one_witness :
    ∃ value : Int,
      SyntaxTreeNode.evaluate (1 + 1) (.BinaryOperationNode .LESS (literal 3) (literal 5))
          ProgramState.initial =
        .ok ({ expression_value := value, return_value := 0, should_return := false },
             ProgramState.initial) ∧
      (value = 0 ∨ value = 1) ∧
      (value = 1 ↔ BinaryOperation.LESS.holds
        ({ expression_value := 3 } : EvaluationResult).expression_value
        ({ expression_value := 5 } : EvaluationResult).expression_value) :=
  comparison_yields_zero_or_one 1 .LESS (literal 3) (literal 5) ProgramState.initial
    ProgramState.initial ProgramState.initial { expression_value := 3 }
    { expression_value := 5 } (by decide) (by decide) (by decide)

/-- C19: for all integer literals `a` and `b` whose sum is in the 32-bit signed
range, the full pipeline on the source `x = a`, `y = b`, `z = x + y`,
`print ( z )` terminates and prints exactly one line, the value `a + b`. -/
theorem scenario_a_prints_sum (a b : Token) (ha : is_integer_literal a = true)
    (hb : is_integer_literal b = true)
    (hsum : integer_literal_value a + integer_literal_value b ≤ 2147483647) :
    ∀ evaluate_fuel, 4 ≤ evaluate_fuel →
      Interpreter.run 5 evaluate_fuel (scenario_a_source a b) =
        .ok [integer_literal_value a + integer_literal_value b] := by
  intro evaluate_fuel hfuel
  have hva : 0 ≤ integer_literal_value a := digits_value_nonneg _
  have hvb : 0 ≤ integer_literal_value b := digits_value_nonneg _
  have hevaluate := SyntaxTreeNode.evaluate_mono hfuel _ _ _
    (scenario_a_evaluate (integer_literal_value a) (integer_literal_value b) hva hvb hsum)
  exact Interpreter.run_eq 5 evaluate_fuel _ _ _ _ _ _ _ (scenario_a_lines a b ha hb)
    (scenario_a_parse a b ha hb (by omega) (by omega)) hevaluate

/-- The witness of C19: `x = 2`, `y = 3`, `z = x + y`, `print ( z )` prints 5. -/
theorem scenario_a_prints_sum_witness :
    Interpreter.run 5 4 (scenario_a_source "2" "3") = .ok [5] :=
  scenario_a_prints_sum "2" "3" (by decide) (by decide) (by decide) 4 (by decide)

/-- C17: for all integer literals `m` and `n` whose sum is in the 32-bit signed
range, the full pipeline on the source that defines
`function add ( a , b ) { return a + b }` and then executes
`print ( add ( m , n ) )` terminates and prints exactly one line, the value
`m + n`. -/
theorem scenario_b_prints_sum (m n : Token) (hm : is_integer_literal m = true)
    (hn : is_integer_literal n = true)
    (hsum : integer_literal_value m + integer_literal_value n ≤ 2147483647) :
    ∀ evaluate_fuel, 6 ≤ evaluate_fuel →
      Interpreter.run 5 evaluate_fuel (scenario_b_source m n) =
        .ok [integer_literal_value m + integer_literal_value n] := by
  intro evaluate_fuel hfuel
  have hvm : 0 ≤ integer_literal_value m := digits_value_nonneg _
  have hvn : 0 ≤ integer_literal_value n := digits_value_nonneg _
  have hevaluate := SyntaxTreeNode.evaluate_mono hfuel _ _ _
    (scenario_b_evaluate (integer_literal_value m) (integer_literal_value n) hvm hvn hsum)
  exact Interpreter.run_eq 5 evaluate_fuel _ _ _ _ _ _ _ (scenario_b_tokens m n hm hn)
    (scenario_b_parse m n hm hn (by omega) (by omega)) hevaluate

/-- The witness of C17: with `m = 2` and `n = 3` the program prints 5. -/
theorem scenario_b_prints_sum_witness :
    Interpreter.run 5 6 (scenario_b_source "2" "3") = .ok [5] :=
  scenario_b_prints_sum "2" "3" (by decide) (by decide) (by decide) 6 (by decide)

/-- C18 (as amended): for all integer literals `a` and `b` of at most
2147483647, the full pipeline on the source
`if ( a == b ) { print ( 1 ) } else { print ( 0 ) }` terminates and prints
exactly one line: 1 when `a = b` and 0 when `a ≠ b`; the `else` line is
recognised and its block is the else-body of the tree. -/
theorem scenario_d_prints_equality (a b : Token) (ha : is_integer_literal a = true)
    (hb : is_integer_literal b = true) (har : integer_literal_value a ≤ 2147483647)
    (hbr : integer_literal_value b ≤ 2147483647) :
    Interpreter.parse_block 5
        { lines := Interpreter.read_input_file_and_parse_into_tokens (scenario_d_source a b),
          function_map := [] } 0 7 =
      .ok (scenario_d_tree (integer_literal_value a) (integer_literal_value b),
        { lines := scenario_d_lines a b, function_map := [] }, 8) ∧
    ∀ evaluate_fuel, 3 ≤ evaluate_fuel →
      Interpreter.run 5 evaluate_fuel (scenario_d_source a b) =
        .ok [if integer_literal_value a = integer_literal_value b then 1 else 0] := by
  refine ⟨?_, ?_⟩
  · rw [scenario_d_tokens a b ha hb]
    exact scenario_d_parse a b ha hb har hbr
  · intro evaluate_fuel hfuel
    have hevaluate := SyntaxTreeNode.evaluate_mono hfuel _ _ _
      (scenario_d_evaluate (integer_literal_value a) (integer_literal_value b))
    exact Interpreter.run_eq 5 evaluate_fuel _ _ _ _ _ _ _ (scenario_d_tokens a b ha hb)
      (scenario_d_parse a b ha hb har hbr) hevaluate

/-- The witness of C18: `if ( 1 == 1 ) { print ( 1 ) } else { print ( 0 ) }`
prints 1. -/
theorem scenario_d_prints_equality_witness :
    Interpreter.run 5 3 (scenario_d_source "1" "1") = .ok [1] :=
  (scenario_d_prints_equality "1" "1" (by decide) (by decide) (by decide) (by decide)).2 3
    (by decide)

/-- C18 as stated fails: 2147483648 is an integer literal, and on
`if ( 2147483648 == 2147483648 ) { print ( 1 ) } else { print ( 0 ) }` the
conversion of the literal throws while the condition is parsed, whatever the
budgets: the run ends with an uncaught exception and prints nothing. -/
theorem scenario_d_large_literal_throws :
    is_integer_literal "2147483648" = true ∧
    ∀ parse_fuel evaluate_fuel : Nat,
      Interpreter.run (parse_fuel + 1) evaluate_fuel
        (scenario_d_source "2147483648" "2147483648") = .uncaught_exception := by
  refine ⟨by decide, ?_⟩
  intro parse_fuel evaluate_fuel
  have hcond : Interpreter.parse_binary_operation_node "2147483648" "==" "2147483648" =
      .uncaught_exception := by rfl
  unfold Interpreter.run
  simp only [scenario_d_tokens "2147483648" "2147483648" (by decide) (by decide)]
  rw [Interpreter.parse_block_succ, Interpreter.parse_block_loop_succ]
  simp [scenario_d_lines, Interpreter.parse_single_statement_node,
    Interpreter.get_next_statement_node_type, Interpreter.parse_if_else_node, hcond,
    Outcome.bind]

/-- C16 (as amended): for every integer literal `n` of at most 2147483647, the
full pipeline on the source `i = 0`, `while ( i < n ) { print ( i )`,
`i = i + 1 }` terminates and prints exactly the `n` lines 0, 1, ..., n-1 in
that order. -/
theorem scenario_c_prints_count (n : Token) (hn : is_integer_literal n = true)
    (hnr : integer_literal_value n ≤ 2147483647) :
    ∀ evaluate_fuel, (integer_literal_value n).toNat + 6 ≤ evaluate_fuel →
      Interpreter.run 5 evaluate_fuel (scenario_c_source n) =
        .ok ((List.range (integer_literal_value n).toNat).map Int.ofNat) := by
  intro evaluate_fuel hfuel
  have hvalue : integer_literal_value n = ((digits_value n.data : Nat) : Int) := rfl
  have hnat : (integer_literal_value n).toNat = digits_value n.data := by
    rw [hvalue, Int.toNat_ofNat]
  rw [hnat] at hfuel ⊢
  have hevaluate := scenario_c_evaluate (digits_value n.data) evaluate_fuel
    (by rw [← hvalue]; exact hnr) hfuel
  exact Interpreter.run_eq 5 evaluate_fuel _ _ _ _ _ _ _ (scenario_c_tokens n hn)
    (scenario_c_parse n hn hnr) hevaluate

/-- The witness of C16: with `n = 3` the program prints 0, 1, 2. -/
theorem scenario_c_prints_count_witness :
    Interpreter.run 5 9 (scenario_c_source "3") = .ok [0, 1, 2] :=
  scenario_c_prints_count "3" (by decide) (by decide) 9 (by decide)

/-- C16 as stated fails: 2147483648 is an integer literal, and on `i = 0`,
`while ( i < 2147483648 ) { print ( i )`, `i = i + 1 }` the conversion of the
literal throws while the condition is parsed, whatever the budgets: the run
ends with an uncaught exception and prints nothing. -/
theorem scenario_c_large_literal_throws :
    is_integer_literal "2147483648" = true ∧
    ∀ parse_fuel evaluate_fuel : Nat,
      Interpreter.run (parse_fuel + 2) evaluate_fuel
        (scenario_c_source "2147483648") = .uncaught_exception := by
  refine ⟨by decide, ?_⟩
  intro parse_fuel evaluate_fuel
  have hcond : Interpreter.parse_binary_operation_node "i" "<" "2147483648" =
      .uncaught_exception := by rfl
  have h0 : Interpreter.parse_operand_token "0" = .ok (literal 0) := by rfl
  unfold Interpreter.run
  simp only [scenario_c_tokens "2147483648" (by decide)]
  rw [Interpreter.parse_block_succ, Interpreter.parse_block_loop_succ]
  simp [scenario_c_lines, Interpreter.parse_single_statement_node,
    Interpreter.get_next_statement_node_type, Interpreter.parse_assignment_node,
    Interpreter.parse_assignment_value_node, Interpreter.get_assignment_value_type,
    Interpreter.parse_while_node, Interpreter.parse_block_loop, h0, hcond, Outcome.bind]

/-- C14 (as amended): for all operand values `l` and `r` that fit in a 32-bit
signed integer, the `switch` of Binary-Operation evaluation yields `l + r`,
`l - r` and `l * r` for ADD, SUBTRACT and MULTIPLY when the result fits, for
`r ≠ 0` DIVIDE yields the quotient truncated toward zero when it fits, and for
`r ≠ 0` and `(l, r) ≠ (-2147483648, -1)` MOD yields `l - r * (l / r)`, which
has the sign of `l`; and for integer literals `a` and `b` of at most
2147483647 and an arithmetic operator `op` (with `b ≠ 0` for `/` and `%`,
and a result that fits) the full pipeline on `print ( a op b )` terminates
and prints exactly that value. -/
theorem arithmetic_matches_integer_semantics :
    (∀ l r : Int, in_int_range l → in_int_range r →
      (in_int_range (l + r) → apply_binary_operation .ADD l r = .ok (l + r)) ∧
      (in_int_range (l - r) → apply_binary_operation .SUBTRACT l r = .ok (l - r)) ∧
      (in_int_range (l * r) → apply_binary_operation .MULTIPLY l r = .ok (l * r)) ∧
      (r ≠ 0 → in_int_range (truncated_quotient l r) →
        apply_binary_operation .DIVIDE l r = .ok (truncated_quotient l r)) ∧
      (r ≠ 0 → ¬(l = -2147483648 ∧ r = -1) →
        apply_binary_operation .MOD l r = .ok (l - r * truncated_quotient l r) ∧
        (0 ≤ l → 0 ≤ l - r * truncated_quotient l r) ∧
        (l ≤ 0 → l - r * truncated_quotient l r ≤ 0))) ∧
    (∀ a op b : Token, is_integer_literal a = true → is_integer_literal b = true →
      integer_literal_value a ≤ 2147483647 → integer_literal_value b ≤ 2147483647 →
      op ∈ arithmetic_operators →
      (op = "/" ∨ op = "%" → integer_literal_value b ≠ 0) →
      in_int_range (arithmetic_value op (integer_literal_value a) (integer_literal_value b)) →
      ∀ evaluate_fuel, 3 ≤ evaluate_fuel →
        Interpreter.run 5 evaluate_fuel (print_operation_source a op b) =
          .ok [arithmetic_value op (integer_literal_value a) (integer_literal_value b)]) := by
  refine ⟨?_, ?_⟩
  · intro l r hl hr
    refine ⟨?_, ?_, ?_, ?_, ?_⟩
    · intro h
      simp [apply_binary_operation, int_arithmetic_result_of_in_range h]
    · intro h
      simp [apply_binary_operation, int_arithmetic_result_of_in_range h]
    · intro h
      simp [apply_binary_operation, int_arithmetic_result_of_in_range h]
    · intro hr0 h
      have hmin : ¬(l = -2147483648 ∧ r = -1) := by
        rintro ⟨rfl, rfl⟩
        revert h
        unfold in_int_range
        decide
      simp [apply_binary_operation, hr0, hmin, tdiv_eq_truncated_quotient]
    · intro hr0 hmin
      rw [← tdiv_eq_truncated_quotient]
      refine ⟨by simp [apply_binary_operation, hr0, hmin, Int.tmod_def], ?_, ?_⟩
      · intro hl0
        have h := Int.tmod_nonneg r hl0
        rw [Int.tmod_def] at h
        exact h
      · intro hl0
        have h := Int.tmod_nonneg (a := -l) r (by omega)
        rw [Int.tmod_def, Int.neg_tdiv] at h
        linarith
  · intro a op b ha hb har hbr hop hdivisor hresult evaluate_fuel hfuel
    have hvb : 0 ≤ integer_literal_value b := digits_value_nonneg _
    have hva : 0 ≤ integer_literal_value a := digits_value_nonneg _
    have happly := apply_arithmetic_operation op (integer_literal_value a)
      (integer_literal_value b) hop
      (fun h => ⟨hdivisor h, fun hmin => by omega⟩) hresult
    have hevaluate := SyntaxTreeNode.evaluate_mono hfuel _ _ _
      (print_operation_evaluate _ _ _ _ happly)
    exact Interpreter.run_eq 5 evaluate_fuel _ _ _ _ _ _ _
      (print_operation_tokens a op b ha hb hop)
      (print_operation_parse a op b ha hb har hbr hop) hevaluate

/-- The witness of C14: `-7 / 2` is `-3`, `-7 % 2` is `-1`, and
`print ( 7 / 2 )` prints 3. -/
theorem arithmetic_matches_integer_semantics_witness :
    apply_binary_operation .DIVIDE (-7) 2 = .ok (-3) ∧
    apply_binary_operation .MOD (-7) 2 = .ok (-1) ∧
    Interpreter.run 5 3 (print_operation_source "7" "/" "2") = .ok [3] :=
  ⟨(arithmetic_matches_integer_semantics.1 (-7) 2 (by decide) (by decide)).2.2.2.1
      (by decide) (by decide),
   ((arithmetic_matches_integer_semantics.1 (-7) 2 (by decide) (by decide)).2.2.2.2
      (by decide) (by decide)).1,
   arithmetic_matches_integer_semantics.2 "7" "/" "2" (by decide) (by decide) (by decide)
      (by decide) (by decide) (by decide) (by decide) 3 (by decide)⟩

/-- C14 as stated fails for MOD: the operands -2147483648 and -1 and the
remainder `l - r * (l / r) = 0` all fit in a 32-bit signed integer and the
divisor is not 0, yet `l % r` is undefined there, as `l / r` is. -/
theorem mod_int_min_by_minus_one_undefined :
    in_int_range (-2147483648) ∧ in_int_range (-1) ∧ (-1 : Int) ≠ 0 ∧
    (-2147483648 : Int) - (-1) * truncated_quotient (-2147483648) (-1) = 0 ∧
    apply_binary_operation .MOD (-2147483648) (-1) = .undefined_behaviour := by
  refine ⟨?_, ?_, ?_, ?_, ?_⟩ <;> decide

/-- C11, the failing input: on the source of two newline characters,
preprocessing leaves one newline, which tokenizes to one empty line, and
preprocessing that output again leaves nothing, which tokenizes to no line: the
two sequences of token lines differ. -/
theorem preprocess_twice_differs_on_blank_source :
    Interpreter.preprocess_input_string ['\n', '\n'] = ['\n'] ∧
    Interpreter.read_input_file_and_parse_into_tokens ['\n', '\n'] = [[]] ∧
    Interpreter.read_input_file_and_parse_into_tokens
      (Interpreter.preprocess_input_string ['\n', '\n']) = [] := by
  refine ⟨?_, ?_, ?_⟩ <;> decide

/-- C12, the failing input: the source of a blank line followed by `x = 1`
tokenizes to an empty line followed by the line `x = 1`, and the parser then
reads the first token of the empty line, which is undefined. -/
theorem leading_blank_line_becomes_empty_line :
    Interpreter.read_input_file_and_parse_into_tokens "\nx = 1".data =
      [[], ["x", "=", "1"]] ∧
    ∀ parse_fuel evaluate_fuel : Nat,
      Interpreter.run (parse_fuel + 1) evaluate_fuel "\nx = 1".data =
        .undefined_behaviour := by
  have htokens : Interpreter.read_input_file_and_parse_into_tokens "\nx = 1".data =
      [[], ["x", "=", "1"]] := by decide
  refine ⟨htokens, ?_⟩
  intro parse_fuel evaluate_fuel
  unfold Interpreter.run
  simp only [htokens]
  rw [Interpreter.parse_block_succ, Interpreter.parse_block_loop_succ]
  simp [Interpreter.parse_single_statement_node, Interpreter.get_next_statement_node_type,
    Outcome.bind]

/-- C13: for every source text and every line of tokens the tokenizer
produces, a token that contains one of the characters `{`, `}`, `(`, `)` or
`,` is exactly that single character, and a line with a `{` or `}` token
consists of that one token only. -/
theorem separators_are_single_tokens (input_string : List Char) (line : Line)
    (token : Token)
    (hline : line ∈ Interpreter.read_input_file_and_parse_into_tokens input_string)
    (htoken : token ∈ line) :
    (∀ c ∈ token.data, is_separator c → token = String.mk [c]) ∧
    (token = "\x7b" ∨ token = "\x7d" → line = [token]) := by
  obtain ⟨chars, hchars, rfl⟩ := List.mem_map.1 hline
  have hn := preprocess_input_string_neighbours input_string
  obtain ⟨hl1, hl2⟩ := getline_loop_neighbours _ [] (by simpa using hn)
    (List.not_mem_nil _) chars hchars
  obtain ⟨ht1, ht2, ht3⟩ := extract_tokens_neighbours chars [] (by simpa using hl1)
    (fun d hd => absurd hd (List.not_mem_nil d)) token htoken
  refine ⟨?_, ?_⟩
  · intro c hc hsep
    have hspace : neighbours (fun a b => (is_separator b → is_space a = true) ∧
        (is_separator a → is_space b = true)) token.data := by
      refine neighbours_imp (fun a b hab => ⟨fun hb => ?_, fun ha => ?_⟩) _ ht1
      · rcases hb with hb | hb
        · rw [hab.1.1 hb]; decide
        · rcases hab.2.1 hb with h | h <;> rw [h] <;> decide
      · rcases ha with ha | ha
        · rw [hab.1.2 ha]; decide
        · rcases hab.2.2 ha with h | h <;> rw [h] <;> decide
    have hdata := neighbours_isolated token.data hspace
      (fun d hd => by simp [ht2 d hd]) c hc hsep
    cases token with
    | mk data =>
      simp only at hdata
      rw [hdata]
  · intro hbrace
    have hwhole : ∀ c : Char, is_brace c → token = String.mk [c] →
        extract_tokens [] [c] = [String.mk [c]] →
        extract_tokens [] chars = [token] := by
      intro c hc heq hextract
      have hmem : c ∈ chars := by
        have := ht3 c (by rw [heq]; simp)
        simpa using this
      have hapart : neighbours (fun a b => (is_brace b → a = '\n') ∧
          (is_brace a → b = '\n')) chars :=
        neighbours_imp (fun a b hab => hab.1) _ hl1
      have hchars' := neighbours_isolated chars hapart
        (fun d hd heq' => hl2 (heq' ▸ hd)) c hmem hc
      rw [hchars', heq, hextract]
    rcases hbrace with h | h
    · exact hwhole '\x7b' (by decide) h (by decide)
    · exact hwhole '\x7d' (by decide) h (by decide)

/-- The witness of C13: in the tokens of `f(x){`, the brace is a line of its
own, and the token `(` is that single character. -/
theorem separators_are_single_tokens_witness :
    Interpreter.read_input_file_and_parse_into_tokens "f(x)\x7b".data =
      [["f", "(", "x", ")"], ["\x7b"]] ∧
    ((∀ c ∈ "\x7b".data, is_separator c → "\x7b" = String.mk [c]) ∧
      ("\x7b" = "\x7b" ∨ "\x7b" = "\x7d" → ["\x7b"] = ["\x7b"])) :=
  ⟨by decide,
   separators_are_single_tokens "f(x)\x7b".data ["\x7b"] "\x7b" (by decide) (by decide)⟩

/-- C23: for every non-empty line `first :: rest`, `get_next_statement_node_type`
returns the kind of the first matching rule: second token `=` gives Assignment,
whatever the first token; otherwise the first token `if`, `return`, `print`,
`function`, `while` gives If/Else, Return, Print, Function Definition, While;
otherwise a first token in the function table gives lone Function Call; and
every other line is classified as Assignment. -/
theorem statement_dispatch_first_matching_rule (interpreter : Interpreter) (start_line : Nat)
    (first : Token) (rest : List Token)
    (hline : interpreter.lines[start_line]? = some (first :: rest)) :
    (rest.head? = some "=" →
      interpreter.get_next_statement_node_type start_line = .ok .ASSIGNMENT) ∧
    (rest.head? ≠ some "=" →
      (first = "if" → interpreter.get_next_statement_node_type start_line = .ok .IF_ELSE) ∧
      (first = "return" →
        interpreter.get_next_statement_node_type start_line = .ok .RETURN) ∧
      (first = "print" → interpreter.get_next_statement_node_type start_line = .ok .PRINT) ∧
      (first = "function" →
        interpreter.get_next_statement_node_type start_line = .ok .FUNCTION_DEFINITION) ∧
      (first = "while" → interpreter.get_next_statement_node_type start_line = .ok .WHILE) ∧
      (first ∉ ["if", "return", "print", "function", "while"] →
        ((StdMap.find interpreter.function_map first).isSome = true →
          interpreter.get_next_statement_node_type start_line = .ok .LONE_FUNCTION_CALL) ∧
        (StdMap.find interpreter.function_map first = none →
          interpreter.get_next_statement_node_type start_line = .ok .ASSIGNMENT))) := by
  refine ⟨?_, ?_⟩
  · intro h
    cases rest with
    | nil => simp at h
    | cons second rest =>
      simp only [List.head?_cons, Option.some.injEq] at h
      subst h
      simp [Interpreter.get_next_statement_node_type, hline]
  · intro h
    have hsecond : ¬(1 < (first :: rest).length ∧ (first :: rest).get? 1 = some "=") := by
      rintro ⟨_, h2⟩
      cases rest with
      | nil => simp at h2
      | cons second rest => exact h (by simpa using h2)
    unfold Interpreter.get_next_statement_node_type
    rw [hline]
    simp only [hsecond, if_false, List.head?_cons]
    refine ⟨?_, ?_, ?_, ?_, ?_, ?_⟩
    · rintro rfl; simp
    · rintro rfl; simp
    · rintro rfl; simp
    · rintro rfl; simp
    · rintro rfl; simp
    · intro hkey
      simp only [List.mem_cons, List.mem_singleton, List.not_mem_nil, or_false, not_or] at hkey
      obtain ⟨h1, h2, h3, h4, h5⟩ := hkey
      refine ⟨fun hf => ?_, fun hf => ?_⟩
      · simp [h1, h2, h3, h4, h5, Interpreter.token_is_function_name, hf]
      · simp [h1, h2, h3, h4, h5, Interpreter.token_is_function_name, hf]

/-- The witness of C23: the line `print = 3` is an Assignment. -/
theorem statement_dispatch_first_matching_rule_witness :
    Interpreter.get_next_statement_node_type
      { lines := [["print", "=", "3"]], function_map := [] } 0 = .ok .ASSIGNMENT :=
  (statement_dispatch_first_matching_rule { lines := [["print", "=", "3"]], function_map := [] }
    0 "print" ["=", "3"] (by decide)).1 (by decide)

/-- C24 (as amended): for every line and token span `[start_index, end_index]`
of it, with first token `first`: a span of exactly one token is an Operand,
which is a literal with the integer value of its leading decimal digits when
the token's first character is a digit and that value is at most 2147483647,
and an identifier when the first character is not a digit; a longer span whose
first token is in the function table is a Function Call; every other span is
a Binary Operation, and for a span of exactly three tokens the node built is
the operation of the middle token applied to the operands of the first and
third tokens; each operator token names its operation. -/
theorem value_classification (interpreter : Interpreter) (start_line start_index
    end_index : Nat) (line : Line) (first : Token)
    (hline : interpreter.lines[start_line]? = some line)
    (hfirst : line.get? start_index = some first) (hspan : start_index ≤ end_index) :
    (end_index = start_index →
      interpreter.get_assignment_value_type line start_index end_index = .ok .OPERAND ∧
      interpreter.parse_assignment_value_node start_line start_index end_index =
        Interpreter.parse_operand_token first) ∧
    (starts_with_digit first = true → leading_digits_value first ≤ 2147483647 →
      Interpreter.parse_operand_token first = .ok (literal (leading_digits_value first))) ∧
    (starts_with_digit first = false →
      Interpreter.parse_operand_token first = .ok (identifier first)) ∧
    (start_index < end_index → (StdMap.find interpreter.function_map first).isSome = true →
      interpreter.get_assignment_value_type line start_index end_index = .ok .FUNCTION_CALL ∧
      interpreter.parse_assignment_value_node start_line start_index end_index =
        interpreter.parse_function_call_node start_line) ∧
    (start_index < end_index → StdMap.find interpreter.function_map first = none →
      interpreter.get_assignment_value_type line start_index end_index =
        .ok .BINARY_OPERATION ∧
      ∀ op right : Token, end_index = start_index + 2 →
        line.get? (start_index + 1) = some op → line.get? (start_index + 2) = some right →
        interpreter.parse_assignment_value_node start_line start_index end_index =
          (Interpreter.parse_operand_token first).bind fun left_operand =>
            (Interpreter.parse_operand_token right).bind fun right_operand =>
              .ok (.BinaryOperationNode (Interpreter.binary_operation_token_to_enum op)
                left_operand right_operand)) ∧
    (∀ entry ∈ operator_table,
      Interpreter.binary_operation_token_to_enum entry.1 = entry.2) := by
  refine ⟨?_, ?_, ?_, ?_, ?_, ?_⟩
  · intro h
    subst h
    have htype : interpreter.get_assignment_value_type line end_index end_index =
        .ok .OPERAND := by
      simp [Interpreter.get_assignment_value_type]
    refine ⟨htype, ?_⟩
    simp only [Interpreter.parse_assignment_value_node, hline, htype, Outcome.bind_ok, hfirst]
  · intro h hr
    rw [Interpreter.parse_operand_token_digit h, if_pos hr]
  · exact Interpreter.parse_operand_token_identifier
  · intro hlt hfind
    have hlen : ¬((end_index : Int) - (start_index : Int) + 1 = 1) := by omega
    have htype : interpreter.get_assignment_value_type line start_index end_index =
        .ok .FUNCTION_CALL := by
      simp only [Interpreter.get_assignment_value_type, hlen, if_false, hfirst, hfind, if_true]
    refine ⟨htype, ?_⟩
    simp only [Interpreter.parse_assignment_value_node, hline, htype, Outcome.bind_ok]
  · intro hlt hfind
    have hlen : ¬((end_index : Int) - (start_index : Int) + 1 = 1) := by omega
    have htype : interpreter.get_assignment_value_type line start_index end_index =
        .ok .BINARY_OPERATION := by
      simp only [Interpreter.get_assignment_value_type, hlen, if_false, hfirst, hfind]
      rfl
    refine ⟨htype, ?_⟩
    intro op right _ hop hright
    simp only [Interpreter.parse_assignment_value_node, hline, htype, Outcome.bind_ok, hfirst,
      hop, hright, Interpreter.parse_binary_operation_node]
  · decide

/-- The witness of C24: in `x = -5` the span of the token `-5` is an Operand,
an identifier; in `x = 12 + y` the span of three tokens is the Binary
Operation ADD of the literal 12 and the identifier `y`. -/
theorem value_classification_witness :
    Interpreter.parse_assignment_value_node
      { lines := [["x", "=", "-5"]], function_map := [] } 0 2 2 = .ok (identifier "-5") ∧
    Interpreter.parse_assignment_value_node
      { lines := [["x", "=", "12", "+", "y"]], function_map := [] } 0 2 4 =
        .ok (.BinaryOperationNode .ADD (literal 12) (identifier "y")) :=
  ⟨((value_classification { lines := [["x", "=", "-5"]], function_map := [] } 0 2 2
      ["x", "=", "-5"] "-5" (by decide) (by decide) (by decide)).1 rfl).2.trans
    ((value_classification { lines := [["x", "=", "-5"]], function_map := [] } 0 2 2
      ["x", "=", "-5"] "-5" (by decide) (by decide) (by decide)).2.2.1 (by decide)),
   ((value_classification { lines := [["x", "=", "12", "+", "y"]], function_map := [] } 0 2 4
      ["x", "=", "12", "+", "y"] "12" (by decide) (by decide) (by decide)).2.2.2.2.1
        (by decide) rfl).2 "+" "y" (by decide) (by decide) (by decide)⟩

/-- C24 as stated fails: in `x = 2147483648` the span of the one token
`2147483648`, whose first character is a digit, is classified as an Operand,
but no literal is built: the conversion of the token throws. -/
theorem value_classification_large_literal_throws :
    starts_with_digit "2147483648" = true ∧
    Interpreter.get_assignment_value_type
      { lines := [["x", "=", "2147483648"]], function_map := [] }
      ["x", "=", "2147483648"] 2 2 = .ok .OPERAND ∧
    Interpreter.parse_assignment_value_node
      { lines := [["x", "=", "2147483648"]], function_map := [] } 0 2 2 =
        .uncaught_exception := by
  refine ⟨by decide, by decide, by rfl⟩

/-- C21: for every sequence of non-empty lines and every index `o`,
`get_closing_brace_line o` returns the smallest index `j > o` at which the
nesting depth, started at 1 and increased by each line of `o+1..j` whose first
token is `{` and decreased by each whose first token is `}`, is 0; it returns
-1 exactly when there is no such line, and nothing else; and at the index `j`
it returns, line `j` is a `}` line and the lines strictly between `o` and `j`
are balanced: the depth stays at least 1 and is back at 1 before line `j`. -/
theorem get_closing_brace_line_finds_matching_brace (interpreter : Interpreter) (o : Nat)
    (hne : ∀ line ∈ interpreter.lines, line ≠ []) :
    (∀ j : Nat, interpreter.get_closing_brace_line o = .ok (j : Int) ↔
      o < j ∧ j < interpreter.lines.length ∧ nesting_depth interpreter.lines o j = 0 ∧
        ∀ k, o < k → k < j → nesting_depth interpreter.lines o k ≠ 0) ∧
    (interpreter.get_closing_brace_line o = .ok (-1) ↔
      ∀ k, o < k → k < interpreter.lines.length →
        nesting_depth interpreter.lines o k ≠ 0) ∧
    (∃ r, interpreter.get_closing_brace_line o = .ok r ∧ (r = -1 ∨ ∃ j : Nat, r = j)) ∧
    (∀ j : Nat, interpreter.get_closing_brace_line o = .ok (j : Int) →
      (interpreter.lines.get? j).bind List.head? = some "\x7d" ∧
      nesting_depth interpreter.lines o (j - 1) = 1 ∧
      ∀ k, o < k → k < j → 1 ≤ nesting_depth interpreter.lines o k) := by
  have hrest : ∀ line ∈ interpreter.lines.drop (o + 1), line ≠ [] :=
    fun line hl => hne line (List.mem_of_mem_drop hl)
  obtain ⟨h1, h2, h3⟩ :=
    closing_brace_loop_spec (interpreter.lines.drop (o + 1)) (o + 1) 1 hrest
  have hlen : (interpreter.lines.drop (o + 1)).length = interpreter.lines.length - (o + 1) :=
    List.length_drop _ _
  have hfound : ∀ j : Nat, interpreter.get_closing_brace_line o = .ok (j : Int) ↔
      o < j ∧ j < interpreter.lines.length ∧ nesting_depth interpreter.lines o j = 0 ∧
        ∀ k, o < k → k < j → nesting_depth interpreter.lines o k ≠ 0 := by
    intro j
    unfold Interpreter.get_closing_brace_line nesting_depth
    by_cases hj : o < j
    · obtain ⟨n, rfl⟩ : ∃ n, j = o + 1 + n := ⟨j - (o + 1), by omega⟩
      rw [h1 n, hlen]
      have e1 : o + 1 + n - o = n + 1 := by omega
      rw [e1]
      constructor
      · rintro ⟨a, b, c⟩
        refine ⟨hj, by omega, b, fun k hk1 hk2 => ?_⟩
        obtain ⟨m, rfl⟩ : ∃ m, k = o + 1 + m := ⟨k - (o + 1), by omega⟩
        have e2 : o + 1 + m - o = m + 1 := by omega
        rw [e2]
        exact c m (by omega)
      · rintro ⟨_, a, b, c⟩
        refine ⟨by omega, b, fun m hm => ?_⟩
        have := c (o + 1 + m) (by omega) (by omega)
        have e2 : o + 1 + m - o = m + 1 := by omega
        rwa [e2] at this
    · constructor
      · intro h
        obtain ⟨r, hr, hr'⟩ := h3
        rw [hr] at h
        have := Outcome.ok.inj h
        rcases hr' with hr' | ⟨n, hn⟩
        · omega
        · omega
      · rintro ⟨h, _⟩
        exact absurd h hj
  refine ⟨hfound, ?_, ?_, ?_⟩
  · unfold Interpreter.get_closing_brace_line nesting_depth
    rw [h2, hlen]
    constructor
    · intro h k hk1 hk2
      obtain ⟨m, rfl⟩ : ∃ m, k = o + 1 + m := ⟨k - (o + 1), by omega⟩
      have e2 : o + 1 + m - o = m + 1 := by omega
      rw [e2]
      exact h m (by omega)
    · intro h m hm
      have := h (o + 1 + m) (by omega) (by omega)
      have e2 : o + 1 + m - o = m + 1 := by omega
      rwa [e2] at this
  · obtain ⟨r, hr, hr'⟩ := h3
    refine ⟨r, hr, ?_⟩
    rcases hr' with hr' | ⟨n, hn⟩
    · exact Or.inl hr'
    · exact Or.inr ⟨o + 1 + n, hn⟩
  · intro j hj
    have hj' := hj
    unfold Interpreter.get_closing_brace_line at hj'
    obtain ⟨hoj, _, _, _⟩ := (hfound j).1 hj
    obtain ⟨n, rfl⟩ : ∃ n, j = o + 1 + n := ⟨j - (o + 1), by omega⟩
    obtain ⟨a, b, c⟩ := (h1 n).1 hj'
    obtain ⟨d1, d2, d3⟩ := depth_before_first_zero _ n a b c
    refine ⟨?_, ?_, ?_⟩
    · have hget : interpreter.lines.get? (o + 1 + n) =
          some ((interpreter.lines.drop (o + 1)).get ⟨n, a⟩) := by
        simp [List.getElem?_eq_getElem, List.getElem_drop]
      rw [hget]
      exact d3
    · unfold nesting_depth
      have e : o + 1 + n - 1 - o = n := by omega
      rw [e]
      exact d2
    · intro k hk1 hk2
      unfold nesting_depth
      exact d1 (k - o) (by omega)

/-- The witness of C21: in the lines `while`, `{`, `if`, `{`, `x`, `}`, `}`,
`y`, the brace opened at line 1 is closed at line 6, and the brace at line 3
at line 5. -/
theorem get_closing_brace_line_finds_matching_brace_witness :
    Interpreter.get_closing_brace_line
      { lines := [["while"], ["\x7b"], ["if"], ["\x7b"], ["x"], ["\x7d"], ["\x7d"], ["y"]],
        function_map := [] } 1 = .ok 6 :=
  ((get_closing_brace_line_finds_matching_brace
    { lines := [["while"], ["\x7b"], ["if"], ["\x7b"], ["x"], ["\x7d"], ["\x7d"], ["y"]],
      function_map := [] } 1 (by decide)).1 6).2
    ⟨by decide, by decide, by decide, fun k h1 h2 => by interval_cases k <;> decide⟩

/-- C25: the initial environment is well formed (a frame, a boundary, every
boundary the index of a frame), and from a well-formed environment, for any
tree and any budget, whether or not the evaluation returns: every call of
`evaluate` that the evaluation arrives at starts in a well-formed environment;
every evaluation that returns ends in one; in a well-formed environment read
and write return (they index no empty or out-of-range frame), the write
leaves a well-formed environment, and so does entering a block or a function
scope and binding any argument values after entering a function scope; the
scope exit after a `while` body and after a function body returns and leaves
a well-formed environment; and when the evaluation has undefined
behaviour, it has arrived at a binary operation whose operands evaluated and
whose arithmetic is undefined on their values, so no read, write or scope
exit is what failed. -/
theorem environment_stays_well_formed :
    Variables.initial.Valid ∧
    (∀ (fuel fuel' : Nat) (node node' : SyntaxTreeNode) (state state' : ProgramState),
      state.vars.Valid → Reaches fuel node state fuel' node' state' → state'.vars.Valid) ∧
    (∀ (fuel : Nat) (node : SyntaxTreeNode) (state : ProgramState) (r : EvaluationResult)
      (state' : ProgramState), state.vars.Valid →
      SyntaxTreeNode.evaluate fuel node state = .ok (r, state') → state'.vars.Valid) ∧
    (∀ vars : Variables, vars.Valid → ∀ (name : String) (value : Int),
      (∃ v, vars.get_variable_value name = .ok v) ∧
      (∃ vars1, vars.assign_variable_and_initialize_if_necessary name value = .ok vars1 ∧
        vars1.Valid)) ∧
    (∀ vars : Variables, vars.Valid →
      vars.enter_block_scope.Valid ∧ vars.enter_function_scope.Valid) ∧
    (∀ (vars : Variables) (argument_values : StdMap Int), vars.Valid →
      ∃ vars1, assign_argument_values argument_values vars.enter_function_scope = .ok vars1 ∧
        vars1.Valid) ∧
    (∀ (fuel : Nat) (body : SyntaxTreeNode) (state body_state : ProgramState)
      (r : EvaluationResult), state.vars.Valid →
      SyntaxTreeNode.evaluate fuel body { state with vars := state.vars.enter_block_scope } =
        .ok (r, body_state) →
      ∃ vars1, body_state.vars.exit_block_scope = .ok vars1 ∧ vars1.Valid) ∧
    (∀ (fuel : Nat) (body : SyntaxTreeNode) (arguments : List (String × SyntaxTreeNode))
      (state state1 body_state : ProgramState) (r : EvaluationResult), state.vars.Valid →
      function_call_entry (SyntaxTreeNode.evaluate fuel) arguments state = .ok state1 →
      SyntaxTreeNode.evaluate fuel body state1 = .ok (r, body_state) →
      ∃ vars1, body_state.vars.exit_function_scope = .ok vars1 ∧ vars1.Valid) ∧
    (∀ (fuel : Nat) (node : SyntaxTreeNode) (state : ProgramState), state.vars.Valid →
      SyntaxTreeNode.evaluate fuel node state = .undefined_behaviour →
      ReachesUndefinedArithmetic fuel node state) := by
  refine ⟨by decide, ?_, ?_, ?_, ?_, ?_, ?_, ?_, ?_⟩
  · intro fuel fuel' node node' state state' hvalid h
    exact h.reached_valid hvalid
  · intro fuel node state r state' hvalid h
    exact (SyntaxTreeNode.evaluate_sound fuel node state r state' h hvalid.top_boundary).valid
      hvalid
  · intro vars hvalid name value
    refine ⟨Variables.get_variable_value_defined hvalid.top_boundary name, ?_⟩
    obtain ⟨vars1, h1⟩ := Variables.assign_defined hvalid.top_boundary name value
    exact ⟨vars1, h1, (Variables.assign_extends hvalid.top_boundary h1).1.valid hvalid⟩
  · intro vars hvalid
    exact ⟨Variables.enter_block_scope_valid hvalid, Variables.enter_function_scope_valid hvalid⟩
  · intro vars argument_values hvalid
    have hentered := Variables.enter_function_scope_valid hvalid
    obtain ⟨vars1, h1⟩ := assign_argument_values_defined argument_values _
      hentered.top_boundary
    exact ⟨vars1, h1, (assign_argument_values_extends argument_values _ vars1
      hentered.top_boundary h1).valid hentered⟩
  · intro fuel body state body_state r hvalid hbody
    exact while_body_exit_valid fuel body state body_state r hvalid hbody
  · intro fuel body arguments state state1 body_state r hvalid hentry hbody
    exact function_body_exit_valid fuel body arguments state state1 body_state r hvalid
      hentry hbody
  · intro fuel node state hvalid h
    exact SyntaxTreeNode.evaluate_undefined fuel node state hvalid.top_boundary h

/-- The witness of C25: in `x = 1`, `while ( x == 1 ) { y = x / 0 }`, whose
evaluation does not return, the division is arrived at in a well-formed
environment (two frames, boundary stack [0]) and is what is undefined; and the
program whose `while` body returns early leaves a second frame on the stack
in an environment that is still well formed. -/
theorem environment_stays_well_formed_witness :
    Reaches 5 dividing_loop_program ProgramState.initial 2
      (.BinaryOperationNode .DIVIDE (identifier "x") (literal 0)) division_state ∧
    division_state.vars.Valid ∧
    SyntaxTreeNode.evaluate 5 dividing_loop_program ProgramState.initial =
      .undefined_behaviour ∧
    ReachesUndefinedArithmetic 5 dividing_loop_program ProgramState.initial ∧
    leaked_frame_state.vars.scoped_variables.length = 2 ∧ leaked_frame_state.vars.Valid :=
  have hreaches : Reaches 5 dividing_loop_program ProgramState.initial 2
      (.BinaryOperationNode .DIVIDE (identifier "x") (literal 0)) division_state :=
    Reaches.call
      (@CallsChild.statement 4 [.AssignmentNode "x" (literal 1)] []
        (.WhileNode (.BinaryOperationNode .EQUAL (identifier "x") (literal 1))
          (.AssignmentNode "y" (.BinaryOperationNode .DIVIDE (identifier "x") (literal 0))))
        ProgramState.initial
        { vars := { scoped_variables := [[("x", 1)]], function_scope_indices := [0] },
          cout := [] }
        (@RunsWithoutReturn.cons _ _ _ _ _ _ { expression_value := 1 } (by decide) rfl
          (RunsWithoutReturn.nil _)))
      (Reaches.call
        (@CallsChild.while_body 3 0 _ _ _ _
          { vars := { scoped_variables := [[("x", 1)]], function_scope_indices := [0] },
            cout := [] }
          { expression_value := 1 }
          (WhileIterations.zero _) (by decide) (by decide) rfl)
        (Reaches.call CallsChild.assignment_value (Reaches.here _ _ _)))
  ⟨hreaches,
   environment_stays_well_formed.2.1 5 2 dividing_loop_program
     (.BinaryOperationNode .DIVIDE (identifier "x") (literal 0)) ProgramState.initial
     division_state (by decide) hreaches,
   by decide,
   environment_stays_well_formed.2.2.2.2.2.2.2.2 5 dividing_loop_program ProgramState.initial
     (by decide) (by decide),
   rfl,
   environment_stays_well_formed.2.2.1 10 leaking_call_program ProgramState.initial {}
     leaked_frame_state (by decide) (by decide)⟩


/-- C26: for every sequence of lines, well formed or not, every call of
`parse_single_statement_node` that returns leaves the cursor strictly greater
than on entry; so the loop of `parse_block(start, end)` makes at most
`end - start + 1` iterations (a budget above that is not used up), and parsing
terminates: with a budget above the number of lines after the cursor,
`parse_block` does not run out of it; and for a braced block of well-formed
lines, the closing brace found is the matching one and `parse_braces_block`
leaves the cursor on the line just after it. -/
theorem parsing_makes_progress :
    (∀ (fuel : Nat) (interpreter : Interpreter) (start_line : Nat) (node : SyntaxTreeNode)
      (interpreter' : Interpreter) (next : Nat),
      Interpreter.parse_single_statement_node (Interpreter.parse_block fuel) interpreter
        start_line = .ok (node, interpreter', next) →
      start_line < next ∧ interpreter'.lines = interpreter.lines) ∧
    (∀ (fuel n : Nat) (interpreter : Interpreter) (start_line : Nat) (end_line : Int)
      (nodes : List SyntaxTreeNode),
      interpreter.lines.length - start_line ≤ fuel → 0 < n →
      end_line - (start_line : Int) + 1 < (n : Int) →
      Interpreter.parse_block_loop
        (Interpreter.parse_single_statement_node (Interpreter.parse_block fuel)) n
        interpreter start_line end_line nodes ≠ .out_of_fuel) ∧
    (∀ (fuel : Nat) (interpreter : Interpreter) (start_line : Nat) (end_line : Int),
      interpreter.lines.length - start_line < fuel →
      Interpreter.parse_block fuel interpreter start_line end_line ≠ .out_of_fuel) ∧
    (∀ (fuel : Nat) (interpreter : Interpreter) (pre body post : List Line)
      (open_line close_line : Line) (node : SyntaxTreeNode) (interpreter' : Interpreter)
      (next : Nat),
      interpreter.lines = pre ++ open_line :: (body ++ close_line :: post) →
      WellFormedLines body → close_line.head? = some "\x7d" →
      Interpreter.parse_braces_block (Interpreter.parse_block fuel) interpreter pre.length =
        .ok (node, interpreter', next) →
      interpreter.get_closing_brace_line pre.length =
        .ok ((pre.length + 1 + body.length : Nat) : Int) ∧
      next = pre.length + body.length + 2) := by
  refine ⟨?_, ?_, ?_, ?_⟩
  · intro fuel interpreter start_line node interpreter' next h
    obtain ⟨h1, h2⟩ := Interpreter.parse_single_statement_node_sound
      (Interpreter.parse_block_sound fuel) interpreter start_line node interpreter' next h
    exact ⟨h1, h2.1⟩
  · intro fuel n interpreter start_line end_line nodes hfuel hn hbudget
    exact Interpreter.parse_block_loop_iterations fuel interpreter.lines end_line n interpreter
      start_line nodes rfl hfuel hn hbudget
  · exact Interpreter.parse_block_ne_out_of_fuel
  · intro fuel interpreter pre body post open_line close_line node interpreter' next hlines
      hwf hclose h
    refine ⟨Interpreter.get_closing_brace_line_well_formed hlines hwf hclose, ?_⟩
    refine Interpreter.parse_braces_block_next hlines hwf hclose ?_ h
    intro fuel1 n nodes nodes' interpreter1 next1 hloop
    exact Interpreter.parse_block_loop_well_formed hwf fuel1 n (pre ++ [open_line])
      (close_line :: post) interpreter _ _ nodes nodes' interpreter1 next1
      (by simp [hlines]) (by simp) rfl
      (by
        intro line hl
        simp only [List.head?_cons, Option.mem_def, Option.some.injEq] at hl
        subst hl
        rw [hclose]
        decide) hloop

/-- The witness of C26: in `while ( i < 3 )`, `{`, `print ( i )`, `}`, `y = 1`
the statement at line 0 leaves the cursor at line 4, and the braced block
opened at line 1, whose closing brace is at line 3, is parsed up to line 4. -/
theorem parsing_makes_progress_witness :
    (Interpreter.parse_single_statement_node (Interpreter.parse_block 3)
        while_block_interpreter 0 =
      .ok (.WhileNode (.BinaryOperationNode .LESS (identifier "i") (literal 3))
        (.PrintNode (identifier "i")), while_block_interpreter, 4) ∧ 0 < 4) ∧
    (Interpreter.parse_braces_block (Interpreter.parse_block 3) while_block_interpreter 1 =
      .ok (.PrintNode (identifier "i"), while_block_interpreter, 4) ∧
      Interpreter.get_closing_brace_line while_block_interpreter 1 = .ok 3) :=
  ⟨⟨rfl, (parsing_makes_progress.1 3 while_block_interpreter 0
      (.WhileNode (.BinaryOperationNode .LESS (identifier "i") (literal 3))
        (.PrintNode (identifier "i")))
      while_block_interpreter 4 rfl).1⟩,
   ⟨rfl, (parsing_makes_progress.2.2.2 3 while_block_interpreter
      [["while", "(", "i", "<", "3", ")"]] [["print", "(", "i", ")"]] [["y", "=", "1"]]
      ["\x7b"] ["\x7d"] (.PrintNode (identifier "i")) while_block_interpreter 4 rfl
      (.simple ⟨"print", ["(", "i", ")"], rfl, by decide, by decide,
        Or.inr ⟨by decide, by decide, by decide⟩⟩ .nil) rfl rfl).1⟩⟩

/-- C22: a function definition parses its body with the function table as it
is on entry and enters the name, with the parsed body, only afterwards; a
Function-Call node holds the body found in the table when its line is parsed;
a name known after a block was parsed was known before or is the name of a
definition line among the lines parsed; and while `f` is not in the table, the
lines `x = f ( n )` and `return f ( n )` are parsed as the Binary Operation of
`f`, `(` and `n`, which is never a Function-Call node. -/
theorem function_known_only_after_definition :
    (∀ (block : ParseBlock) (interpreter : Interpreter) (start_line : Nat)
      (node : SyntaxTreeNode) (interpreter' : Interpreter) (next : Nat),
      Interpreter.parse_function_definition block interpreter start_line =
        .ok (node, interpreter', next) →
      ∃ (details : FunctionSignatureDetails) (body : SyntaxTreeNode)
        (body_interpreter : Interpreter),
        Interpreter.parse_braces_block block interpreter (start_line + 1) =
          .ok (body, body_interpreter, next) ∧
        interpreter'.lines = body_interpreter.lines ∧
        interpreter'.function_map = StdMap.assign body_interpreter.function_map details.name
          { body := body, parameters := details.inputs } ∧
        node = .EmptyNode) ∧
    (∀ (interpreter : Interpreter) (start_line : Nat) (node : SyntaxTreeNode),
      interpreter.parse_function_call_node start_line = .ok node →
      ∃ (name : Token) (function_data : FunctionData)
        (arguments : List (String × SyntaxTreeNode)),
        StdMap.find interpreter.function_map name = some function_data ∧
        node = .FunctionNode function_data.body arguments) ∧
    (∀ (fuel : Nat) (interpreter : Interpreter) (start_line : Nat) (end_line : Int)
      (node : SyntaxTreeNode) (interpreter' : Interpreter) (next : Nat),
      Interpreter.parse_block fuel interpreter start_line end_line =
        .ok (node, interpreter', next) →
      ∀ name, (StdMap.find interpreter'.function_map name).isSome = true →
        (StdMap.find interpreter.function_map name).isSome = true ∨
          ∃ k, start_line ≤ k ∧ k < next ∧ defines interpreter.lines k name) ∧
    (∀ (interpreter : Interpreter) (start_line : Nat) (f x n : Token) (tail : List Token),
      StdMap.find interpreter.function_map f = none →
      (interpreter.lines[start_line]? = some (x :: "=" :: f :: "(" :: n :: tail) →
        interpreter.parse_assignment_node start_line =
          (Interpreter.parse_binary_operation_node f "(" n).bind fun value =>
            .ok (.AssignmentNode x value, interpreter, start_line + 1)) ∧
      (interpreter.lines[start_line]? = some ("return" :: f :: "(" :: n :: tail) →
        interpreter.parse_return_node start_line =
          (Interpreter.parse_binary_operation_node f "(" n).bind fun value =>
            .ok (.ReturnNode value, interpreter, start_line + 1))) ∧
    (∀ (left op right : Token) (node : SyntaxTreeNode),
      Interpreter.parse_binary_operation_node left op right = .ok node →
      node.node_type = .BINARY_OPERATION) := by
  refine ⟨?_, ?_, ?_, ?_, ?_⟩
  · intro block interpreter start_line node interpreter' next h
    unfold Interpreter.parse_function_definition at h
    split at h
    · cases h
    · obtain ⟨details, _, h1⟩ := Outcome.bind_eq_ok h
      obtain ⟨⟨body, body_interpreter, body_next⟩, hbody, h2⟩ := Outcome.bind_eq_ok h1
      have h3 := Outcome.ok.inj h2
      simp only [Prod.mk.injEq] at h3
      obtain ⟨h4, h5, h6⟩ := h3
      subst h4 h5 h6
      exact ⟨details, body, body_interpreter, hbody, rfl, rfl, rfl⟩
  · intro interpreter start_line node h
    unfold Interpreter.parse_function_call_node at h
    split at h
    · cases h
    · obtain ⟨details, _, h1⟩ := Outcome.bind_eq_ok h
      obtain ⟨argument_nodes, _, h2⟩ := Outcome.bind_eq_ok h1
      split at h2
      · cases h2
      · rename_i function_data hfind
        obtain ⟨argument_map, _, h3⟩ := Outcome.bind_eq_ok h2
        exact ⟨details.name, function_data, argument_map, hfind, (Outcome.ok.inj h3).symm⟩
  · intro fuel interpreter start_line end_line node interpreter' next h
    exact (Interpreter.parse_block_sound fuel interpreter start_line end_line node interpreter'
      next h).2.2
  · intro interpreter start_line f x n tail hfind
    have hno : (StdMap.find interpreter.function_map f).isSome = false := by rw [hfind]; rfl
    refine ⟨fun hline => ?_, fun hline => ?_⟩
    · have hlen : ¬(((x :: "=" :: f :: "(" :: n :: tail).length : Int) - 1 - ((2 : Nat) : Int)
          + 1 = 1) := by
        simp only [List.length_cons]
        push_cast
        omega
      simp only [Interpreter.parse_assignment_node, hline, List.head?_cons,
        Interpreter.parse_assignment_value_node, Interpreter.get_assignment_value_type, hlen,
        if_false, List.get?_cons_succ, List.get?_cons_zero, hno, Bool.false_eq_true,
        Outcome.bind_ok]
    · have hlen : ¬((("return" :: f :: "(" :: n :: tail).length : Int) - 1 - ((1 : Nat) : Int)
          + 1 = 1) := by
        simp only [List.length_cons]
        push_cast
        omega
      simp only [Interpreter.parse_return_node, hline,
        Interpreter.parse_assignment_value_node, Interpreter.get_assignment_value_type, hlen,
        if_false, List.get?_cons_succ, List.get?_cons_zero, hno, Bool.false_eq_true,
        Outcome.bind_ok]
  · intro left op right node h
    unfold Interpreter.parse_binary_operation_node at h
    obtain ⟨l, _, h1⟩ := Outcome.bind_eq_ok h
    obtain ⟨r, _, h2⟩ := Outcome.bind_eq_ok h1
    rw [← Outcome.ok.inj h2]
    rfl

/-- The witness of C22: in `function f ( n ) { return f ( n ) }`,
`print ( f ( 3 ) )` the line `return f ( n )` of the body, parsed while `f` is
not in the table, is the return of a Binary Operation on the identifiers `f`
and `n`; the program does not call itself and prints 2, the sum of the unbound
`f` (-1) and 3. -/
theorem function_known_only_after_definition_witness :
    Interpreter.parse_return_node self_call_interpreter 2 =
      .ok (.ReturnNode (.BinaryOperationNode .ADD (identifier "f") (identifier "n")),
        self_call_interpreter, 3) ∧
    Interpreter.read_input_file_and_parse_into_tokens self_call_source =
      self_call_interpreter.lines ∧
    Interpreter.run 5 10 self_call_source = .ok [2] :=
  ⟨((function_known_only_after_definition.2.2.2.1 self_call_interpreter 2 "f" "x" "n" [")"]
      rfl).2 rfl).trans rfl, by decide, by decide⟩

end Interp
